import Mathlib

/-!
# SmartFarm irrigation schedulers

A shallow embedding of the three scheduler programs of the repository

* `src/backend/brute_force_scheduler.c`  (algorithm tag `GreedyNoTime`),
* `src/backend/dp_scheduler.c`           (algorithm tag `DynamicProgramming`),
* `src/backend/greedy_scheduler.c`       (algorithm tag `Greedy`),

followed by theorems about them.

Modelling conventions.

* A C `int` is an `Int`.  The programs are given in two forms.  In the namespaces
  `BruteForce`, `Greedy` and `Dp` the `int` operations are exact: these models describe the
  runs in which no `int` operation leaves the 32-bit range; the unconstrained greedy loop
  never does on a validated input.  In `Greedy.Machine` and `Dp.Machine` the result of every
  `+`, `-` and `*` that can leave the range goes through `wrapInt`, the reduction modulo
  `2^32` that the compiled programs perform, and a run of `dp_scheduler.c` that reads outside
  a row of its table has no result (`none`).  C division `/` truncates towards zero and is
  `Int.tdiv`.
* The array `fields[0 .. fieldCount-1]` is a `List`; `fieldCount` is its length.
* A loop over the array is a recursion over the list; a `break` returns the untouched rest.
* `qsort` belongs to the C library.  It is a parameter of the models; what is assumed about
  it is the contract `IsQsort`.  `insertionSort` is one executable function meeting it.
* The string functions that `parseInput` calls (`strstr`, `strchr`, `atoi`, ...) belong to the
  C library too.  `parseInput` is embedded over what they return, collected in `RawInput`.
* A cell of the dynamic-programming table is a rational or the sentinel `-FLT_MAX`, which is
  `⊥ : WithBot ℚ`, because adding any value of the program to `-FLT_MAX` gives `-FLT_MAX`
  again and no cell holding a real value is ever `≤ -FLT_MAX`.  In `Dp` the `float`
  operations are exact.  `Dp.Machine` takes the arithmetic as a parameter: `Dp.floatArith` is
  IEEE 754 arithmetic with round-to-nearest-even (`float` with 24 and `double` with 53
  significant bits, every operation rounded once), `Dp.exactArith` is the exact one.  The
  values that occur are far inside the normal range of `float`, and `malloc` is taken to
  succeed.
-/

namespace SmartFarm

/-! ## Data model shared by `brute_force_scheduler.c` and `dp_scheduler.c` -/

/-- The record `Field` of `brute_force_scheduler.c` and `dp_scheduler.c` (same text in both). -/
structure Field where
  name : String
  moisture : Int
  waterNeeded : Int
  allocated : Int
  scheduled : Int
  originalIndex : Int
deriving DecidableEq, Repr

/-- The record `IrrigationData` of `brute_force_scheduler.c` and `dp_scheduler.c`;
`fieldCount` is `fields.length`. -/
structure IrrigationData where
  fields : List Field
  totalWater : Int
  totalWaterUsed : Int
  remainingWater : Int
deriving DecidableEq, Repr

/-- The constant `MAX_FIELDS`. -/
def MAX_FIELDS : Nat := 10

/-- What a successful `parseInput` has checked (lines 70, 75, 108, 113): a positive budget,
between one and `MAX_FIELDS` fields, moisture in `0 .. 100` and a need that is not negative. -/
def Validated (data : IrrigationData) : Prop :=
  0 < data.totalWater ∧ 1 ≤ data.fields.length ∧ data.fields.length ≤ MAX_FIELDS ∧
  ∀ f ∈ data.fields, 0 ≤ f.moisture ∧ f.moisture ≤ 100 ∧ 0 ≤ f.waterNeeded

instance (data : IrrigationData) : Decidable (Validated data) := by
  unfold Validated; infer_instance

/-- What `parseInput` leaves in the members it does not read from the input: `allocated` and
`scheduled` are `0` (the `memset` of line 68) and `originalIndex` is the position in the
input (line 105). -/
def FreshlyParsed (fields : List Field) : Prop :=
  (∀ f ∈ fields, f.allocated = 0 ∧ f.scheduled = 0) ∧
  ∀ (k : Nat) (hk : k < fields.length), (fields[k]).originalIndex = (k : Int)

/-- The members of a record that identify the field and are never written after parsing. -/
def Field.identity (f : Field) : String × Int × Int × Int :=
  (f.name, f.moisture, f.waterNeeded, f.originalIndex)

/-- A field that received part of its need, but not all of it. -/
def Field.isPartial (f : Field) : Prop :=
  0 < f.allocated ∧ f.allocated < f.waterNeeded

/-- The comparator `compareFields` handed to `qsort` (same text in all three programs). -/
def compareFields (fieldA fieldB : Field) : Int :=
  if fieldA.moisture ≠ fieldB.moisture then
    fieldA.moisture - fieldB.moisture
  else
    fieldB.waterNeeded - fieldA.waterNeeded

/-- The contract of the C library `qsort` for a comparator `cmp`: the array afterwards is a
rearrangement of the array before, and no element is followed by one that compares below it. -/
def IsQsort {α : Type} (cmp : α → α → Int) (qsort : List α → List α) : Prop :=
  ∀ l : List α, (qsort l).Perm l ∧ (qsort l).Chain' (fun a b => cmp a b ≤ 0)

/-- Insertion of one element into a list ordered by `cmp`. -/
def orderedInsert {α : Type} (cmp : α → α → Int) (a : α) : List α → List α
  | [] => [a]
  | b :: l => if cmp a b ≤ 0 then a :: b :: l else b :: orderedInsert cmp a l

/-- An executable sorting function that meets `IsQsort` for a consistent comparator. -/
def insertionSort {α : Type} (cmp : α → α → Int) : List α → List α
  | [] => []
  | a :: l => orderedInsert cmp a (insertionSort cmp l)

/-- A sorting function that meets the contract of `qsort` and is not stable: records that
compare equal come out in the reverse of their input order. -/
def unstableSort {α : Type} (cmp : α → α → Int) (l : List α) : List α :=
  insertionSort cmp l.reverse

/-- What the string functions of `parseInput` find for one chunk `{ ... }` of the `fields`
array: the length of the chunk, the result of `extractJsonString` for `name` (`none` for
`NULL`) and the results of `extractJsonNumber` for `moisture` and `waterNeeded`. -/
structure RawObject where
  fieldLen : Nat
  name : Option String
  moisture : Int
  waterNeeded : Int
deriving DecidableEq, Repr

/-- What the string functions of `parseInput` find in the input text: the results of
`extractJsonNumber` for `totalWater` and `fieldCount`, whether `"fields":` followed by `[`
is found, and the chunks from a `{` to the next `}` after it, in order. -/
structure RawInput where
  totalWater : Int
  fieldCount : Int
  fieldsFound : Bool
  objects : List RawObject
deriving DecidableEq, Repr

/-- The `while` loop of `parseInput` (`brute_force_scheduler.c`, lines 91-122;
`dp_scheduler.c`, lines 105-143).  `stored` is `data->fields[0 .. fieldIndex-1]`, so
`fieldIndex` is `stored.length`; `none` is `return 0`. -/
def parseLoop (fieldCount : Int) : List RawObject → List Field → Option (List Field)
  | [], stored => some stored
  | o :: rest, stored =>
    if (stored.length : Int) < fieldCount then
      if o.fieldLen < 1024 then
        match o.name with
        | some nameBuffer =>
          if o.moisture < 0 ∨ o.moisture > 100 then none
          else if o.waterNeeded < 0 then none
          else
            parseLoop fieldCount rest
              (stored ++ [{ name := nameBuffer, moisture := o.moisture,
                            waterNeeded := o.waterNeeded, allocated := 0, scheduled := 0,
                            originalIndex := (stored.length : Int) }])
        | none => parseLoop fieldCount rest stored
      else parseLoop fieldCount rest stored
    else some stored

/-- The function `parseInput` of `brute_force_scheduler.c` and `dp_scheduler.c` (same text in
both) on what the string functions find; `none` is the return value `0`, `some data` is the
return value `1` with the record it has filled. -/
def parseInput (raw : RawInput) : Option IrrigationData :=
  if raw.totalWater ≤ 0 then none
  else if raw.fieldCount ≤ 0 ∨ raw.fieldCount > (MAX_FIELDS : Int) then none
  else if raw.fieldsFound = false then none
  else
    match parseLoop raw.fieldCount raw.objects [] with
    | none => none
    | some stored =>
      if stored.length > 0 then
        some { fields := stored, totalWater := raw.totalWater, totalWaterUsed := 0,
               remainingWater := 0 }
      else none

/-- The loop of `main` that clears `scheduled` and `allocated`
(`brute_force_scheduler.c`, lines 184-187). -/
def resetFields (fields : List Field) : List Field :=
  fields.map (fun f => { f with scheduled := 0, allocated := 0 })

/-- The inner `j` loop of the order restoration for a fixed `i`
(`brute_force_scheduler.c`, lines 209-215; `dp_scheduler.c`, lines 274-280).
`cur` is `fields[i]`, the list is `fields[i+1 ..]`; the result is `fields[i]` and
`fields[i+1 ..]` after the loop.  When `fields[j].originalIndex < fields[i].originalIndex`
the two records are exchanged. -/
def restoreInner (cur : Field) : List Field → Field × List Field
  | [] => (cur, [])
  | fj :: rest =>
    if fj.originalIndex < cur.originalIndex then
      let r := restoreInner fj rest
      (r.1, cur :: r.2)
    else
      let r := restoreInner cur rest
      (r.1, fj :: r.2)

/-- The outer `i` loop of the order restoration; the first argument counts the iterations
left, the list is `fields[i ..]`. -/
def restoreOuter : Nat → List Field → List Field
  | 0, fields => fields
  | _ + 1, [] => []
  | n + 1, fi :: rest =>
    let r := restoreInner fi rest
    r.1 :: restoreOuter n r.2

/-- The order restoration of `main`: `fieldCount` iterations of the outer loop. -/
def restoreOrder (fields : List Field) : List Field :=
  restoreOuter fields.length fields

/-! ## `brute_force_scheduler.c` -/

namespace BruteForce

/-- The allocation loop of `main` (lines 188-206), started at field `i` with the rest of the
array as the list.  The result is the rest of the array, `totalWaterUsed` and
`remainingWater` after the loop. -/
def allocLoop : List Field → Int → Int → List Field × Int × Int
  | [], totalWaterUsed, remainingWater => ([], totalWaterUsed, remainingWater)
  | f :: rest, totalWaterUsed, remainingWater =>
    if remainingWater ≥ f.waterNeeded then
      let r := allocLoop rest (totalWaterUsed + f.waterNeeded) (remainingWater - f.waterNeeded)
      ({ f with allocated := f.waterNeeded, scheduled := 1 } :: r.1, r.2)
    else if remainingWater > 0 then
      let minAllocation := f.waterNeeded.tdiv 10
      if remainingWater ≥ minAllocation then
        ({ f with allocated := remainingWater, scheduled := 1 } :: rest,
          totalWaterUsed + remainingWater, 0)
      else
        (f :: rest, totalWaterUsed, remainingWater)
    else
      (f :: rest, totalWaterUsed, remainingWater)

/-- The array in priority order as the allocation loop receives it: sorted, with `scheduled`
and `allocated` cleared. -/
def priorityFields (qsort : List Field → List Field) (data : IrrigationData) : List Field :=
  resetFields (qsort data.fields)

/-- The water left for position `k` of the priority order when every field before it has
received its full need. -/
def waterLeftAt (qsort : List Field → List Field) (data : IrrigationData) (k : Nat) : Int :=
  data.totalWater - (((priorityFields qsort data).take k).map Field.waterNeeded).sum

/-- The array in priority order after the allocation loop, before the order is restored. -/
def priorityResult (qsort : List Field → List Field) (data : IrrigationData) : List Field :=
  (allocLoop (resetFields (qsort data.fields)) 0 data.totalWater).1

/-- The water that remains when the loop reaches position `k` of the priority order. -/
def remainingAt (qsort : List Field → List Field) (data : IrrigationData) (k : Nat) : Int :=
  data.totalWater - (((priorityResult qsort data).take k).map Field.allocated).sum

/-- The body of `main` after a successful `parseInput` (lines 180-216): sort, clear, allocate,
restore the order.  The result is the record handed to `generateOutput`. -/
def main (qsort : List Field → List Field) (data : IrrigationData) : IrrigationData :=
  let sorted := qsort data.fields
  let r := allocLoop (resetFields sorted) 0 data.totalWater
  { data with fields := restoreOrder r.1, totalWaterUsed := r.2.1, remainingWater := r.2.2 }

end BruteForce

/-! ## `greedy_scheduler.c` -/

namespace Greedy

/-- The record `Field` of `greedy_scheduler.c`. -/
structure Field where
  name : String
  moisture : Int
  waterNeeded : Int
  timeNeeded : Int
  allocated : Int
  scheduled : Int
deriving DecidableEq, Repr

/-- The record `IrrigationData` of `greedy_scheduler.c`; `fieldCount` is `fields.length`. -/
structure IrrigationData where
  fields : List Field
  totalWater : Int
  totalElectricity : Int
  waterDeliveryRate : Int
  totalWaterUsed : Int
  totalTimeUsed : Int
  remainingWater : Int
  remainingElectricity : Int
  useTimeConstraints : Int
deriving DecidableEq, Repr

/-- The comparator `compareFields` of `greedy_scheduler.c`. -/
def compareFields (fieldA fieldB : Field) : Int :=
  if fieldA.moisture ≠ fieldB.moisture then
    fieldA.moisture - fieldB.moisture
  else
    fieldB.waterNeeded - fieldA.waterNeeded

/-- The function `calculateFieldTimes`, with exact `int` operations (see
`Greedy.Machine.calculateFieldTimes` for the machine's). -/
def calculateFieldTimes (data : IrrigationData) : IrrigationData :=
  let waterDeliveryRate := if data.waterDeliveryRate ≤ 0 then 50 else data.waterDeliveryRate
  { data with
    waterDeliveryRate := waterDeliveryRate
    fields := data.fields.map (fun f =>
      let timeNeeded := (f.waterNeeded + waterDeliveryRate - 1).tdiv waterDeliveryRate
      { f with timeNeeded := if timeNeeded ≤ 0 then 1 else timeNeeded }) }

/-- What a successful `parseInput` of `greedy_scheduler.c` has checked (lines 169, 184, 225,
231). -/
def Validated (data : IrrigationData) : Prop :=
  0 < data.totalWater ∧ 1 ≤ data.fields.length ∧ data.fields.length ≤ MAX_FIELDS ∧
  ∀ f ∈ data.fields, 0 ≤ f.moisture ∧ f.moisture ≤ 100 ∧ 0 ≤ f.waterNeeded

instance (data : IrrigationData) : Decidable (Validated data) := by
  unfold Validated; infer_instance

/-- The members of a record that identify the field. -/
def Field.identity (f : Field) : String × Int × Int :=
  (f.name, f.moisture, f.waterNeeded)

/-- The four running totals that the allocation loop of `scheduleIrrigation` updates. -/
structure Totals where
  remainingWater : Int
  remainingElectricity : Int
  totalWaterUsed : Int
  totalTimeUsed : Int
deriving DecidableEq, Repr

/-- The time-constrained branch of the loop body (lines 115-141) for one field: the field
and the totals afterwards, with exact `int` operations (see `Greedy.Machine.timeStep` for the
machine's). -/
def timeStep (waterDeliveryRate : Int) (f : Field) (t : Totals) : Field × Totals :=
  let minWater := f.waterNeeded.tdiv 10
  let minTime := (minWater + waterDeliveryRate - 1).tdiv waterDeliveryRate
  if t.remainingWater ≥ minWater ∧ t.remainingElectricity ≥ minTime then
    let waterToAllocate := f.waterNeeded
    let timeToAllocate := f.timeNeeded
    let clampW : Int × Int :=
      if waterToAllocate > t.remainingWater then
        (t.remainingWater, (t.remainingWater + waterDeliveryRate - 1).tdiv waterDeliveryRate)
      else (waterToAllocate, timeToAllocate)
    let clampT : Int × Int :=
      if clampW.2 > t.remainingElectricity then
        let waterToAllocate := t.remainingElectricity * waterDeliveryRate
        (if waterToAllocate > f.waterNeeded then f.waterNeeded else waterToAllocate,
          t.remainingElectricity)
      else clampW
    ({ f with allocated := clampT.1, scheduled := 1 },
      { remainingWater := t.remainingWater - clampT.1
        remainingElectricity := t.remainingElectricity - clampT.2
        totalWaterUsed := t.totalWaterUsed + clampT.1
        totalTimeUsed := t.totalTimeUsed + clampT.2 })
  else
    (f, t)

/-- The admission test of line 118 for one field and the totals at that moment. -/
def Admitted (waterDeliveryRate : Int) (f : Field) (t : Totals) : Prop :=
  t.remainingWater ≥ f.waterNeeded.tdiv 10 ∧
    t.remainingElectricity
      ≥ (f.waterNeeded.tdiv 10 + waterDeliveryRate - 1).tdiv waterDeliveryRate

/-- The allocation loop of `scheduleIrrigation` (lines 113-161), started at field `i` with
the rest of the array as the list. -/
def allocLoop (useTimeConstraints waterDeliveryRate : Int) :
    List Field → Totals → List Field × Totals
  | [], t => ([], t)
  | f :: rest, t =>
    if useTimeConstraints ≠ 0 then
      let s := timeStep waterDeliveryRate f t
      let r := allocLoop useTimeConstraints waterDeliveryRate rest s.2
      (s.1 :: r.1, r.2)
    else
      if t.remainingWater ≥ f.waterNeeded then
        let r := allocLoop useTimeConstraints waterDeliveryRate rest
          { t with remainingWater := t.remainingWater - f.waterNeeded
                   totalWaterUsed := t.totalWaterUsed + f.waterNeeded }
        ({ f with allocated := f.waterNeeded, scheduled := 1 } :: r.1, r.2)
      else if t.remainingWater > 0 then
        let minAllocation := f.waterNeeded.tdiv 10
        if t.remainingWater ≥ minAllocation then
          ({ f with allocated := t.remainingWater, scheduled := 1 } :: rest,
            { t with totalWaterUsed := t.totalWaterUsed + t.remainingWater
                     remainingWater := 0 })
        else
          (f :: rest, t)
      else
        (f :: rest, t)

/-- The function `scheduleIrrigation`; the record afterwards is the one handed to
`generateOutput`. -/
def scheduleIrrigation (qsort : List Field → List Field) (data : IrrigationData) :
    IrrigationData :=
  if data.fields.length ≤ 0 ∨ data.totalWater < 0 then
    data
  else
    let data := if data.useTimeConstraints ≠ 0 then calculateFieldTimes data else data
    let sorted := qsort data.fields
    let cleared := sorted.map (fun f => { f with scheduled := 0, allocated := 0 })
    let r := allocLoop data.useTimeConstraints data.waterDeliveryRate cleared
      { remainingWater := data.totalWater
        remainingElectricity := data.totalElectricity
        totalWaterUsed := 0
        totalTimeUsed := 0 }
    { data with
      fields := r.1
      remainingWater := r.2.remainingWater
      remainingElectricity := r.2.remainingElectricity
      totalWaterUsed := r.2.totalWaterUsed
      totalTimeUsed := r.2.totalTimeUsed }

/-- The array as the allocation loop of `scheduleIrrigation` receives it: times computed when
time constraints are on, sorted, `scheduled` and `allocated` cleared. -/
def priorityFields (qsort : List Field → List Field) (data : IrrigationData) : List Field :=
  (qsort (if data.useTimeConstraints ≠ 0 then calculateFieldTimes data else data).fields).map
    (fun f => { f with scheduled := 0, allocated := 0 })

/-- The delivery rate that the allocation loop uses. -/
def loopRate (data : IrrigationData) : Int :=
  (if data.useTimeConstraints ≠ 0 then calculateFieldTimes data else data).waterDeliveryRate

/-- The totals with which the allocation loop starts (lines 103-106). -/
def startTotals (data : IrrigationData) : Totals :=
  { remainingWater := data.totalWater
    remainingElectricity := data.totalElectricity
    totalWaterUsed := 0
    totalTimeUsed := 0 }

/-- The totals at the moment the loop reaches position `k` of the priority order. -/
def totalsAt (qsort : List Field → List Field) (data : IrrigationData) (k : Nat) : Totals :=
  (allocLoop data.useTimeConstraints (loopRate data) ((priorityFields qsort data).take k)
    (startTotals data)).2

end Greedy

/-! ## `greedy_scheduler.c` with 32-bit `int` results -/

/-- The constant `INT_MAX` of the C implementation, `2^31 - 1`. -/
def INT_MAX : Int := 2147483647

/-- The constant `INT_MIN` of the C implementation, `-2^31`. -/
def INT_MIN : Int := -2147483648

/-- What the compiled programs store for an `int` operation whose exact result is `x`: the
number in `INT_MIN .. INT_MAX` that differs from `x` by a multiple of `2^32`. -/
def wrapInt (x : Int) : Int :=
  (x + 2147483648) % 4294967296 - 2147483648

namespace Greedy

namespace Machine

/-- The function `calculateFieldTimes` (lines 77-90) with the results of `+` and `-` as the
machine stores them.  The divisor is positive, so the quotient stays in range. -/
def calculateFieldTimes (data : IrrigationData) : IrrigationData :=
  let waterDeliveryRate := if data.waterDeliveryRate ≤ 0 then 50 else data.waterDeliveryRate
  { data with
    waterDeliveryRate := waterDeliveryRate
    fields := data.fields.map (fun f =>
      let timeNeeded :=
        (wrapInt (wrapInt (f.waterNeeded + waterDeliveryRate) - 1)).tdiv waterDeliveryRate
      { f with timeNeeded := if timeNeeded ≤ 0 then 1 else timeNeeded }) }

/-- The time-constrained branch of the loop body (lines 115-141) for one field, with the
results of `+`, `-` and `*` as the machine stores them. -/
def timeStep (waterDeliveryRate : Int) (f : Field) (t : Totals) : Field × Totals :=
  let minWater := f.waterNeeded.tdiv 10
  let minTime := (wrapInt (wrapInt (minWater + waterDeliveryRate) - 1)).tdiv waterDeliveryRate
  if t.remainingWater ≥ minWater ∧ t.remainingElectricity ≥ minTime then
    let waterToAllocate := f.waterNeeded
    let timeToAllocate := f.timeNeeded
    let clampW : Int × Int :=
      if waterToAllocate > t.remainingWater then
        (t.remainingWater,
          (wrapInt (wrapInt (t.remainingWater + waterDeliveryRate) - 1)).tdiv waterDeliveryRate)
      else (waterToAllocate, timeToAllocate)
    let clampT : Int × Int :=
      if clampW.2 > t.remainingElectricity then
        let waterToAllocate := wrapInt (t.remainingElectricity * waterDeliveryRate)
        (if waterToAllocate > f.waterNeeded then f.waterNeeded else waterToAllocate,
          t.remainingElectricity)
      else clampW
    ({ f with allocated := clampT.1, scheduled := 1 },
      { remainingWater := wrapInt (t.remainingWater - clampT.1)
        remainingElectricity := wrapInt (t.remainingElectricity - clampT.2)
        totalWaterUsed := wrapInt (t.totalWaterUsed + clampT.1)
        totalTimeUsed := wrapInt (t.totalTimeUsed + clampT.2) })
  else
    (f, t)

/-- The admission test of line 118 as the machine evaluates it. -/
def Admitted (waterDeliveryRate : Int) (f : Field) (t : Totals) : Prop :=
  t.remainingWater ≥ f.waterNeeded.tdiv 10 ∧
    t.remainingElectricity
      ≥ (wrapInt (wrapInt (f.waterNeeded.tdiv 10 + waterDeliveryRate) - 1)).tdiv
          waterDeliveryRate

instance (waterDeliveryRate : Int) (f : Field) (t : Totals) :
    Decidable (Admitted waterDeliveryRate f t) := by
  unfold Admitted; infer_instance

/-- The allocation loop of `scheduleIrrigation` (lines 113-161) with machine results. -/
def allocLoop (useTimeConstraints waterDeliveryRate : Int) :
    List Field → Totals → List Field × Totals
  | [], t => ([], t)
  | f :: rest, t =>
    if useTimeConstraints ≠ 0 then
      let s := timeStep waterDeliveryRate f t
      let r := allocLoop useTimeConstraints waterDeliveryRate rest s.2
      (s.1 :: r.1, r.2)
    else
      if t.remainingWater ≥ f.waterNeeded then
        let r := allocLoop useTimeConstraints waterDeliveryRate rest
          { t with remainingWater := wrapInt (t.remainingWater - f.waterNeeded)
                   totalWaterUsed := wrapInt (t.totalWaterUsed + f.waterNeeded) }
        ({ f with allocated := f.waterNeeded, scheduled := 1 } :: r.1, r.2)
      else if t.remainingWater > 0 then
        let minAllocation := f.waterNeeded.tdiv 10
        if t.remainingWater ≥ minAllocation then
          ({ f with allocated := t.remainingWater, scheduled := 1 } :: rest,
            { t with totalWaterUsed := wrapInt (t.totalWaterUsed + t.remainingWater)
                     remainingWater := 0 })
        else
          (f :: rest, t)
      else
        (f :: rest, t)

/-- The function `scheduleIrrigation` with machine results; the record afterwards is the one
handed to `generateOutput`. -/
def scheduleIrrigation (qsort : List Field → List Field) (data : IrrigationData) :
    IrrigationData :=
  if data.fields.length ≤ 0 ∨ data.totalWater < 0 then
    data
  else
    let data := if data.useTimeConstraints ≠ 0 then calculateFieldTimes data else data
    let sorted := qsort data.fields
    let cleared := sorted.map (fun f => { f with scheduled := 0, allocated := 0 })
    let r := allocLoop data.useTimeConstraints data.waterDeliveryRate cleared
      { remainingWater := data.totalWater
        remainingElectricity := data.totalElectricity
        totalWaterUsed := 0
        totalTimeUsed := 0 }
    { data with
      fields := r.1
      remainingWater := r.2.remainingWater
      remainingElectricity := r.2.remainingElectricity
      totalWaterUsed := r.2.totalWaterUsed
      totalTimeUsed := r.2.totalTimeUsed }

/-- The array as the allocation loop receives it: times computed when time constraints are
on, sorted, `scheduled` and `allocated` cleared. -/
def priorityFields (qsort : List Field → List Field) (data : IrrigationData) : List Field :=
  (qsort (if data.useTimeConstraints ≠ 0 then calculateFieldTimes data else data).fields).map
    (fun f => { f with scheduled := 0, allocated := 0 })

/-- The delivery rate that the allocation loop uses. -/
def loopRate (data : IrrigationData) : Int :=
  (if data.useTimeConstraints ≠ 0 then calculateFieldTimes data else data).waterDeliveryRate

/-- The totals at the moment the loop reaches position `k` of the priority order. -/
def totalsAt (qsort : List Field → List Field) (data : IrrigationData) (k : Nat) : Totals :=
  (allocLoop data.useTimeConstraints (loopRate data) ((priorityFields qsort data).take k)
    (startTotals data)).2

end Machine

end Greedy

/-! ## Inputs of the scenarios -/

/-- Fields `A` (moisture 10, need 80) and `B` (moisture 50, need 50), given in the order
`B`, `A`, for `brute_force_scheduler.c` and `dp_scheduler.c`. -/
def fieldsBA : List Field :=
  [⟨"B", 50, 50, 0, 0, 0⟩, ⟨"A", 10, 80, 0, 0, 1⟩]

/-- Fields `A` and `B` given in the order `A`, `B`. -/
def fieldsAB : List Field :=
  [⟨"A", 10, 80, 0, 0, 0⟩, ⟨"B", 50, 50, 0, 0, 1⟩]

/-- The single field `D` (moisture 0, need 10). -/
def fieldsD : List Field :=
  [⟨"D", 0, 10, 0, 0, 0⟩]

/-- Fields `A` and `B` in the order `B`, `A`, for `greedy_scheduler.c`. -/
def Greedy.fieldsBA : List Greedy.Field :=
  [⟨"B", 50, 50, 0, 0, 0⟩, ⟨"A", 10, 80, 0, 0, 0⟩]

/-- Fields `A` and `B` in the order `A`, `B`, for `greedy_scheduler.c`. -/
def Greedy.fieldsAB : List Greedy.Field :=
  [⟨"A", 10, 80, 0, 0, 0⟩, ⟨"B", 50, 50, 0, 0, 0⟩]

/-- Two fields with the same moisture and the same need, `X` first in the input. -/
def fieldsXY : List Field :=
  [⟨"X", 10, 50, 0, 0, 0⟩, ⟨"Y", 10, 50, 0, 0, 1⟩]

/-- The single field `Z` (moisture 50) that needs no water. -/
def fieldsZ : List Field :=
  [⟨"Z", 50, 0, 0, 0, 0⟩]

/-- The single field `E` (moisture 0, need 15): a tenth of its need is `1` rounded down and
`2` rounded up. -/
def fieldsE : List Field :=
  [⟨"E", 0, 15, 0, 0, 0⟩]

/-- The single field `H` (moisture 0) whose need is `INT_MAX`, which `parseInput` accepts. -/
def fieldsH : List Field :=
  [⟨"H", 0, 2147483647, 0, 0, 0⟩]

/-- Fields `B` (moisture 2, need 14) and `A` (moisture 86, need 1): two units for `B` and
one unit for `A` are worth the same, `98 * 2 / 14 = 14 * 1 / 1`. -/
def fieldsTie : List Field :=
  [⟨"B", 2, 14, 0, 0, 0⟩, ⟨"A", 86, 1, 0, 0, 1⟩]

/-- Fields `P` (moisture 0, need 1) and `Q` (moisture 99, need 262150): one more unit for
`Q` is worth `1 / 262150`, less than half the distance between neighbouring `float` values
near 100. -/
def fieldsRound : List Field :=
  [⟨"P", 0, 1, 0, 0, 0⟩, ⟨"Q", 99, 262150, 0, 0, 1⟩]

/-- The single field `H` (moisture 0) whose need is `INT_MAX`, for `greedy_scheduler.c`. -/
def Greedy.fieldsH : List Greedy.Field :=
  [⟨"H", 0, 2147483647, 0, 0, 0⟩]

/-- Fields `P` (moisture 10, need 5) and `Q` (moisture 50, need 20) for
`greedy_scheduler.c`. -/
def Greedy.fieldsPQ : List Greedy.Field :=
  [⟨"P", 10, 5, 0, 0, 0⟩, ⟨"Q", 50, 20, 0, 0, 0⟩]

/-- The single field `Z` (moisture 50) that needs no water, for `greedy_scheduler.c`. -/
def Greedy.fieldsZ : List Greedy.Field :=
  [⟨"Z", 50, 0, 0, 0, 0⟩]

/-- An input text with `totalWater = 100001`, `fieldCount = 1` and the single field `D`
(moisture 0, need 10), as the string functions see it. -/
def rawOverCapacity : RawInput :=
  { totalWater := 100001, fieldCount := 1, fieldsFound := true,
    objects := [⟨40, some "D", 0, 10⟩] }

/-- An input text with `totalWater = 100`, `fieldCount = 10` and ten fields of moisture 20
and need 5. -/
def rawTenFields : RawInput :=
  { totalWater := 100, fieldCount := 10, fieldsFound := true,
    objects := List.replicate 10 ⟨40, some "F", 20, 5⟩ }

/-- A record of `greedy_scheduler.c` as `parseInput` leaves it when the input gives no time
budget: `useTimeConstraints` is `0` and the defaults `1000` and `50` are stored. -/
def Greedy.untimed (fields : List Greedy.Field) (totalWater : Int) : Greedy.IrrigationData :=
  { fields := fields, totalWater := totalWater, totalElectricity := 1000,
    waterDeliveryRate := 50, totalWaterUsed := 0, totalTimeUsed := 0, remainingWater := 0,
    remainingElectricity := 0, useTimeConstraints := 0 }

/-- A record of `greedy_scheduler.c` as `parseInput` leaves it when the input gives a positive
time budget and delivery rate. -/
def Greedy.timed (fields : List Greedy.Field) (totalWater totalElectricity rate : Int) :
    Greedy.IrrigationData :=
  { fields := fields, totalWater := totalWater, totalElectricity := totalElectricity,
    waterDeliveryRate := rate, totalWaterUsed := 0, totalTimeUsed := 0, remainingWater := 0,
    remainingElectricity := 0, useTimeConstraints := 1 }


/-! ## `dp_scheduler.c` -/

namespace Dp

/-- A cell of the `float` table `dp`: an exact rational, or `⊥` for the sentinel `-FLT_MAX`. -/
abbrev Cell := WithBot ℚ

/-- The expression `(100.0 - moisture) * (x / (float)waterNeeded)` of line 237, taken exactly
(see `floatArith` for the `float` operations). -/
def value (f : Field) (x : Int) : ℚ :=
  (100 - (f.moisture : ℚ)) * ((x : ℚ) / (f.waterNeeded : ℚ))

/-- The values `minWater, minWater + 1, ..., waterNeeded` that the loop variable `x` of
line 235 runs through. -/
def xRange (minWater waterNeeded : Int) : List Int :=
  (List.range (waterNeeded - minWater + 1).toNat).map (fun (k : Nat) => minWater + (k : Int))

/-- The loop over `x` (lines 235-245) for the cell `w` of row `i + 1`: `prev` is the row
`dp[i]`, the pair is `(dp[i+1][w], parent[i+1][w])`. -/
def xLoop (f : Field) (prev : Nat → Cell) (w : Nat) : List Int → Cell × Int → Cell × Int
  | [], acc => acc
  | x :: xs, acc =>
    if (w : Int) < x then acc
    else
      let candidate : Cell := prev (w - x.toNat) + ((value f x : ℚ) : Cell)
      if candidate > acc.1 then xLoop f prev w xs (candidate, x)
      else xLoop f prev w xs acc

/-- The body of the loop over `w` (lines 228-245): the cell `(dp[i+1][w], parent[i+1][w])`
computed from the row `dp[i]` and the field `fields[i]`.  The cell starts as
`(-FLT_MAX, -1)`.  The sum of line 226 is exact here (see `Machine.cell` for the
machine's). -/
def cell (f : Field) (prev : Nat → Cell) (w : Nat) : Cell × Int :=
  let minWater := (f.waterNeeded + 9).tdiv 10
  let skip : Cell × Int := if prev w > (⊥ : Cell) then (prev w, -1) else (⊥, -1)
  xLoop f prev w (xRange minWater f.waterNeeded) skip

/-- The tables after the DP computation (lines 212-247): `table fields i w` is
`(dp[i][w], parent[i][w])`. -/
def table (fields : List Field) : Nat → Nat → Cell × Int
  | 0, w => (if w = 0 then 0 else ⊥, -1)
  | i + 1, w =>
    match fields[i]? with
    | some f => cell f (fun w' => (table fields i w').1) w
    | none => (⊥, -1)

/-- The search for the optimal water usage (lines 250-257): the pair `(best_w, best_value)`
after the loop over `w = 0 .. totalWater`. -/
def findBest (row : Nat → Cell) (totalWater : Int) : Nat × Cell :=
  (List.range (totalWater + 1).toNat).foldl
    (fun best w => if row w > best.2 then (w, row w) else best) (0, ⊥)

/-- The backtracking loop (lines 260-268).  `backtrack fields parent i current_w` is
`fields[0 .. i-1]` after the iterations `i-1, ..., 0`, where `current_w` is the value of the
variable when iteration `i-1` starts. -/
def backtrack (fields : List Field) (parent : Nat → Nat → Int) : Nat → Int → List Field
  | 0, _ => []
  | i + 1, current_w =>
    match fields[i]? with
    | some f =>
      let x := parent (i + 1) current_w.toNat
      if x ≥ 0 then
        backtrack fields parent i (current_w - x) ++ [{ f with allocated := x, scheduled := 1 }]
      else
        backtrack fields parent i current_w ++ [f]
    | none => backtrack fields parent i current_w

/-- How backtracking may change one record: it is left as it is, or it receives an amount
between `minWater` and `waterNeeded`, at least one unit, and is marked scheduled. -/
def Chosen (f g : Field) : Prop :=
  g.name = f.name ∧ g.moisture = f.moisture ∧ g.waterNeeded = f.waterNeeded ∧
  g.originalIndex = f.originalIndex ∧
  (g = f ∨
    ((f.waterNeeded + 9).tdiv 10 ≤ g.allocated ∧ g.allocated ≤ f.waterNeeded ∧
      0 < g.allocated ∧ g.scheduled = 1))

/-- The variable `current_w` of the backtracking loop (lines 260-268) after the iterations
`i-1, ..., 0`, where the second argument is its value when iteration `i-1` starts. -/
def backtrackWater (fields : List Field) (parent : Nat → Nat → Int) : Nat → Int → Int
  | 0, current_w => current_w
  | i + 1, current_w =>
    match fields[i]? with
    | some _ =>
      let x := parent (i + 1) current_w.toNat
      if x ≥ 0 then backtrackWater fields parent i (current_w - x)
      else backtrackWater fields parent i current_w
    | none => backtrackWater fields parent i current_w

/-- The variables `best_w` and `best_value` after the search of lines 250-257. -/
def best (fields : List Field) (totalWater : Int) : Nat × Cell :=
  findBest (fun w => (table fields fields.length w).1) totalWater

/-- Table build, search and backtracking (lines 211-270) on the array as sorted: the array,
`totalWaterUsed` and `remainingWater` afterwards. -/
def allocate (fields : List Field) (totalWater : Int) : List Field × Int × Int :=
  let best := findBest (fun w => (table fields fields.length w).1) totalWater
  (backtrack fields (fun i w => (table fields i w).2) fields.length best.1,
    best.1, totalWater - best.1)

/-- An allocation `a` (one amount per field, in array order) is feasible for the budget:
every amount is `0` or lies between `ceil(waterNeeded / 10)` and `waterNeeded`, and the
amounts add up to at most `totalWater`. -/
def Feasible (totalWater : Int) (fields : List Field) (a : List Int) : Prop :=
  a.length = fields.length ∧
  (∀ p ∈ fields.zip a,
    p.2 = 0 ∨ (⌈(p.1.waterNeeded : ℚ) / 10⌉ ≤ p.2 ∧ p.2 ≤ p.1.waterNeeded)) ∧
  a.sum ≤ totalWater

/-- The total value of an allocation: the sum of
`(100 - moisture) * allocated / waterNeeded` over the fields. -/
def totalValue (fields : List Field) (a : List Int) : ℚ :=
  ((fields.zip a).map
    (fun p => (100 - (p.1.moisture : ℚ)) * (p.2 : ℚ) / (p.1.waterNeeded : ℚ))).sum

/-- The body of `main` after a successful `parseInput` (lines 208-283): sort, allocate,
restore the order.  The result is the record handed to `generateOutput`. -/
def main (qsort : List Field → List Field) (data : IrrigationData) : IrrigationData :=
  let r := allocate (qsort data.fields) data.totalWater
  { data with fields := restoreOrder r.1, totalWaterUsed := r.2.1, remainingWater := r.2.2 }

/-- The constant `MAX_WATER` of `dp_scheduler.c`. -/
def MAX_WATER : Int := 100000

/-- The function `main` of `dp_scheduler.c` from `parseInput` on: `none` is the exit with
status `1` after a failed `parseInput`, `some data` is the record handed to
`generateOutput`. -/
def run (qsort : List Field → List Field) (raw : RawInput) : Option IrrigationData :=
  match parseInput raw with
  | none => none
  | some data => some (main qsort data)

/-! ### `dp_scheduler.c` with 32-bit `int` results and a choice of value arithmetic -/

/-- The arithmetic on table cells: `value f x` is the expression
`(100.0 - moisture) * (x / (float)waterNeeded)` of line 237 as stored in the `float` variable
`value` (for `waterNeeded ≠ 0`), and `add a v` is the sum `dp[i][w - x] + value` of line 238
for a cell that holds a value. -/
structure Arith where
  value : Field → Int → ℚ
  add : ℚ → ℚ → ℚ

/-- Auxiliary for `ilog2`. -/
def log2Fuel : Nat → Nat → Nat
  | 0, _ => 0
  | fuel + 1, n => if 2 ≤ n then log2Fuel fuel (n / 2) + 1 else 0

/-- The position of the leading binary digit of `n`. -/
def ilog2 (n : Nat) : Nat := log2Fuel n n

/-- Rounding to the nearest number with `p` significant binary digits, ties to the even
significand: the rounding of IEEE 754 arithmetic (`p = 24` for `float`, `p = 53` for
`double`) for results in the normal range. -/
def roundTo (p : Nat) (q : ℚ) : ℚ :=
  let n : Nat := q.num.natAbs
  let d : Nat := q.den
  if n = 0 then 0
  else
    let e0 : Int := (ilog2 n : Int) - (ilog2 d : Int)
    let e : Int := if n * 2 ^ (-e0).toNat < d * 2 ^ e0.toNat then e0 - 1 else e0
    let k : Int := (p : Int) - 1 - e
    let num : Nat := n * 2 ^ k.toNat
    let den : Nat := d * 2 ^ (-k).toNat
    let fl : Nat := num / den
    let rest : Nat := num % den
    let r : Nat :=
      if 2 * rest < den then fl
      else if den < 2 * rest then fl + 1
      else if fl % 2 = 0 then fl else fl + 1
    let s : Int := if q.num < 0 then -1 else 1
    mkRat (s * (r * 2 ^ (-k).toNat : Nat)) (2 ^ k.toNat)

/-- The arithmetic of the compiled program: `x` and `waterNeeded` are converted to `float`,
the quotient is a `float`, the product with the `double` `100.0 - moisture` is a `double`
that the assignment rounds to `float`, and the sum of line 238 is a `float`. -/
def floatArith : Arith where
  value := fun f x =>
    roundTo 24 (roundTo 53 ((100 - (f.moisture : ℚ))
      * roundTo 24 (roundTo 24 (x : ℚ) / roundTo 24 (f.waterNeeded : ℚ))))
  add := fun a v => roundTo 24 (a + v)

/-- The value arithmetic taken exactly. -/
def exactArith : Arith where
  value := value
  add := fun a v => a + v

namespace Machine

/-- The variable `minWater` of line 226 as the machine stores it. -/
def minWater (f : Field) : Int :=
  (wrapInt (f.waterNeeded + 9)).tdiv 10

/-- The sum `dp[i][w - x] + value` of line 238: the sentinel `-FLT_MAX` stays the sentinel,
since `value` is far below half a unit in its last place. -/
def addCell (ar : Arith) (c : Cell) (v : ℚ) : Cell :=
  match c with
  | none => ⊥
  | some a => ((ar.add a v : ℚ) : Cell)

/-- The loop over `x` (lines 235-245) for the cell `w` of row `i + 1`.  For
`waterNeeded = 0` the only `x` is `0`, the quotient `0 / 0.0f` is NaN, so is `candidate`, and
the comparison of line 240 is false. -/
def xLoop (ar : Arith) (f : Field) (prev : Nat → Cell) (w : Nat) :
    List Int → Cell × Int → Cell × Int
  | [], acc => acc
  | x :: xs, acc =>
    if (w : Int) < x then acc
    else if f.waterNeeded = 0 then xLoop ar f prev w xs acc
    else
      let candidate : Cell := addCell ar (prev (w - x.toNat)) (ar.value f x)
      if candidate > acc.1 then xLoop ar f prev w xs (candidate, x)
      else xLoop ar f prev w xs acc

/-- The body of the loop over `w` (lines 228-245), as `Dp.cell`, with `minWater` as the
machine stores it and the arithmetic `ar`. -/
def cell (ar : Arith) (f : Field) (prev : Nat → Cell) (w : Nat) : Cell × Int :=
  let skip : Cell × Int := if prev w > (⊥ : Cell) then (prev w, -1) else (⊥, -1)
  xLoop ar f prev w (xRange (minWater f) f.waterNeeded) skip

/-- The tables after the DP computation (lines 212-247) of a run in which every read
`dp[i][w - x]` stays inside its row (see `Defined`): `table ar fields i w` is
`(dp[i][w], parent[i][w])`. -/
def table (ar : Arith) (fields : List Field) : Nat → Nat → Cell × Int
  | 0, w => (if w = 0 then 0 else ⊥, -1)
  | i + 1, w =>
    match fields[i]? with
    | some f => cell ar f (fun w' => (table ar fields i w').1) w
    | none => (⊥, -1)

/-- The run of lines 211-270 stays within what C defines.  The rows have `totalWater + 1`
cells, so `totalWater + 1` has to be an `int` and at least `1`.  The loop over `x` starts at
`minWater` and reads `dp[i][w - x]`: when `minWater` is negative and the loop body is entered
(`minWater ≤ waterNeeded`), the read for `w = totalWater` is at an index above `totalWater`,
outside the row; when `minWater ≥ 0` every index `w - x` lies in `0 .. w`. -/
def Defined (fields : List Field) (totalWater : Int) : Prop :=
  0 ≤ totalWater ∧ totalWater + 1 ≤ INT_MAX ∧
  ∀ f ∈ fields, 0 ≤ minWater f ∨ f.waterNeeded < minWater f

instance (fields : List Field) (totalWater : Int) : Decidable (Defined fields totalWater) := by
  unfold Defined; infer_instance

/-- The variables `best_w` and `best_value` after the search of lines 250-257; `none` when
the run is not defined. -/
def best (ar : Arith) (fields : List Field) (totalWater : Int) : Option (Nat × Cell) :=
  if Defined fields totalWater then
    some (findBest (fun w => (table ar fields fields.length w).1) totalWater)
  else none

/-- Table build, search and backtracking (lines 211-270) on the array as sorted: the array,
`totalWaterUsed` and `remainingWater` afterwards; `none` when the run is not defined. -/
def allocate (ar : Arith) (fields : List Field) (totalWater : Int) :
    Option (List Field × Int × Int) :=
  if Defined fields totalWater then
    let best := findBest (fun w => (table ar fields fields.length w).1) totalWater
    some (backtrack fields (fun i w => (table ar fields i w).2) fields.length best.1,
      best.1, totalWater - best.1)
  else none

/-- The body of `main` after a successful `parseInput` (lines 208-283): sort, allocate,
restore the order.  The result is the record handed to `generateOutput`; `none` when the run
is not defined. -/
def main (ar : Arith) (qsort : List Field → List Field) (data : IrrigationData) :
    Option IrrigationData :=
  match allocate ar (qsort data.fields) data.totalWater with
  | none => none
  | some r =>
    some { data with
           fields := restoreOrder r.1, totalWaterUsed := r.2.1, remainingWater := r.2.2 }

end Machine

end Dp

/-! ## Sorting and order restoration -/

theorem orderedInsert_perm {α : Type} (cmp : α → α → Int) (a : α) (l : List α) :
    (orderedInsert cmp a l).Perm (a :: l) := by
  induction l with
  | nil => exact List.Perm.refl _
  | cons b l ih =>
    unfold orderedInsert
    split_ifs
    · exact List.Perm.refl _
    · exact (List.Perm.cons b ih).trans (List.Perm.swap a b l)

theorem orderedInsert_chain {α : Type} (cmp : α → α → Int)
    (htot : ∀ a b, cmp a b ≤ 0 ∨ cmp b a ≤ 0) (a : α) (l : List α)
    (h : l.Chain' (fun x y => cmp x y ≤ 0)) :
    (orderedInsert cmp a l).Chain' (fun x y => cmp x y ≤ 0) := by
  induction l with
  | nil => simp [orderedInsert]
  | cons b l ih =>
    unfold orderedInsert
    split_ifs with hab
    · exact List.Chain'.cons hab h
    · have hba : cmp b a ≤ 0 := (htot a b).resolve_left hab
      have ih' := ih (List.Chain'.tail h)
      cases l with
      | nil => simpa [orderedInsert] using hba
      | cons c l =>
        have hbc : cmp b c ≤ 0 := (List.chain'_cons.1 h).1
        unfold orderedInsert at ih' ⊢
        split_ifs at ih' ⊢ with hac
        · exact List.Chain'.cons hba ih'
        · exact List.Chain'.cons hbc ih'

/-- For a comparator under which any two elements are comparable, `insertionSort` meets the
contract of `qsort`. -/
theorem insertionSort_isQsort {α : Type} (cmp : α → α → Int)
    (htot : ∀ a b, cmp a b ≤ 0 ∨ cmp b a ≤ 0) : IsQsort cmp (insertionSort cmp) := by
  intro l
  induction l with
  | nil => exact ⟨List.Perm.refl _, List.chain'_nil⟩
  | cons a l ih =>
    refine ⟨?_, ?_⟩
    · exact (orderedInsert_perm cmp a _).trans (List.Perm.cons a ih.1)
    · exact orderedInsert_chain cmp htot a _ ih.2

theorem compareFields_total (a b : Field) : compareFields a b ≤ 0 ∨ compareFields b a ≤ 0 := by
  unfold compareFields
  split_ifs <;> omega

theorem Greedy.compareFields_total_sched (a b : Greedy.Field) :
    Greedy.compareFields a b ≤ 0 ∨ Greedy.compareFields b a ≤ 0 := by
  unfold Greedy.compareFields
  split_ifs <;> omega

theorem compareFields_le_iff (a b : Field) :
    compareFields a b ≤ 0 ↔
      a.moisture < b.moisture ∨ (a.moisture = b.moisture ∧ b.waterNeeded ≤ a.waterNeeded) := by
  unfold compareFields
  split_ifs <;> omega

theorem Greedy.compareFields_le_iff_sched (a b : Greedy.Field) :
    Greedy.compareFields a b ≤ 0 ↔
      a.moisture < b.moisture ∨ (a.moisture = b.moisture ∧ b.waterNeeded ≤ a.waterNeeded) := by
  unfold Greedy.compareFields
  split_ifs <;> omega

/-- An array that `qsort` may return is in priority order from every position to every later
one, not only to the next. -/
theorem qsort_pairwise (qsort : List Field → List Field) (h : IsQsort compareFields qsort)
    (l : List Field) :
    (qsort l).Pairwise (fun a b =>
      a.moisture < b.moisture ∨ (a.moisture = b.moisture ∧ b.waterNeeded ≤ a.waterNeeded)) := by
  have hc := (h l).2
  have hc' : (qsort l).Chain' (fun a b =>
      a.moisture < b.moisture ∨ (a.moisture = b.moisture ∧ b.waterNeeded ≤ a.waterNeeded)) :=
    hc.imp (fun a b hab => (compareFields_le_iff a b).1 hab)
  haveI : IsTrans Field (fun a b =>
      a.moisture < b.moisture ∨ (a.moisture = b.moisture ∧ b.waterNeeded ≤ a.waterNeeded)) :=
    ⟨fun a b c h1 h2 => by omega⟩
  exact List.chain'_iff_pairwise.1 hc'

theorem Greedy.qsort_pairwise_sched (qsort : List Greedy.Field → List Greedy.Field)
    (h : IsQsort Greedy.compareFields qsort) (l : List Greedy.Field) :
    (qsort l).Pairwise (fun a b =>
      a.moisture < b.moisture ∨ (a.moisture = b.moisture ∧ b.waterNeeded ≤ a.waterNeeded)) := by
  have hc := (h l).2
  have hc' : (qsort l).Chain' (fun a b =>
      a.moisture < b.moisture ∨ (a.moisture = b.moisture ∧ b.waterNeeded ≤ a.waterNeeded)) :=
    hc.imp (fun a b hab => (Greedy.compareFields_le_iff_sched a b).1 hab)
  haveI : IsTrans Greedy.Field (fun a b =>
      a.moisture < b.moisture ∨ (a.moisture = b.moisture ∧ b.waterNeeded ≤ a.waterNeeded)) :=
    ⟨fun a b c h1 h2 => by omega⟩
  exact List.chain'_iff_pairwise.1 hc'

theorem restoreInner_perm (cur : Field) (l : List Field) :
    ((restoreInner cur l).1 :: (restoreInner cur l).2).Perm (cur :: l) := by
  induction l generalizing cur with
  | nil => exact List.Perm.refl _
  | cons fj rest ih =>
    unfold restoreInner
    split_ifs
    · exact (List.Perm.swap _ _ _).trans (List.Perm.cons cur (ih fj))
    · exact ((List.Perm.swap _ _ _).trans (List.Perm.cons fj (ih cur))).trans
        (List.Perm.swap _ _ _)

theorem restoreInner_length (cur : Field) (l : List Field) :
    (restoreInner cur l).2.length = l.length := by
  have := (restoreInner_perm cur l).length_eq
  simpa using this

/-- After the inner loop `fields[i]` has the least `originalIndex` of `fields[i ..]`. -/
theorem restoreInner_least (cur : Field) (l : List Field) :
    (restoreInner cur l).1.originalIndex ≤ cur.originalIndex ∧
    ∀ g ∈ (restoreInner cur l).2,
      (restoreInner cur l).1.originalIndex ≤ g.originalIndex := by
  induction l generalizing cur with
  | nil => simp [restoreInner]
  | cons fj rest ih =>
    unfold restoreInner
    split_ifs with h
    · obtain ⟨a, b⟩ := ih fj
      refine ⟨by simp only; omega, ?_⟩
      intro g hg
      rcases List.mem_cons.1 hg with rfl | hg
      · simp only; omega
      · exact b g hg
    · obtain ⟨a, b⟩ := ih cur
      refine ⟨a, ?_⟩
      intro g hg
      rcases List.mem_cons.1 hg with rfl | hg
      · simp only; omega
      · exact b g hg

theorem restoreOuter_perm (n : Nat) (l : List Field) : (restoreOuter n l).Perm l := by
  induction n generalizing l with
  | zero => exact List.Perm.refl _
  | succ n ih =>
    cases l with
    | nil => exact List.Perm.refl _
    | cons fi rest =>
      simp only [restoreOuter]
      exact (List.Perm.cons _ (ih _)).trans (restoreInner_perm fi rest)

theorem restoreOuter_sorted (n : Nat) (l : List Field) (h : l.length ≤ n) :
    (restoreOuter n l).Pairwise (fun a b => a.originalIndex ≤ b.originalIndex) := by
  induction n generalizing l with
  | zero =>
    have : l = [] := List.length_eq_zero.1 (Nat.le_zero.1 h)
    subst this
    exact List.Pairwise.nil
  | succ n ih =>
    cases l with
    | nil => exact List.Pairwise.nil
    | cons fi rest =>
      simp only [restoreOuter]
      refine List.Pairwise.cons ?_ (ih _ ?_)
      · intro g hg
        exact (restoreInner_least fi rest).2 g ((restoreOuter_perm n _).mem_iff.1 hg)
      · rw [restoreInner_length]
        simpa using h

theorem restoreOrder_perm (l : List Field) : (restoreOrder l).Perm l :=
  restoreOuter_perm _ l

/-- The restoration loop puts records with pairwise distinct `originalIndex` in strictly
increasing order of `originalIndex`. -/
theorem restoreOrder_strict (l : List Field) (hd : (l.map Field.originalIndex).Nodup) :
    (restoreOrder l).Pairwise (fun a b => a.originalIndex < b.originalIndex) := by
  have hs := restoreOuter_sorted l.length l (le_refl _)
  have hn : ((restoreOrder l).map Field.originalIndex).Nodup :=
    ((restoreOrder_perm l).map Field.originalIndex).nodup_iff.2 hd
  have hne : (restoreOrder l).Pairwise (fun a b => a.originalIndex ≠ b.originalIndex) := by
    rw [List.Nodup, List.pairwise_map] at hn
    exact hn
  exact (hs.and hne).imp (fun h => lt_of_le_of_ne h.1 h.2)

/-! ## The unconstrained greedy loop of `brute_force_scheduler.c` -/

namespace BruteForce

theorem allocLoop_full (f : Field) (rest : List Field) (used rem : Int)
    (h : f.waterNeeded ≤ rem) :
    allocLoop (f :: rest) used rem =
      ({ f with allocated := f.waterNeeded, scheduled := 1 } ::
          (allocLoop rest (used + f.waterNeeded) (rem - f.waterNeeded)).1,
        (allocLoop rest (used + f.waterNeeded) (rem - f.waterNeeded)).2) := by
  simp [allocLoop, h]

theorem allocLoop_partial_case (f : Field) (rest : List Field) (used rem : Int)
    (h1 : rem < f.waterNeeded) (h2 : 0 < rem) (h3 : f.waterNeeded.tdiv 10 ≤ rem) :
    allocLoop (f :: rest) used rem =
      ({ f with allocated := rem, scheduled := 1 } :: rest, used + rem, 0) := by
  simp [allocLoop, not_le.2 h1, h2, h3]

theorem allocLoop_stop (f : Field) (rest : List Field) (used rem : Int)
    (h1 : rem < f.waterNeeded) (h2 : rem ≤ 0 ∨ rem < f.waterNeeded.tdiv 10) :
    allocLoop (f :: rest) used rem = (f :: rest, used, rem) := by
  rcases h2 with h2 | h2
  · simp [allocLoop, not_le.2 h1, not_lt.2 h2]
  · by_cases h0 : 0 < rem
    · simp [allocLoop, not_le.2 h1, h0, not_le.2 h2]
    · simp [allocLoop, not_le.2 h1, h0]

/-- The three ways one iteration of the loop can go. -/
theorem allocLoop_cases (f : Field) (rest : List Field) (used rem : Int) :
    (f.waterNeeded ≤ rem ∧
      allocLoop (f :: rest) used rem =
        ({ f with allocated := f.waterNeeded, scheduled := 1 } ::
            (allocLoop rest (used + f.waterNeeded) (rem - f.waterNeeded)).1,
          (allocLoop rest (used + f.waterNeeded) (rem - f.waterNeeded)).2)) ∨
    (rem < f.waterNeeded ∧ 0 < rem ∧ f.waterNeeded.tdiv 10 ≤ rem ∧
      allocLoop (f :: rest) used rem =
        ({ f with allocated := rem, scheduled := 1 } :: rest, used + rem, 0)) ∨
    (rem < f.waterNeeded ∧ (rem ≤ 0 ∨ rem < f.waterNeeded.tdiv 10) ∧
      allocLoop (f :: rest) used rem = (f :: rest, used, rem)) := by
  by_cases h1 : f.waterNeeded ≤ rem
  · exact Or.inl ⟨h1, allocLoop_full f rest used rem h1⟩
  · have h1' : rem < f.waterNeeded := not_le.1 h1
    by_cases h2 : 0 < rem ∧ f.waterNeeded.tdiv 10 ≤ rem
    · exact Or.inr (Or.inl ⟨h1', h2.1, h2.2, allocLoop_partial_case f rest used rem h1' h2.1 h2.2⟩)
    · have h2' : rem ≤ 0 ∨ rem < f.waterNeeded.tdiv 10 := by
        by_cases h0 : 0 < rem
        · exact Or.inr (not_le.1 (fun h => h2 ⟨h0, h⟩))
        · exact Or.inl (not_lt.1 h0)
      exact Or.inr (Or.inr ⟨h1', h2', allocLoop_stop f rest used rem h1' h2'⟩)

theorem sum_allocated_cleared (fs : List Field)
    (hclr : ∀ f ∈ fs, f.allocated = 0 ∧ f.scheduled = 0) :
    (fs.map Field.allocated).sum = 0 := by
  apply List.sum_eq_zero
  intro x hx
  obtain ⟨g, hg, rfl⟩ := List.mem_map.1 hx
  exact (hclr g hg).1

/-- Bounds, sums and balance of the allocation loop, for a nonnegative start budget. -/
theorem allocLoop_spec (fs : List Field) :
    ∀ (used rem : Int), 0 ≤ rem → (∀ f ∈ fs, 0 ≤ f.waterNeeded) →
      (∀ f ∈ fs, f.allocated = 0 ∧ f.scheduled = 0) →
      (∀ f ∈ (allocLoop fs used rem).1, 0 ≤ f.allocated ∧ f.allocated ≤ f.waterNeeded) ∧
      ((allocLoop fs used rem).1.map Field.allocated).sum = (allocLoop fs used rem).2.1 - used ∧
      (allocLoop fs used rem).2.2 = rem - ((allocLoop fs used rem).2.1 - used) ∧
      0 ≤ (allocLoop fs used rem).2.2 ∧ used ≤ (allocLoop fs used rem).2.1 := by
  induction fs with
  | nil => intro used rem h _ _; simp [allocLoop, h]
  | cons f rest ih =>
    intro used rem hrem hneed hclr
    have hf := hneed f (List.mem_cons_self _ _)
    have hneed' : ∀ g ∈ rest, 0 ≤ g.waterNeeded := fun g hg => hneed g (List.mem_cons_of_mem _ hg)
    have hclr' : ∀ g ∈ rest, g.allocated = 0 ∧ g.scheduled = 0 :=
      fun g hg => hclr g (List.mem_cons_of_mem _ hg)
    have hsum0 := sum_allocated_cleared rest hclr'
    have hf0 := (hclr f (List.mem_cons_self _ _)).1
    rcases allocLoop_cases f rest used rem with ⟨h1, e⟩ | ⟨h1, h2, _, e⟩ | ⟨h1, _, e⟩
    · obtain ⟨a, b, c, d, e'⟩ :=
        ih (used + f.waterNeeded) (rem - f.waterNeeded) (by omega) hneed' hclr'
      rw [e]
      refine ⟨?_, ?_, ?_, ?_, ?_⟩
      · intro g hg
        rcases List.mem_cons.1 hg with rfl | hg
        · simp [hf]
        · exact a g hg
      · simp only [List.map_cons, List.sum_cons]; omega
      · simp only; omega
      · exact d
      · simp only; omega
    · rw [e]
      refine ⟨?_, ?_, ?_, ?_, ?_⟩
      · intro g hg
        rcases List.mem_cons.1 hg with rfl | hg
        · simp; omega
        · have := hclr' g hg; have := hneed' g hg; omega
      · simp only [List.map_cons, List.sum_cons, hsum0]; omega
      · simp only; omega
      · simp
      · simp only; omega
    · rw [e]
      refine ⟨?_, ?_, ?_, ?_, ?_⟩
      · intro g hg
        have := hclr g hg; have := hneed g hg; omega
      · simp only [List.map_cons, List.sum_cons, hsum0]; omega
      · simp only; omega
      · exact hrem
      · simp

end BruteForce

namespace BruteForce

/-- Hard stop: a field that is not fully served is followed by untouched fields only. -/
theorem allocLoop_hardstop (fs : List Field) :
    ∀ (used rem : Int), (∀ f ∈ fs, f.allocated = 0 ∧ f.scheduled = 0) →
      (allocLoop fs used rem).1.Pairwise
        (fun a b => a.allocated < a.waterNeeded → b.allocated = 0 ∧ b.scheduled = 0) := by
  induction fs with
  | nil => intro used rem _; simp [allocLoop]
  | cons f rest ih =>
    intro used rem hclr
    have hclr' : ∀ g ∈ rest, g.allocated = 0 ∧ g.scheduled = 0 :=
      fun g hg => hclr g (List.mem_cons_of_mem _ hg)
    have hrest : rest.Pairwise
        (fun a b => a.allocated < a.waterNeeded → b.allocated = 0 ∧ b.scheduled = 0) :=
      List.pairwise_of_forall_mem_list (fun _ _ b hb _ => hclr' b hb)
    rcases allocLoop_cases f rest used rem with ⟨_, e⟩ | ⟨_, _, _, e⟩ | ⟨_, _, e⟩
    · rw [e]
      refine List.Pairwise.cons ?_ (ih _ _ hclr')
      intro b _ hlt
      simp at hlt
    · rw [e]
      exact List.Pairwise.cons (fun b hb _ => hclr' b hb) hrest
    · rw [e]
      exact List.Pairwise.cons (fun b hb _ => hclr' b hb) hrest

/-- A partially served field sits at the first position whose need exceeds the water left
there; `rem - sum of the allocations before the position` is the water left there. -/
theorem allocLoop_partial_first (fs : List Field) :
    ∀ (used rem : Int), (∀ f ∈ fs, f.allocated = 0 ∧ f.scheduled = 0) →
      ∀ (k : Nat) (hk : k < (allocLoop fs used rem).1.length),
        0 < ((allocLoop fs used rem).1[k]).allocated →
        ((allocLoop fs used rem).1[k]).allocated < ((allocLoop fs used rem).1[k]).waterNeeded →
        rem - (((allocLoop fs used rem).1.take k).map Field.allocated).sum
            < ((allocLoop fs used rem).1[k]).waterNeeded ∧
        ∀ (j : Nat) (hj : j < k),
          ((allocLoop fs used rem).1[j]).waterNeeded
            ≤ rem - (((allocLoop fs used rem).1.take j).map Field.allocated).sum := by
  induction fs with
  | nil => intro used rem _ k hk; simp [allocLoop] at hk
  | cons f rest ih =>
    intro used rem hclr
    have hclr' : ∀ g ∈ rest, g.allocated = 0 ∧ g.scheduled = 0 :=
      fun g hg => hclr g (List.mem_cons_of_mem _ hg)
    rcases allocLoop_cases f rest used rem with ⟨h1, e⟩ | ⟨h1, _, _, e⟩ | ⟨_, _, e⟩
    · rw [e]
      intro k hk hpos hlt
      cases k with
      | zero => simp at hlt
      | succ k =>
        simp only [List.getElem_cons_succ] at hpos hlt
        simp only [List.length_cons, Nat.add_lt_add_iff_right] at hk
        obtain ⟨a, b⟩ := ih (used + f.waterNeeded) (rem - f.waterNeeded) hclr' k hk hpos hlt
        refine ⟨?_, ?_⟩
        · simp only [List.take_succ_cons, List.map_cons, List.sum_cons, List.getElem_cons_succ]
          omega
        · intro j hj
          cases j with
          | zero => simpa using h1
          | succ j =>
            have := b j (by omega)
            simp only [List.take_succ_cons, List.map_cons, List.sum_cons,
              List.getElem_cons_succ]
            omega
    · rw [e]
      intro k hk hpos hlt
      cases k with
      | zero => simpa using h1
      | succ k =>
        simp only [List.getElem_cons_succ] at hpos
        have := (hclr' _ (List.getElem_mem (l := rest) (n := k) (by simpa using hk))).1
        omega
    · rw [e]
      intro k hk hpos hlt
      simp only at hpos
      have := (hclr _ (List.getElem_mem (l := f :: rest) (n := k) (by simpa using hk))).1
      omega

end BruteForce

/-! ## The unconstrained branch of `scheduleIrrigation` -/

namespace Greedy

/-- The three ways one iteration of the loop can go when `useTimeConstraints` is `0`. -/
theorem allocLoop_untimed_cases (rate : Int) (f : Field) (rest : List Field) (t : Totals) :
    (f.waterNeeded ≤ t.remainingWater ∧
      allocLoop 0 rate (f :: rest) t =
        ({ f with allocated := f.waterNeeded, scheduled := 1 } ::
            (allocLoop 0 rate rest
              { t with remainingWater := t.remainingWater - f.waterNeeded
                       totalWaterUsed := t.totalWaterUsed + f.waterNeeded }).1,
          (allocLoop 0 rate rest
              { t with remainingWater := t.remainingWater - f.waterNeeded
                       totalWaterUsed := t.totalWaterUsed + f.waterNeeded }).2)) ∨
    (t.remainingWater < f.waterNeeded ∧ 0 < t.remainingWater ∧
      f.waterNeeded.tdiv 10 ≤ t.remainingWater ∧
      allocLoop 0 rate (f :: rest) t =
        ({ f with allocated := t.remainingWater, scheduled := 1 } :: rest,
          { t with totalWaterUsed := t.totalWaterUsed + t.remainingWater
                   remainingWater := 0 })) ∨
    (t.remainingWater < f.waterNeeded ∧
      (t.remainingWater ≤ 0 ∨ t.remainingWater < f.waterNeeded.tdiv 10) ∧
      allocLoop 0 rate (f :: rest) t = (f :: rest, t)) := by
  by_cases h1 : f.waterNeeded ≤ t.remainingWater
  · exact Or.inl ⟨h1, by simp [allocLoop, h1]⟩
  · have h1' : t.remainingWater < f.waterNeeded := not_le.1 h1
    by_cases h0 : 0 < t.remainingWater
    · by_cases h3 : f.waterNeeded.tdiv 10 ≤ t.remainingWater
      · exact Or.inr (Or.inl ⟨h1', h0, h3, by simp [allocLoop, h1, h0, h3]⟩)
      · exact Or.inr (Or.inr ⟨h1', Or.inr (not_le.1 h3), by simp [allocLoop, h1, h0, h3]⟩)
    · exact Or.inr (Or.inr ⟨h1', Or.inl (not_lt.1 h0), by simp [allocLoop, h1, h0]⟩)

theorem sum_allocated_cleared_sched (fs : List Field)
    (hclr : ∀ f ∈ fs, f.allocated = 0 ∧ f.scheduled = 0) :
    (fs.map Field.allocated).sum = 0 := by
  apply List.sum_eq_zero
  intro x hx
  obtain ⟨g, hg, rfl⟩ := List.mem_map.1 hx
  exact (hclr g hg).1

/-- Bounds, sums and balance of the unconstrained loop, for a nonnegative start budget. -/
theorem allocLoop_untimed_spec (rate : Int) (fs : List Field) :
    ∀ (t : Totals), 0 ≤ t.remainingWater → (∀ f ∈ fs, 0 ≤ f.waterNeeded) →
      (∀ f ∈ fs, f.allocated = 0 ∧ f.scheduled = 0) →
      (∀ f ∈ (allocLoop 0 rate fs t).1, 0 ≤ f.allocated ∧ f.allocated ≤ f.waterNeeded) ∧
      ((allocLoop 0 rate fs t).1.map Field.allocated).sum
        = (allocLoop 0 rate fs t).2.totalWaterUsed - t.totalWaterUsed ∧
      (allocLoop 0 rate fs t).2.remainingWater
        = t.remainingWater - ((allocLoop 0 rate fs t).2.totalWaterUsed - t.totalWaterUsed) ∧
      0 ≤ (allocLoop 0 rate fs t).2.remainingWater ∧
      t.totalWaterUsed ≤ (allocLoop 0 rate fs t).2.totalWaterUsed := by
  induction fs with
  | nil => intro t h _ _; simp [allocLoop, h]
  | cons f rest ih =>
    intro t hrem hneed hclr
    have hf := hneed f (List.mem_cons_self _ _)
    have hneed' : ∀ g ∈ rest, 0 ≤ g.waterNeeded := fun g hg => hneed g (List.mem_cons_of_mem _ hg)
    have hclr' : ∀ g ∈ rest, g.allocated = 0 ∧ g.scheduled = 0 :=
      fun g hg => hclr g (List.mem_cons_of_mem _ hg)
    have hsum0 := sum_allocated_cleared_sched rest hclr'
    have hf0 := (hclr f (List.mem_cons_self _ _)).1
    rcases allocLoop_untimed_cases rate f rest t with ⟨h1, e⟩ | ⟨h1, h2, _, e⟩ | ⟨h1, _, e⟩
    · obtain ⟨a, b, c, d, e'⟩ :=
        ih { t with remainingWater := t.remainingWater - f.waterNeeded
                    totalWaterUsed := t.totalWaterUsed + f.waterNeeded }
          (by simp only; omega) hneed' hclr'
      rw [e]
      simp only at b c d e'
      refine ⟨?_, ?_, ?_, ?_, ?_⟩
      · intro g hg
        rcases List.mem_cons.1 hg with rfl | hg
        · simp [hf]
        · exact a g hg
      · simp only [List.map_cons, List.sum_cons]; omega
      · simp only; omega
      · exact d
      · simp only; omega
    · rw [e]
      refine ⟨?_, ?_, ?_, ?_, ?_⟩
      · intro g hg
        rcases List.mem_cons.1 hg with rfl | hg
        · simp; omega
        · have := hclr' g hg; have := hneed' g hg; omega
      · simp only [List.map_cons, List.sum_cons, hsum0]; omega
      · simp only; omega
      · simp
      · simp only; omega
    · rw [e]
      refine ⟨?_, ?_, ?_, ?_, ?_⟩
      · intro g hg
        have := hclr g hg; have := hneed g hg; omega
      · simp only [List.map_cons, List.sum_cons, hsum0]; omega
      · simp only; omega
      · exact hrem
      · simp

/-- Hard stop of the unconstrained loop. -/
theorem allocLoop_untimed_hardstop (rate : Int) (fs : List Field) :
    ∀ (t : Totals), (∀ f ∈ fs, f.allocated = 0 ∧ f.scheduled = 0) →
      (allocLoop 0 rate fs t).1.Pairwise
        (fun a b => a.allocated < a.waterNeeded → b.allocated = 0 ∧ b.scheduled = 0) := by
  induction fs with
  | nil => intro t _; simp [allocLoop]
  | cons f rest ih =>
    intro t hclr
    have hclr' : ∀ g ∈ rest, g.allocated = 0 ∧ g.scheduled = 0 :=
      fun g hg => hclr g (List.mem_cons_of_mem _ hg)
    have hrest : rest.Pairwise
        (fun a b => a.allocated < a.waterNeeded → b.allocated = 0 ∧ b.scheduled = 0) :=
      List.pairwise_of_forall_mem_list (fun _ _ b hb _ => hclr' b hb)
    rcases allocLoop_untimed_cases rate f rest t with ⟨_, e⟩ | ⟨_, _, _, e⟩ | ⟨_, _, e⟩
    · rw [e]
      refine List.Pairwise.cons ?_ (ih _ hclr')
      intro b _ hlt
      simp at hlt
    · rw [e]
      exact List.Pairwise.cons (fun b hb _ => hclr' b hb) hrest
    · rw [e]
      exact List.Pairwise.cons (fun b hb _ => hclr' b hb) hrest

end Greedy

/-! ## The time-constrained branch of `scheduleIrrigation` -/

namespace Greedy

/-- For `a ≥ 0` and `r > 0` the C expression `(a + r - 1) / r` is `ceil(a / r)`. -/
theorem tdiv_ceil (a r : Int) (ha : 0 ≤ a) (hr : 0 < r) :
    (a + r - 1).tdiv r = ⌈(a : ℚ) / (r : ℚ)⌉ := by
  rw [Int.tdiv_eq_ediv (by omega) (by omega)]
  symm
  rw [Int.ceil_eq_iff]
  have h1 : (a + r - 1) / r * r ≤ a + r - 1 := Int.ediv_mul_le _ (by omega)
  have h2 : a + r - 1 < ((a + r - 1) / r + 1) * r := Int.lt_ediv_add_one_mul_self _ hr
  have hr' : (0 : ℚ) < (r : ℚ) := by exact_mod_cast hr
  constructor
  · rw [lt_div_iff₀ hr']
    have : ((((a + r - 1) / r : Int) : ℚ)) * (r : ℚ) ≤ (a : ℚ) + (r : ℚ) - 1 := by
      exact_mod_cast h1
    linarith
  · rw [div_le_iff₀ hr']
    have h3 : a ≤ (a + r - 1) / r * r := by
      have : ((a + r - 1) / r + 1) * r = (a + r - 1) / r * r + r := by ring
      omega
    exact_mod_cast h3

/-- For `a ≥ 0` the C expression `a / 10` is `floor(a / 10)`. -/
theorem tdiv_floor (a : Int) (ha : 0 ≤ a) : a.tdiv 10 = ⌊(a : ℚ) / 10⌋ := by
  rw [Int.tdiv_eq_ediv ha (by omega)]
  symm
  rw [Int.floor_eq_iff]
  constructor
  · rw [le_div_iff₀ (by norm_num)]
    exact_mod_cast (by omega : a / 10 * 10 ≤ a)
  · rw [div_lt_iff₀ (by norm_num)]
    exact_mod_cast (by omega : a < (a / 10 + 1) * 10)

theorem timeStep_skip (rate : Int) (f : Field) (t : Totals) (h : ¬ Admitted rate f t) :
    timeStep rate f t = (f, t) := by
  unfold Admitted at h
  simp only [timeStep, h, if_false]

theorem timeStep_scheduled (rate : Int) (f : Field) (t : Totals) (h : Admitted rate f t) :
    (timeStep rate f t).1.scheduled = 1 := by
  unfold Admitted at h
  simp only [timeStep, h, and_self, if_true]

/-- One admitted or skipped field: the amounts committed are within the field's need and
both remaining budgets. -/
theorem timeStep_bounds (rate : Int) (f : Field) (t : Totals) (hr : 0 < rate)
    (hneed : 0 ≤ f.waterNeeded) (htn : 0 ≤ f.timeNeeded) (hclr : f.allocated = 0)
    (hw : 0 ≤ t.remainingWater) (he : 0 ≤ t.remainingElectricity) :
    0 ≤ (timeStep rate f t).1.allocated ∧
    (timeStep rate f t).1.allocated ≤ f.waterNeeded ∧
    (timeStep rate f t).1.allocated ≤ t.remainingWater ∧
    (timeStep rate f t).1.waterNeeded = f.waterNeeded ∧
    (timeStep rate f t).2.remainingWater
      = t.remainingWater - (timeStep rate f t).1.allocated ∧
    (timeStep rate f t).2.totalWaterUsed
      = t.totalWaterUsed + (timeStep rate f t).1.allocated ∧
    0 ≤ (timeStep rate f t).2.remainingElectricity ∧
    (timeStep rate f t).2.remainingElectricity ≤ t.remainingElectricity ∧
    (timeStep rate f t).2.remainingElectricity + (timeStep rate f t).2.totalTimeUsed
      = t.remainingElectricity + t.totalTimeUsed := by
  by_cases hadm : Admitted rate f t
  swap
  · rw [timeStep_skip rate f t hadm]
    dsimp only
    rw [hclr]
    omega
  · have hadm' := hadm
    unfold Admitted at hadm'
    have hprod : 0 ≤ t.remainingElectricity * rate := mul_nonneg he (le_of_lt hr)
    have hq : 0 ≤ (t.remainingWater + rate - 1).tdiv rate :=
      Int.tdiv_nonneg (by omega) (by omega)
    have hlt : (t.remainingWater + rate - 1).tdiv rate > t.remainingElectricity →
        t.remainingElectricity * rate < t.remainingWater := by
      intro hgt
      rw [Int.tdiv_eq_ediv (by omega) (by omega)] at hgt
      have h1 : (t.remainingWater + rate - 1) / rate * rate ≤ t.remainingWater + rate - 1 :=
        Int.ediv_mul_le _ (by omega)
      have h2 : (t.remainingElectricity + 1) * rate
          ≤ (t.remainingWater + rate - 1) / rate * rate :=
        Int.mul_le_mul_of_nonneg_right (by omega) (le_of_lt hr)
      have h3 : (t.remainingElectricity + 1) * rate = t.remainingElectricity * rate + rate := by
        ring
      omega
    simp only [timeStep, hadm', and_self, if_true]
    generalize t.remainingElectricity * rate = pr at *
    generalize (t.remainingWater + rate - 1).tdiv rate = q at *
    split_ifs <;> dsimp only <;> simp only [true_and] <;> omega

end Greedy

namespace Greedy

theorem allocLoop_time_cons (u rate : Int) (hu : u ≠ 0) (f : Field) (rest : List Field)
    (t : Totals) :
    allocLoop u rate (f :: rest) t =
      ((timeStep rate f t).1 :: (allocLoop u rate rest (timeStep rate f t).2).1,
        (allocLoop u rate rest (timeStep rate f t).2).2) := by
  simp [allocLoop, hu]

/-- With time constraints the loop never stops early: running it over `l₁ ++ l₂` is running
it over `l₁` and then over `l₂` with the totals left by `l₁`. -/
theorem allocLoop_time_append (u rate : Int) (hu : u ≠ 0) (l₁ l₂ : List Field) :
    ∀ t : Totals, allocLoop u rate (l₁ ++ l₂) t =
      ((allocLoop u rate l₁ t).1 ++ (allocLoop u rate l₂ (allocLoop u rate l₁ t).2).1,
        (allocLoop u rate l₂ (allocLoop u rate l₁ t).2).2) := by
  induction l₁ with
  | nil => intro t; simp [allocLoop]
  | cons f rest ih =>
    intro t
    rw [List.cons_append, allocLoop_time_cons u rate hu, ih, allocLoop_time_cons u rate hu]
    rfl

theorem allocLoop_time_length (u rate : Int) (hu : u ≠ 0) (fs : List Field) :
    ∀ t : Totals, (allocLoop u rate fs t).1.length = fs.length := by
  induction fs with
  | nil => intro t; simp [allocLoop]
  | cons f rest ih =>
    intro t
    rw [allocLoop_time_cons u rate hu]
    simp [ih]

/-- Field `k` is handled by the loop body with the totals left by the fields before it. -/
theorem allocLoop_time_getElem (u rate : Int) (hu : u ≠ 0) (fs : List Field) (t : Totals)
    (k : Nat) (hk : k < fs.length) :
    (allocLoop u rate fs t).1[k]? =
        some (timeStep rate fs[k] (allocLoop u rate (fs.take k) t).2).1 ∧
    (allocLoop u rate (fs.take (k + 1)) t).2 =
        (timeStep rate fs[k] (allocLoop u rate (fs.take k) t).2).2 := by
  have hsplit : fs = fs.take k ++ fs[k] :: fs.drop (k + 1) := by
    rw [← List.drop_eq_getElem_cons hk, List.take_append_drop]
  have hlen : (allocLoop u rate (fs.take k) t).1.length = k := by
    rw [allocLoop_time_length u rate hu, List.length_take]; omega
  constructor
  · conv_lhs => rw [hsplit]
    rw [allocLoop_time_append u rate hu, allocLoop_time_cons u rate hu]
    simp only
    rw [List.getElem?_append_right (by omega), hlen]
    simp
  · have htake : fs.take (k + 1) = fs.take k ++ [fs[k]] := by
      rw [List.take_succ, List.getElem?_eq_getElem hk]; rfl
    rw [htake, allocLoop_time_append u rate hu, allocLoop_time_cons u rate hu]
    simp [allocLoop]

/-- Bounds, sums and balances of the time-constrained loop. -/
theorem allocLoop_time_spec (u rate : Int) (hu : u ≠ 0) (hr : 0 < rate) (fs : List Field) :
    ∀ t : Totals, 0 ≤ t.remainingWater → 0 ≤ t.remainingElectricity →
      (∀ f ∈ fs, 0 ≤ f.waterNeeded ∧ 0 ≤ f.timeNeeded ∧ f.allocated = 0) →
      (∀ g ∈ (allocLoop u rate fs t).1, 0 ≤ g.allocated ∧ g.allocated ≤ g.waterNeeded) ∧
      ((allocLoop u rate fs t).1.map Field.allocated).sum
        = (allocLoop u rate fs t).2.totalWaterUsed - t.totalWaterUsed ∧
      (allocLoop u rate fs t).2.remainingWater
        = t.remainingWater - ((allocLoop u rate fs t).2.totalWaterUsed - t.totalWaterUsed) ∧
      0 ≤ (allocLoop u rate fs t).2.remainingWater ∧
      0 ≤ (allocLoop u rate fs t).2.remainingElectricity ∧
      (allocLoop u rate fs t).2.remainingElectricity + (allocLoop u rate fs t).2.totalTimeUsed
        = t.remainingElectricity + t.totalTimeUsed ∧
      t.totalWaterUsed ≤ (allocLoop u rate fs t).2.totalWaterUsed := by
  induction fs with
  | nil => intro t hw he _; simp [allocLoop, hw, he]
  | cons f rest ih =>
    intro t hw he h
    obtain ⟨hneed, htn, hclr⟩ := h f (List.mem_cons_self _ _)
    obtain ⟨s1, s2, s3, s4, s5, s6, s7, s8, s9⟩ :=
      timeStep_bounds rate f t hr hneed htn hclr hw he
    obtain ⟨a, b, c, d, e, g, i⟩ := ih (timeStep rate f t).2 (by omega) s7
      (fun g hg => h g (List.mem_cons_of_mem _ hg))
    rw [allocLoop_time_cons u rate hu]
    refine ⟨?_, ?_, ?_, d, e, ?_, ?_⟩
    · intro g hg
      rcases List.mem_cons.1 hg with rfl | hg
      · exact ⟨s1, by rw [s4]; exact s2⟩
      · exact a g hg
    · simp only [List.map_cons, List.sum_cons]; omega
    · simp only; omega
    · simp only; omega
    · simp only; omega

end Greedy

/-! ## The dynamic-programming table of `dp_scheduler.c` -/

namespace Dp

theorem mem_xRange (m n x : Int) : x ∈ xRange m n ↔ m ≤ x ∧ x ≤ n := by
  unfold xRange
  constructor
  · intro h
    obtain ⟨k, hk, rfl⟩ := List.mem_map.1 h
    have := List.mem_range.1 hk
    omega
  · rintro ⟨h1, h2⟩
    refine List.mem_map.2 ⟨(x - m).toNat, List.mem_range.2 (by omega), by omega⟩

theorem xRange_pairwise (m n : Int) : (xRange m n).Pairwise (· < ·) := by
  unfold xRange
  rw [List.pairwise_map]
  refine List.Pairwise.imp ?_ (List.pairwise_lt_range _)
  intro a b hab
  omega

/-- What the loop over `x` leaves in the cell: it never lowers the cell, it dominates every
candidate with `x ≤ w`, and it is either the start value or one of those candidates. -/
theorem xLoop_spec (f : Field) (prev : Nat → Cell) (w : Nat) :
    ∀ (xs : List Int) (acc : Cell × Int), xs.Pairwise (· < ·) →
      acc.1 ≤ (xLoop f prev w xs acc).1 ∧
      (∀ x ∈ xs, x ≤ (w : Int) →
        prev (w - x.toNat) + ((value f x : ℚ) : Cell) ≤ (xLoop f prev w xs acc).1) ∧
      (xLoop f prev w xs acc = acc ∨
        ∃ x ∈ xs, x ≤ (w : Int) ∧ acc.1 < (xLoop f prev w xs acc).1 ∧
          xLoop f prev w xs acc = (prev (w - x.toNat) + ((value f x : ℚ) : Cell), x)) := by
  intro xs
  induction xs with
  | nil => intro acc _; simp [xLoop]
  | cons x xs ih =>
    intro acc hp
    obtain ⟨hx, hp'⟩ := List.pairwise_cons.1 hp
    unfold xLoop
    by_cases hw : (w : Int) < x
    · simp only [hw, if_true]
      refine ⟨le_refl _, ?_, ?_⟩
      swap
      · simp
      intro y hy hyw
      rcases List.mem_cons.1 hy with rfl | hy
      · omega
      · have := hx y hy; omega
    · simp only [hw, if_false]
      by_cases hc : prev (w - x.toNat) + ((value f x : ℚ) : Cell) > acc.1
      · simp only [hc, if_true]
        obtain ⟨a, b, c⟩ := ih (prev (w - x.toNat) + ((value f x : ℚ) : Cell), x) hp'
        refine ⟨le_trans (le_of_lt hc) a, ?_, ?_⟩
        · intro y hy hyw
          rcases List.mem_cons.1 hy with rfl | hy
          · exact a
          · exact b y hy hyw
        · rcases c with c | ⟨y, hy, hyw, hlt, c⟩
          · exact Or.inr ⟨x, List.mem_cons_self _ _, by omega, by rw [c]; exact hc, c⟩
          · exact Or.inr ⟨y, List.mem_cons_of_mem _ hy, hyw, lt_of_lt_of_le hc a, c⟩
      · simp only [hc, if_false]
        obtain ⟨a, b, c⟩ := ih acc hp'
        refine ⟨a, ?_, ?_⟩
        · intro y hy hyw
          rcases List.mem_cons.1 hy with rfl | hy
          · exact le_trans (not_lt.1 hc) a
          · exact b y hy hyw
        · rcases c with c | ⟨y, hy, hyw, hlt, c⟩
          · exact Or.inl c
          · exact Or.inr ⟨y, List.mem_cons_of_mem _ hy, hyw, hlt, c⟩

/-- The smallest amount the DP gives to a field: `minWater` of line 226. -/
theorem minWater_nonneg (f : Field) (h : 0 ≤ f.waterNeeded) :
    0 ≤ (f.waterNeeded + 9).tdiv 10 :=
  Int.tdiv_nonneg (by omega) (by omega)

/-- What one cell of row `i + 1` holds after the loop body. -/
theorem cell_spec (f : Field) (prev : Nat → Cell) (w : Nat) :
    prev w ≤ (cell f prev w).1 ∧
    (∀ x : Int, (f.waterNeeded + 9).tdiv 10 ≤ x → x ≤ f.waterNeeded → x ≤ (w : Int) →
      prev (w - x.toNat) + ((value f x : ℚ) : Cell) ≤ (cell f prev w).1) ∧
    (((cell f prev w).2 = -1 ∧ (cell f prev w).1 = prev w) ∨
      ((f.waterNeeded + 9).tdiv 10 ≤ (cell f prev w).2 ∧ (cell f prev w).2 ≤ f.waterNeeded ∧
        (cell f prev w).2 ≤ (w : Int) ∧ prev w < (cell f prev w).1 ∧
        (cell f prev w).1 =
          prev (w - (cell f prev w).2.toNat) + ((value f (cell f prev w).2 : ℚ) : Cell))) := by
  have hskip : (if prev w > (⊥ : Cell) then (prev w, (-1 : Int)) else (⊥, -1)) = (prev w, -1) := by
    by_cases hb : prev w > (⊥ : Cell)
    · simp [hb]
    · have : prev w = ⊥ := by simpa using hb
      simp [this]
  obtain ⟨a, b, c⟩ := xLoop_spec f prev w (xRange ((f.waterNeeded + 9).tdiv 10) f.waterNeeded)
    (prev w, -1) (xRange_pairwise _ _)
  unfold cell
  simp only [hskip]
  refine ⟨a, ?_, ?_⟩
  · intro x h1 h2 h3
    exact b x ((mem_xRange _ _ _).2 ⟨h1, h2⟩) h3
  · rcases c with c | ⟨x, hx, hxw, hlt, c⟩
    · left; rw [c]; exact ⟨rfl, rfl⟩
    · right
      obtain ⟨h1, h2⟩ := (mem_xRange _ _ _).1 hx
      rw [c] at hlt ⊢
      exact ⟨h1, h2, hxw, hlt, rfl⟩

end Dp

namespace Dp

/-- Rows `0 .. i` of the table depend on the fields `0 .. i-1` only. -/
theorem table_append (pre suf : List Field) :
    ∀ (i : Nat), i ≤ pre.length → ∀ w, table (pre ++ suf) i w = table pre i w := by
  intro i
  induction i with
  | zero => intro _ w; rfl
  | succ i ih =>
    intro h w
    have hi : i < pre.length := h
    have hrow : (fun w' => (table (pre ++ suf) i w').1) = fun w' => (table pre i w').1 :=
      funext fun w' => by rw [ih (le_of_lt hi) w']
    simp only [table, List.getElem?_append_left hi, hrow]

/-- The last row of the table is the loop body applied to the row before it. -/
theorem table_snoc (pre : List Field) (f : Field) (w : Nat) :
    table (pre ++ [f]) (pre.length + 1) w
      = cell f (fun w' => (table pre pre.length w').1) w := by
  have hrow : (fun w' => (table (pre ++ [f]) pre.length w').1)
      = fun w' => (table pre pre.length w').1 :=
    funext fun w' => by rw [table_append pre [f] pre.length (le_refl _) w']
  simp only [table, List.getElem?_concat_length, hrow]

/-- Backtracking from row `i` reads rows `1 .. i` and fields `0 .. i-1` only. -/
theorem backtrack_append (pre suf : List Field) (p q : Nat → Nat → Int) :
    ∀ (i : Nat), i ≤ pre.length → (∀ j, j ≤ i → ∀ w, p j w = q j w) →
      ∀ cur, backtrack (pre ++ suf) p i cur = backtrack pre q i cur := by
  intro i
  induction i with
  | zero => intro _ _ cur; rfl
  | succ i ih =>
    intro h hpq cur
    have hi : i < pre.length := h
    have ih' := ih (le_of_lt hi) (fun j hj w => hpq j (Nat.le_succ_of_le hj) w)
    simp only [backtrack, List.getElem?_append_left hi, hpq (i + 1) (le_refl _), ih']

/-- The last iteration of the backtracking loop. -/
theorem backtrack_snoc (pre : List Field) (f : Field) (cur : Int) :
    backtrack (pre ++ [f]) (fun i w => (table (pre ++ [f]) i w).2) (pre.length + 1) cur =
      if (cell f (fun w' => (table pre pre.length w').1) cur.toNat).2 ≥ 0 then
        backtrack pre (fun i w => (table pre i w).2) pre.length
            (cur - (cell f (fun w' => (table pre pre.length w').1) cur.toNat).2)
          ++ [{ f with
                allocated := (cell f (fun w' => (table pre pre.length w').1) cur.toNat).2
                scheduled := 1 }]
      else
        backtrack pre (fun i w => (table pre i w).2) pre.length cur ++ [f] := by
  have hb : ∀ c, backtrack (pre ++ [f]) (fun i w => (table (pre ++ [f]) i w).2) pre.length c
      = backtrack pre (fun i w => (table pre i w).2) pre.length c :=
    fun c => backtrack_append pre [f] _ _ pre.length (le_refl _)
      (fun j hj w => by rw [table_append pre [f] j hj w]) c
  simp only [backtrack, List.getElem?_concat_length, table_snoc, hb]

theorem value_zero (f : Field) : value f 0 = 0 := by
  simp [value]

end Dp

namespace Dp

/-- Every choice of admissible amounts for the fields `0 .. i-1` that uses `w` units in total
is worth at most `dp[i][w]`. -/
theorem table_complete (fa : List (Field × Int)) :
    (∀ p ∈ fa, 0 ≤ p.1.waterNeeded ∧
      (p.2 = 0 ∨ ((p.1.waterNeeded + 9).tdiv 10 ≤ p.2 ∧ p.2 ≤ p.1.waterNeeded))) →
    0 ≤ (fa.map Prod.snd).sum ∧
    (((fa.map (fun p => value p.1 p.2)).sum : ℚ) : Cell)
      ≤ (table (fa.map Prod.fst) fa.length (fa.map Prod.snd).sum.toNat).1 := by
  induction fa using List.reverseRecOn with
  | nil => intro _; simp [table]
  | append_singleton pa p ih =>
    intro h
    obtain ⟨hS, hV⟩ := ih (fun q hq => h q (List.mem_append_left _ hq))
    obtain ⟨hneed, hadm⟩ := h p (List.mem_append_right _ (List.mem_singleton_self _))
    have hmin := minWater_nonneg p.1 hneed
    have hx : 0 ≤ p.2 := by rcases hadm with h0 | ⟨h1, _⟩ <;> omega
    have hsnoc := table_snoc (pa.map Prod.fst) p.1 ((pa.map Prod.snd).sum + p.2).toNat
    rw [List.length_map] at hsnoc
    obtain ⟨cskip, ctake, _⟩ := cell_spec p.1
      (fun w' => (table (pa.map Prod.fst) pa.length w').1) ((pa.map Prod.snd).sum + p.2).toNat
    simp only [List.map_append, List.map_cons, List.map_nil, List.sum_append, List.sum_cons,
      List.sum_nil, add_zero, List.length_append, List.length_singleton, hsnoc]
    refine ⟨by omega, ?_⟩
    rw [WithBot.coe_add]
    rcases hadm with h0 | ⟨h1, h2⟩
    · rw [h0, value_zero]
      rw [h0] at cskip
      simp only [add_zero] at cskip
      simpa using le_trans hV cskip
    · have hc := ctake p.2 h1 h2 (by omega)
      have hidx : ((pa.map Prod.snd).sum + p.2).toNat - p.2.toNat
          = (pa.map Prod.snd).sum.toNat := by omega
      rw [hidx] at hc
      exact le_trans (add_le_add_right hV _) hc

/-- Backtracking from a cell that holds a value returns admissible amounts that use exactly
`w` units and are worth exactly `dp[i][w]`. -/
theorem backtrack_sound (fields : List Field) :
    (∀ f ∈ fields, 0 ≤ f.waterNeeded ∧ f.allocated = 0) →
    ∀ w : Nat, (table fields fields.length w).1 ≠ ⊥ →
      List.Forall₂ Chosen fields
        (backtrack fields (fun i w => (table fields i w).2) fields.length w) ∧
      ((backtrack fields (fun i w => (table fields i w).2) fields.length w).map
        Field.allocated).sum = w ∧
      ((((backtrack fields (fun i w => (table fields i w).2) fields.length w).map
        (fun g => value g g.allocated)).sum : ℚ) : Cell) = (table fields fields.length w).1 := by
  induction fields using List.reverseRecOn with
  | nil =>
    intro _ w hw
    have hw0 : w = 0 := by
      by_contra hne
      simp [table, hne] at hw
    subst hw0
    simp [backtrack, table]
  | append_singleton pre f ih =>
    intro h w hw
    have ih' := ih (fun g hg => h g (List.mem_append_left _ hg))
    obtain ⟨hneed, hzero⟩ := h f (List.mem_append_right _ (List.mem_singleton_self _))
    have hmin := minWater_nonneg f hneed
    rw [List.length_append, List.length_singleton, table_snoc] at hw ⊢
    rw [backtrack_snoc]
    simp only [Int.toNat_ofNat]
    rcases (cell_spec f (fun w' => (table pre pre.length w').1) w).2.2 with
      ⟨hp, hv⟩ | ⟨h1, h2, h3, hlt, hv⟩
    · have hneg : ¬ (cell f (fun w' => (table pre pre.length w').1) w).2 ≥ 0 := by
        rw [hp]; decide
      rw [if_neg hneg]
      rw [hv] at hw ⊢
      obtain ⟨a, b, c⟩ := ih' w hw
      refine ⟨List.rel_append a (List.Forall₂.cons ?_ List.Forall₂.nil), ?_, ?_⟩
      · exact ⟨rfl, rfl, rfl, rfl, Or.inl rfl⟩
      · simp only [List.map_append, List.sum_append, List.map_cons, List.map_nil, List.sum_cons,
          List.sum_nil, b, hzero]
        omega
      · simp only [List.map_append, List.sum_append, List.map_cons, List.map_nil, List.sum_cons,
          List.sum_nil, hzero, value_zero, add_zero]
        exact c
    · have hpos : (cell f (fun w' => (table pre pre.length w').1) w).2 ≥ 0 := le_trans hmin h1
      rw [if_pos hpos]
      generalize hx : (cell f (fun w' => (table pre pre.length w').1) w).2 = x at *
      generalize hc : (cell f (fun w' => (table pre pre.length w').1) w).1 = v at *
      have hcur : (w : Int) - x = ((w - x.toNat : Nat) : Int) := by omega
      rw [hcur]
      have hprev : (table pre pre.length (w - x.toNat)).1 ≠ ⊥ := by
        intro hb
        rw [hv, hb] at hw
        simp at hw
      obtain ⟨a, b, c⟩ := ih' (w - x.toNat) hprev
      have hx0 : x ≠ 0 := by
        intro h0
        rw [hv, h0] at hlt
        simp [value_zero] at hlt
      refine ⟨List.rel_append a (List.Forall₂.cons ?_ List.Forall₂.nil), ?_, ?_⟩
      · exact ⟨rfl, rfl, rfl, rfl, Or.inr ⟨h1, h2, by simp only; omega, rfl⟩⟩
      · simp only [List.map_append, List.sum_append, List.map_cons, List.map_nil, List.sum_cons,
          List.sum_nil, b]
        omega
      · simp only [List.map_append, List.sum_append, List.map_cons, List.map_nil, List.sum_cons,
          List.sum_nil, add_zero, WithBot.coe_add, c, hv]
        rfl

end Dp

namespace Dp

/-- The search loop returns the first position of the largest cell among `0 .. n-1`. -/
theorem foldl_best (row : Nat → Cell) (n : Nat) :
    (∀ w, w < n → row w ≤
      ((List.range n).foldl (fun best w => if row w > best.2 then (w, row w) else best)
        ((0 : Nat), (⊥ : Cell))).2) ∧
    (((List.range n).foldl (fun best w => if row w > best.2 then (w, row w) else best)
        ((0 : Nat), (⊥ : Cell))) = (0, ⊥) ∨
      (((List.range n).foldl (fun best w => if row w > best.2 then (w, row w) else best)
        ((0 : Nat), (⊥ : Cell))).1 < n ∧
       ((List.range n).foldl (fun best w => if row w > best.2 then (w, row w) else best)
        ((0 : Nat), (⊥ : Cell))).2 =
          row ((List.range n).foldl (fun best w => if row w > best.2 then (w, row w) else best)
            ((0 : Nat), (⊥ : Cell))).1)) ∧
    (∀ w, w < ((List.range n).foldl (fun best w => if row w > best.2 then (w, row w) else best)
        ((0 : Nat), (⊥ : Cell))).1 →
      row w < ((List.range n).foldl (fun best w => if row w > best.2 then (w, row w) else best)
        ((0 : Nat), (⊥ : Cell))).2) := by
  induction n with
  | zero => simp
  | succ n ih =>
    rw [List.range_succ, List.foldl_append]
    generalize (List.range n).foldl (fun best w => if row w > best.2 then (w, row w) else best)
        ((0 : Nat), (⊥ : Cell)) = r at ih
    obtain ⟨a, b, c⟩ := ih
    simp only [List.foldl_cons, List.foldl_nil]
    by_cases hgt : row n > r.2
    · simp only [hgt, if_true]
      refine ⟨?_, Or.inr ⟨Nat.lt_succ_self n, trivial⟩, ?_⟩
      · intro w hw
        rcases Nat.lt_succ_iff_lt_or_eq.1 hw with h | h
        · exact le_of_lt (lt_of_le_of_lt (a w h) hgt)
        · rw [h]
      · intro w hw
        exact lt_of_le_of_lt (a w hw) hgt
    · simp only [hgt, if_false]
      refine ⟨?_, ?_, c⟩
      · intro w hw
        rcases Nat.lt_succ_iff_lt_or_eq.1 hw with h | h
        · exact a w h
        · rw [h]; exact not_lt.1 hgt
      · rcases b with b | ⟨b1, b2⟩
        · exact Or.inl b
        · exact Or.inr ⟨Nat.lt_succ_of_lt b1, b2⟩

/-- The search of lines 250-257, given that cell `0` of the last row holds a value: `best_w`
lies in `0 .. totalWater`, `best_value` is the cell at `best_w`, no cell is larger and every
cell before `best_w` is smaller. -/
theorem findBest_spec (row : Nat → Cell) (totalWater : Int) (hW : 0 ≤ totalWater)
    (h0 : row 0 ≠ ⊥) :
    ((findBest row totalWater).1 : Int) ≤ totalWater ∧
    (findBest row totalWater).2 = row (findBest row totalWater).1 ∧
    (findBest row totalWater).2 ≠ ⊥ ∧
    (∀ w : Nat, (w : Int) ≤ totalWater → row w ≤ (findBest row totalWater).2) ∧
    (∀ w : Nat, w < (findBest row totalWater).1 → row w < (findBest row totalWater).2) := by
  obtain ⟨a, b, c⟩ := foldl_best row (totalWater + 1).toNat
  unfold findBest
  generalize (List.range (totalWater + 1).toNat).foldl
    (fun best w => if row w > best.2 then (w, row w) else best) ((0 : Nat), (⊥ : Cell)) = r at *
  have hr0 : row 0 ≤ r.2 := a 0 (by omega)
  have hne : r.2 ≠ ⊥ := by
    intro hb
    rw [hb] at hr0
    exact h0 (le_bot_iff.1 hr0)
  rcases b with b | ⟨b1, b2⟩
  · rw [b] at hne; exact absurd rfl hne
  · exact ⟨by omega, b2, hne, fun w hw => a w (by omega), c⟩

end Dp

namespace Dp

/-- The `minWater` of line 226 is `ceil(waterNeeded / 10)`. -/
theorem minWater_eq_ceil (n : Int) (h : 0 ≤ n) : (n + 9).tdiv 10 = ⌈(n : ℚ) / 10⌉ := by
  rw [Int.tdiv_eq_ediv (by omega) (by omega)]
  symm
  rw [Int.ceil_eq_iff]
  have h1 : 10 * ((n + 9) / 10) ≤ n + 9 := by omega
  have h2 : n ≤ 10 * ((n + 9) / 10) := by omega
  constructor
  · rw [lt_div_iff₀ (by norm_num)]
    have : (((n + 9) / 10 : Int) : ℚ) * 10 ≤ (n : ℚ) + 9 := by exact_mod_cast (by omega : (n + 9) / 10 * 10 ≤ n + 9)
    linarith
  · rw [div_le_iff₀ (by norm_num)]
    exact_mod_cast (by omega : n ≤ (n + 9) / 10 * 10)

theorem value_eq (f : Field) (x : Int) :
    value f x = (100 - (f.moisture : ℚ)) * (x : ℚ) / (f.waterNeeded : ℚ) := by
  unfold value
  rw [mul_div_assoc]

theorem totalValue_eq (fields : List Field) (a : List Int) :
    totalValue fields a = ((fields.zip a).map (fun p => value p.1 p.2)).sum := by
  unfold totalValue
  congr 1
  apply List.map_congr_left
  intro p _
  rw [value_eq]

/-- The value of the array after backtracking, read off the array itself. -/
theorem chosen_value (fields out : List Field) (h : List.Forall₂ Chosen fields out) :
    (fields.zip (out.map Field.allocated)).map (fun p => value p.1 p.2)
      = out.map (fun g => value g g.allocated) := by
  induction h with
  | nil => rfl
  | cons hfg _ ih =>
    obtain ⟨_, hm, hn, _, _⟩ := hfg
    simp only [List.map_cons, List.zip_cons_cons, ih]
    simp only [value, hm, hn]

/-- The amounts written by backtracking are admissible for the fields they belong to. -/
theorem chosen_admissible (fields out : List Field) (h : List.Forall₂ Chosen fields out)
    (hz : ∀ f ∈ fields, 0 ≤ f.waterNeeded ∧ f.allocated = 0) :
    ∀ p ∈ fields.zip (out.map Field.allocated),
      p.2 = 0 ∨ ((p.1.waterNeeded + 9).tdiv 10 ≤ p.2 ∧ p.2 ≤ p.1.waterNeeded) := by
  induction h with
  | nil => intro p hp; simp at hp
  | @cons f g l1 l2 hfg _ ih =>
    intro p hp
    simp only [List.map_cons, List.zip_cons_cons, List.mem_cons] at hp
    rcases hp with rfl | hp
    · obtain ⟨_, _, _, _, hc⟩ := hfg
      rcases hc with rfl | ⟨h1, h2, _, _⟩
      · exact Or.inl (hz _ (List.mem_cons_self _ _)).2
      · exact Or.inr ⟨h1, h2⟩
    · exact ih (fun f hf => hz f (List.mem_cons_of_mem _ hf)) p hp

/-- Feasibility and optimality of what `allocate` returns, together with the values of
`totalWaterUsed` and `remainingWater`. -/
theorem allocate_spec (fields : List Field) (totalWater : Int) (hW : 0 ≤ totalWater)
    (hz : ∀ f ∈ fields, 0 ≤ f.waterNeeded ∧ f.allocated = 0) :
    List.Forall₂ Chosen fields (allocate fields totalWater).1 ∧
    ((allocate fields totalWater).1.map Field.allocated).sum = (allocate fields totalWater).2.1 ∧
    0 ≤ (allocate fields totalWater).2.1 ∧
    (allocate fields totalWater).2.1 ≤ totalWater ∧
    (allocate fields totalWater).2.2 = totalWater - (allocate fields totalWater).2.1 ∧
    Feasible totalWater fields ((allocate fields totalWater).1.map Field.allocated) ∧
    (∀ a, Feasible totalWater fields a →
      totalValue fields a
        ≤ totalValue fields ((allocate fields totalWater).1.map Field.allocated)) := by
  have hzero : (table fields fields.length 0).1 ≠ ⊥ := by
    have hc := table_complete (fields.map (fun f => (f, (0 : Int)))) (by
      intro p hp
      obtain ⟨f, hf, rfl⟩ := List.mem_map.1 hp
      exact ⟨(hz f hf).1, Or.inl rfl⟩)
    have hfst : (fields.map (fun f => (f, (0 : Int)))).map Prod.fst = fields := by
      simp [List.map_map, Function.comp_def]
    have hsnd : ((fields.map (fun f => (f, (0 : Int)))).map Prod.snd).sum = 0 := by
      apply List.sum_eq_zero
      intro x hx
      simp only [List.map_map, List.mem_map, Function.comp_apply] at hx
      obtain ⟨_, _, rfl⟩ := hx
      rfl
    rw [hfst, hsnd, List.length_map] at hc
    intro hb
    have := hc.2
    rw [Int.toNat_zero, hb] at this
    simp at this
  obtain ⟨b1, b2, b3, b4, _⟩ :=
    findBest_spec (fun w => (table fields fields.length w).1) totalWater hW hzero
  have hcell : (table fields fields.length
      (findBest (fun w => (table fields fields.length w).1) totalWater).1).1 ≠ ⊥ := by
    intro hb; exact b3 (b2.trans hb)
  obtain ⟨s1, s2, s3⟩ := backtrack_sound fields hz _ hcell
  have hlen := s1.length_eq
  have hfeas : Feasible totalWater fields ((allocate fields totalWater).1.map Field.allocated) := by
    refine ⟨by simp only [allocate, List.length_map]; exact hlen.symm, ?_, ?_⟩
    · intro p hp
      have hneed : 0 ≤ p.1.waterNeeded := (hz p.1 (List.of_mem_zip hp).1).1
      rw [← minWater_eq_ceil _ hneed]
      exact chosen_admissible fields _ s1 hz p hp
    · simp only [allocate]
      rw [s2]; exact b1
  refine ⟨s1, ?_, ?_, b1, rfl, hfeas, ?_⟩
  · simp only [allocate]; exact s2
  · simp only [allocate]; omega
  · intro a ha
    obtain ⟨hl, hadm, hsum⟩ := ha
    have hfst : (fields.zip a).map Prod.fst = fields := by
      rw [← List.unzip_fst, List.unzip_zip hl.symm]
    have hsnd : (fields.zip a).map Prod.snd = a := by
      rw [← List.unzip_snd, List.unzip_zip hl.symm]
    have hc := table_complete (fields.zip a) (by
      intro p hp
      have hneed : 0 ≤ p.1.waterNeeded := (hz p.1 (List.of_mem_zip hp).1).1
      refine ⟨hneed, ?_⟩
      rw [minWater_eq_ceil _ hneed]
      exact hadm p hp)
    rw [hfst, hsnd] at hc
    have hlenz : (fields.zip a).length = fields.length := by
      rw [List.length_zip, hl, Nat.min_self]
    rw [hlenz] at hc
    obtain ⟨hnn, hle⟩ := hc
    have hbest := b4 a.sum.toNat (by omega)
    have hchain := le_trans hle hbest
    rw [b2, ← s3] at hchain
    rw [totalValue_eq, totalValue_eq]
    simp only [allocate]
    rw [chosen_value fields _ s1]
    exact WithBot.coe_le_coe.1 hchain

end Dp

/-! ## Lemmas that connect the loops to `main` and `scheduleIrrigation` -/

theorem resetFields_cleared (fs : List Field) :
    ∀ f ∈ resetFields fs, f.allocated = 0 ∧ f.scheduled = 0 := by
  intro f hf
  obtain ⟨g, _, rfl⟩ := List.mem_map.1 hf
  exact ⟨rfl, rfl⟩

theorem resetFields_need (fs : List Field) (h : ∀ f ∈ fs, 0 ≤ f.waterNeeded) :
    ∀ f ∈ resetFields fs, 0 ≤ f.waterNeeded := by
  intro f hf
  obtain ⟨g, hg, rfl⟩ := List.mem_map.1 hf
  exact h g hg

theorem qsort_need (qsort : List Field → List Field) (hq : IsQsort compareFields qsort)
    (fs : List Field) (h : ∀ f ∈ fs, 0 ≤ f.waterNeeded) :
    ∀ f ∈ qsort fs, 0 ≤ f.waterNeeded :=
  fun f hf => h f ((hq fs).1.mem_iff.1 hf)

namespace Greedy

/-- With at least one field and a budget that is not negative, `scheduleIrrigation` runs the
allocation loop on the prepared array from the start totals. -/
theorem scheduleIrrigation_eq (qsort : List Field → List Field) (data : IrrigationData)
    (hn : data.fields ≠ []) (hW : 0 ≤ data.totalWater) :
    (scheduleIrrigation qsort data).fields =
        (allocLoop data.useTimeConstraints (loopRate data) (priorityFields qsort data)
          (startTotals data)).1 ∧
    (scheduleIrrigation qsort data).remainingWater =
        (allocLoop data.useTimeConstraints (loopRate data) (priorityFields qsort data)
          (startTotals data)).2.remainingWater ∧
    (scheduleIrrigation qsort data).remainingElectricity =
        (allocLoop data.useTimeConstraints (loopRate data) (priorityFields qsort data)
          (startTotals data)).2.remainingElectricity ∧
    (scheduleIrrigation qsort data).totalWaterUsed =
        (allocLoop data.useTimeConstraints (loopRate data) (priorityFields qsort data)
          (startTotals data)).2.totalWaterUsed ∧
    (scheduleIrrigation qsort data).totalTimeUsed =
        (allocLoop data.useTimeConstraints (loopRate data) (priorityFields qsort data)
          (startTotals data)).2.totalTimeUsed ∧
    (scheduleIrrigation qsort data).totalWater = data.totalWater ∧
    (scheduleIrrigation qsort data).totalElectricity = data.totalElectricity := by
  have hlen : ¬ (data.fields.length ≤ 0 ∨ data.totalWater < 0) := by
    intro h
    rcases h with h | h
    · exact hn (List.length_eq_zero.1 (Nat.le_zero.1 h))
    · omega
  unfold scheduleIrrigation priorityFields loopRate startTotals
  rw [if_neg hlen]
  by_cases hu : data.useTimeConstraints ≠ 0
  · rw [if_pos hu]
    exact ⟨rfl, rfl, rfl, rfl, rfl, rfl, rfl⟩
  · rw [if_neg hu]
    exact ⟨rfl, rfl, rfl, rfl, rfl, rfl, rfl⟩

theorem priorityFields_untimed (qsort : List Field → List Field)
    (hq : IsQsort compareFields qsort) (data : IrrigationData)
    (hu : data.useTimeConstraints = 0) (h : ∀ f ∈ data.fields, 0 ≤ f.waterNeeded) :
    ∀ f ∈ priorityFields qsort data,
      0 ≤ f.waterNeeded ∧ f.allocated = 0 ∧ f.scheduled = 0 := by
  intro f hf
  unfold priorityFields at hf
  simp only [hu, ne_eq, not_true_eq_false, if_false] at hf
  obtain ⟨g, hg, rfl⟩ := List.mem_map.1 hf
  exact ⟨h g ((hq _).1.mem_iff.1 hg), rfl, rfl⟩

end Greedy

namespace BruteForce

/-- At most one record is partially served after the loop. -/
theorem allocLoop_countP (fs : List Field) :
    ∀ (used rem : Int), (∀ f ∈ fs, f.allocated = 0 ∧ f.scheduled = 0) →
      (allocLoop fs used rem).1.countP
        (fun f => decide (0 < f.allocated ∧ f.allocated < f.waterNeeded)) ≤ 1 := by
  induction fs with
  | nil => intro used rem _; simp [allocLoop]
  | cons f rest ih =>
    intro used rem hclr
    have hclr' : ∀ g ∈ rest, g.allocated = 0 ∧ g.scheduled = 0 :=
      fun g hg => hclr g (List.mem_cons_of_mem _ hg)
    have hrest : rest.countP
        (fun f => decide (0 < f.allocated ∧ f.allocated < f.waterNeeded)) = 0 := by
      rw [List.countP_eq_zero]
      intro g hg
      have := (hclr' g hg).1
      simp only [decide_eq_true_eq, not_and, not_lt]
      omega
    rcases allocLoop_cases f rest used rem with ⟨_, e⟩ | ⟨_, _, _, e⟩ | ⟨_, _, e⟩
    · rw [e]
      rw [List.countP_cons_of_neg]
      · exact ih _ _ hclr'
      · simp
    · rw [e]
      have := List.countP_cons
        (fun f => decide (0 < f.allocated ∧ f.allocated < f.waterNeeded))
        ({ f with allocated := rem, scheduled := 1 }) rest
      rw [this, hrest]
      split_ifs <;> omega
    · rw [e]
      have := List.countP_cons
        (fun f => decide (0 < f.allocated ∧ f.allocated < f.waterNeeded)) f rest
      rw [this, hrest]
      split_ifs <;> omega

/-- The allocation loop writes `allocated` and `scheduled` only. -/
theorem allocLoop_identity (fs : List Field) :
    ∀ (used rem : Int), (allocLoop fs used rem).1.map Field.identity = fs.map Field.identity := by
  induction fs with
  | nil => intro used rem; simp [allocLoop]
  | cons f rest ih =>
    intro used rem
    rcases allocLoop_cases f rest used rem with ⟨_, e⟩ | ⟨_, _, _, e⟩ | ⟨_, _, e⟩
    · rw [e]
      simp only [List.map_cons, ih]
      rfl
    · rw [e]; rfl
    · rw [e]

end BruteForce

namespace Greedy

theorem priorityFields_timed (qsort : List Field → List Field)
    (hq : IsQsort compareFields qsort) (data : IrrigationData)
    (hu : data.useTimeConstraints ≠ 0) (h : ∀ f ∈ data.fields, 0 ≤ f.waterNeeded) :
    ∀ f ∈ priorityFields qsort data,
      0 ≤ f.waterNeeded ∧ 0 ≤ f.timeNeeded ∧ f.allocated = 0 ∧ f.scheduled = 0 := by
  intro f hf
  unfold priorityFields at hf
  rw [if_pos hu] at hf
  obtain ⟨g, hg, rfl⟩ := List.mem_map.1 hf
  have hg' := (hq _).1.mem_iff.1 hg
  simp only [calculateFieldTimes] at hg'
  obtain ⟨g0, hg0, rfl⟩ := List.mem_map.1 hg'
  refine ⟨h g0 hg0, ?_, rfl, rfl⟩
  dsimp only
  split_ifs <;> omega

theorem loopRate_timed (data : IrrigationData) (hu : data.useTimeConstraints ≠ 0)
    (hr : 0 < data.waterDeliveryRate) : loopRate data = data.waterDeliveryRate := by
  unfold loopRate
  rw [if_pos hu]
  simp only [calculateFieldTimes]
  rw [if_neg (by omega)]

end Greedy

/-- Restoring the order of an array that holds the input records, in any order and with any
allocations, gives the input order back, when `originalIndex` is the input position. -/
theorem restoreOrder_identity (input out : List Field)
    (hperm : (out.map Field.identity).Perm (input.map Field.identity))
    (hpos : ∀ (k : Nat) (hk : k < input.length), (input[k]).originalIndex = (k : Int)) :
    (restoreOrder out).map Field.identity = input.map Field.identity := by
  have hin : input.Pairwise (fun a b => a.originalIndex < b.originalIndex) := by
    rw [List.pairwise_iff_getElem]
    intro i j hi hj hij
    rw [hpos i hi, hpos j hj]
    exact_mod_cast hij
  have hin' : (input.map Field.identity).Pairwise (fun x y => x.2.2.2 < y.2.2.2) := by
    rw [List.pairwise_map]
    exact hin
  have hoi : (out.map Field.originalIndex).Perm (input.map Field.originalIndex) := by
    have := hperm.map (fun x : String × Int × Int × Int => x.2.2.2)
    simpa [List.map_map, Function.comp_def, Field.identity] using this
  have hnd : (out.map Field.originalIndex).Nodup := by
    rw [hoi.nodup_iff, List.Nodup, List.pairwise_map]
    exact hin.imp (fun h => ne_of_lt h)
  have hout : ((restoreOrder out).map Field.identity).Pairwise
      (fun x y => x.2.2.2 < y.2.2.2) := by
    rw [List.pairwise_map]
    exact restoreOrder_strict out hnd
  have hp : ((restoreOrder out).map Field.identity).Perm (input.map Field.identity) :=
    ((restoreOrder_perm out).map Field.identity).trans hperm
  haveI : IsAntisymm (String × Int × Int × Int) (fun x y => x.2.2.2 < y.2.2.2) :=
    ⟨fun a b h1 h2 => absurd h1 (not_lt.2 (le_of_lt h2))⟩
  exact List.eq_of_perm_of_sorted hp hout hin'

theorem resetFields_identity (fs : List Field) :
    (resetFields fs).map Field.identity = fs.map Field.identity := by
  unfold resetFields
  rw [List.map_map]
  rfl

namespace Dp

end Dp

namespace Greedy

end Greedy

/-- A rearrangement of the first components of a list of pairs lifts to a rearrangement of
the pairs. -/
theorem perm_lift {α β : Type} (f : α → β) (l' : List β) (l : List α)
    (h : l'.Perm (l.map f)) : ∃ m : List α, m.map f = l' ∧ m.Perm l := by
  generalize hl0 : l.map f = l0 at h
  induction h generalizing l with
  | nil =>
    have : l = [] := List.map_eq_nil_iff.1 hl0
    exact ⟨[], rfl, by rw [this]⟩
  | cons x _ ih =>
    cases l with
    | nil => simp at hl0
    | cons a l2 =>
      simp only [List.map_cons, List.cons.injEq] at hl0
      obtain ⟨m2, hm2, hp2⟩ := ih l2 hl0.2
      exact ⟨a :: m2, by simp [hm2, hl0.1], List.Perm.cons a hp2⟩
  | swap x y t =>
    cases l with
    | nil => simp at hl0
    | cons a l2 =>
      cases l2 with
      | nil => simp at hl0
      | cons b l3 =>
        simp only [List.map_cons, List.cons.injEq] at hl0
        exact ⟨b :: a :: l3, by simp [hl0.1, hl0.2.1, hl0.2.2], List.Perm.swap a b l3⟩
  | trans _ _ ih1 ih2 =>
    obtain ⟨m2, hm2, hp2⟩ := ih2 l hl0
    obtain ⟨m1, hm1, hp1⟩ := ih1 m2 hm2
    exact ⟨m1, hm1, hp1.trans hp2⟩

namespace Dp

/-- Feasibility and total value in terms of the list of (field, amount) pairs. -/
theorem feasible_iff_pairs (totalWater : Int) (fields : List Field) (a : List Int) :
    Feasible totalWater fields a ↔
      a.length = fields.length ∧
      (∀ p ∈ fields.zip a,
        p.2 = 0 ∨ (⌈(p.1.waterNeeded : ℚ) / 10⌉ ≤ p.2 ∧ p.2 ≤ p.1.waterNeeded)) ∧
      ((fields.zip a).map Prod.snd).sum ≤ totalWater := by
  unfold Feasible
  constructor
  · rintro ⟨h1, h2, h3⟩
    refine ⟨h1, h2, ?_⟩
    rw [← List.unzip_snd, List.unzip_zip h1.symm]
    exact h3
  · rintro ⟨h1, h2, h3⟩
    refine ⟨h1, h2, ?_⟩
    rw [← List.unzip_snd, List.unzip_zip h1.symm] at h3
    exact h3

/-- Feasible allocations and their values carry over along a rearrangement of the fields. -/
theorem feasible_perm (totalWater : Int) (fields sorted : List Field)
    (hp : sorted.Perm fields) (a : List Int) (ha : Feasible totalWater fields a) :
    ∃ a', Feasible totalWater sorted a' ∧ totalValue sorted a' = totalValue fields a := by
  obtain ⟨h1, h2, h3⟩ := (feasible_iff_pairs _ _ _).1 ha
  have hfst : (fields.zip a).map Prod.fst = fields := by
    rw [← List.unzip_fst, List.unzip_zip h1.symm]
  obtain ⟨m, hm, hpm⟩ := perm_lift Prod.fst sorted (fields.zip a) (by rw [hfst]; exact hp)
  have hlen : (m.map Prod.snd).length = sorted.length := by
    rw [← hm]; simp
  have hzip : sorted.zip (m.map Prod.snd) = m := by
    rw [← hm]
    exact (List.zip_of_prod rfl rfl).symm
  refine ⟨m.map Prod.snd, (feasible_iff_pairs _ _ _).2 ⟨hlen, ?_, ?_⟩, ?_⟩
  · rw [hzip]
    intro p hp'
    exact h2 p (hpm.mem_iff.1 hp')
  · rw [hzip, (hpm.map Prod.snd).sum_eq]
    exact h3
  · unfold totalValue
    rw [hzip]
    exact (hpm.map _).sum_eq

/-- Reading amounts and values off an array whose records are those of `fields`, position by
position. -/
theorem zip_of_identity (fields out : List Field)
    (h : out.map Field.identity = fields.map Field.identity) :
    (fields.zip (out.map Field.allocated)).map
        (fun p => ((p.1.moisture, p.1.waterNeeded), p.2))
      = out.map (fun g => ((g.moisture, g.waterNeeded), g.allocated)) := by
  induction fields generalizing out with
  | nil =>
    have : out = [] := by simpa using h
    rw [this]; rfl
  | cons f rest ih =>
    cases out with
    | nil => simp at h
    | cons g out' =>
      simp only [List.map_cons, List.cons.injEq] at h
      simp only [List.map_cons, List.zip_cons_cons, ih out' h.2]
      have hm : f.moisture = g.moisture := by
        have := congrArg (fun x : String × Int × Int × Int => x.2.1) h.1
        exact this.symm
      have hn : f.waterNeeded = g.waterNeeded := by
        have := congrArg (fun x : String × Int × Int × Int => x.2.2.1) h.1
        exact this.symm
      rw [hm, hn]

end Dp

namespace Dp

/-- The total value of an array whose records are those of `fields`, position by position,
read off the array itself. -/
theorem totalValue_of_identity (fields out : List Field)
    (h : out.map Field.identity = fields.map Field.identity) :
    totalValue fields (out.map Field.allocated)
      = (out.map (fun g =>
          (100 - (g.moisture : ℚ)) * (g.allocated : ℚ) / (g.waterNeeded : ℚ))).sum := by
  have hz := congrArg
    (List.map (fun q : (Int × Int) × Int => (100 - (q.1.1 : ℚ)) * (q.2 : ℚ) / (q.1.2 : ℚ)))
    (zip_of_identity fields out h)
  simp only [List.map_map, Function.comp_def] at hz
  unfold totalValue
  rw [hz]

/-- Every record after backtracking holds `0` or an amount between `ceil(waterNeeded / 10)`
and `waterNeeded`. -/
theorem chosen_mem (fields out : List Field) (h : List.Forall₂ Chosen fields out)
    (hz : ∀ f ∈ fields, 0 ≤ f.waterNeeded ∧ f.allocated = 0) :
    ∀ g ∈ out, g.allocated = 0 ∨
      (⌈(g.waterNeeded : ℚ) / 10⌉ ≤ g.allocated ∧ g.allocated ≤ g.waterNeeded) := by
  induction h with
  | nil => intro g hg; simp at hg
  | @cons f g l1 l2 hfg _ ih =>
    intro g' hg'
    rcases List.mem_cons.1 hg' with rfl | hg'
    · obtain ⟨_, _, hn, _, hc⟩ := hfg
      have hf := hz f (List.mem_cons_self _ _)
      rcases hc with rfl | ⟨h1, h2, _, _⟩
      · exact Or.inl hf.2
      · right
        rw [hn, ← minWater_eq_ceil _ hf.1]
        exact ⟨h1, h2⟩
    · exact ih (fun f hf => hz f (List.mem_cons_of_mem _ hf)) g' hg'

theorem chosen_identity (fields out : List Field) (h : List.Forall₂ Chosen fields out) :
    out.map Field.identity = fields.map Field.identity := by
  induction h with
  | nil => rfl
  | cons hfg _ ih =>
    obtain ⟨h1, h2, h3, h4, _⟩ := hfg
    simp only [List.map_cons, ih, Field.identity, h1, h2, h3, h4]

/-- Feasibility of the amounts held by an array whose records are those of `fields`. -/
theorem feasible_of_identity (totalWater : Int) (fields out : List Field)
    (h : out.map Field.identity = fields.map Field.identity)
    (hadm : ∀ g ∈ out, g.allocated = 0 ∨
      (⌈(g.waterNeeded : ℚ) / 10⌉ ≤ g.allocated ∧ g.allocated ≤ g.waterNeeded))
    (hsum : (out.map Field.allocated).sum ≤ totalWater) :
    Feasible totalWater fields (out.map Field.allocated) := by
  refine ⟨?_, ?_, hsum⟩
  · have := congrArg List.length h
    simpa using this
  · intro p hp
    have hz := zip_of_identity fields out h
    have hmem : ((p.1.moisture, p.1.waterNeeded), p.2)
        ∈ (fields.zip (out.map Field.allocated)).map
          (fun p => ((p.1.moisture, p.1.waterNeeded), p.2)) :=
      List.mem_map.2 ⟨p, hp, rfl⟩
    rw [hz] at hmem
    obtain ⟨g, hg, hgp⟩ := List.mem_map.1 hmem
    simp only [Prod.mk.injEq] at hgp
    obtain ⟨⟨_, hn⟩, ha⟩ := hgp
    rw [← hn, ← ha]
    exact hadm g hg

/-- The DP program on a validated input as `parseInput` stores it: what the sorted array
holds after backtracking, and what `main` hands to `generateOutput`, is feasible and of the
largest total value. -/
theorem main_spec (qsort : List Field → List Field) (hq : IsQsort compareFields qsort)
    (data : IrrigationData) (hv : Validated data) (hfresh : FreshlyParsed data.fields) :
    (Feasible data.totalWater (qsort data.fields)
        ((allocate (qsort data.fields) data.totalWater).1.map Field.allocated) ∧
      ∀ a, Feasible data.totalWater (qsort data.fields) a →
        totalValue (qsort data.fields) a
          ≤ totalValue (qsort data.fields)
              ((allocate (qsort data.fields) data.totalWater).1.map Field.allocated)) ∧
    (Feasible data.totalWater data.fields ((main qsort data).fields.map Field.allocated) ∧
      ∀ a, Feasible data.totalWater data.fields a →
        totalValue data.fields a
          ≤ totalValue data.fields ((main qsort data).fields.map Field.allocated)) := by
  have hperm := (hq data.fields).1
  have hz : ∀ f ∈ qsort data.fields, 0 ≤ f.waterNeeded ∧ f.allocated = 0 := by
    intro f hf
    have hf' := hperm.mem_iff.1 hf
    exact ⟨(hv.2.2.2 f hf').2.2, (hfresh.1 f hf').1⟩
  obtain ⟨s1, s2, _, s4, _, s6, s7⟩ :=
    allocate_spec (qsort data.fields) data.totalWater (le_of_lt hv.1) hz
  refine ⟨⟨s6, s7⟩, ?_⟩
  have hbt := chosen_identity _ _ s1
  have hrp : ((main qsort data).fields).Perm (allocate (qsort data.fields) data.totalWater).1 :=
    restoreOrder_perm _
  have hid : (main qsort data).fields.map Field.identity = data.fields.map Field.identity := by
    apply restoreOrder_identity _ _ _ hfresh.2
    rw [hbt]
    exact hperm.map Field.identity
  constructor
  · apply feasible_of_identity _ _ _ hid
    · intro g hg
      exact chosen_mem _ _ s1 hz g (hrp.mem_iff.1 hg)
    · rw [(hrp.map Field.allocated).sum_eq, s2]
      exact s4
  · intro a ha
    obtain ⟨a', ha', hval⟩ := feasible_perm data.totalWater data.fields (qsort data.fields)
      hperm a ha
    rw [← hval]
    refine le_trans (s7 a' ha') (le_of_eq ?_)
    rw [totalValue_of_identity _ _ hbt, totalValue_of_identity _ _ hid]
    exact ((hrp.map _).sum_eq).symm

end Dp

/-! ## Further lemmas on sorting and on the dynamic-programming run -/

/-- Sorting the reversed array with `insertionSort` meets the contract of `qsort` too. -/
theorem unstableSort_isQsort {α : Type} (cmp : α → α → Int)
    (htot : ∀ a b, cmp a b ≤ 0 ∨ cmp b a ≤ 0) : IsQsort cmp (unstableSort cmp) := by
  intro l
  obtain ⟨hp, hc⟩ := insertionSort_isQsort cmp htot l.reverse
  exact ⟨hp.trans (List.reverse_perm l), hc⟩

namespace Dp

/-- The water left in `current_w` after backtracking is the start value minus the amounts
written. -/
theorem backtrackWater_eq (fields : List Field) (p : Nat → Nat → Int)
    (hz : ∀ f ∈ fields, f.allocated = 0) :
    ∀ (i : Nat) (cur : Int),
      backtrackWater fields p i cur
        = cur - ((backtrack fields p i cur).map Field.allocated).sum := by
  intro i
  induction i with
  | zero => intro cur; simp [backtrackWater, backtrack]
  | succ i ih =>
    intro cur
    unfold backtrackWater backtrack
    cases h : fields[i]? with
    | none => simp only; exact ih cur
    | some f =>
      have hf : f.allocated = 0 := hz f (List.getElem?_mem h)
      simp only
      split_ifs
      · rw [ih]
        simp only [List.map_append, List.sum_append, List.map_cons, List.map_nil,
          List.sum_cons, List.sum_nil]
        omega
      · rw [ih]
        simp only [List.map_append, List.sum_append, List.map_cons, List.map_nil,
          List.sum_cons, List.sum_nil, hf]
        omega

/-- Cell `0` of the last row always holds a value: giving nothing to anybody uses no water. -/
theorem table_zero_ne_bot (fields : List Field) (hz : ∀ f ∈ fields, 0 ≤ f.waterNeeded) :
    (table fields fields.length 0).1 ≠ ⊥ := by
  have hc := table_complete (fields.map (fun f => (f, (0 : Int)))) (by
    intro p hp
    obtain ⟨f, hf, rfl⟩ := List.mem_map.1 hp
    exact ⟨hz f hf, Or.inl rfl⟩)
  have hfst : (fields.map (fun f => (f, (0 : Int)))).map Prod.fst = fields := by
    simp [List.map_map, Function.comp_def]
  have hsnd : ((fields.map (fun f => (f, (0 : Int)))).map Prod.snd).sum = 0 := by
    apply List.sum_eq_zero
    intro x hx
    simp only [List.map_map, List.mem_map, Function.comp_apply] at hx
    obtain ⟨_, _, rfl⟩ := hx
    rfl
  rw [hfst, hsnd, List.length_map] at hc
  intro hb
  have := hc.2
  rw [Int.toNat_zero, hb] at this
  simp at this

/-- A feasible allocation uses an amount of water that is not negative and is worth at most
the cell of the last row at that amount. -/
theorem value_le_row (totalWater : Int) (fields : List Field) (a : List Int)
    (hz : ∀ f ∈ fields, 0 ≤ f.waterNeeded) (ha : Feasible totalWater fields a) :
    0 ≤ a.sum ∧
    ((totalValue fields a : ℚ) : Cell) ≤ (table fields fields.length a.sum.toNat).1 := by
  obtain ⟨hl, hadm, _⟩ := ha
  have hfst : (fields.zip a).map Prod.fst = fields := by
    rw [← List.unzip_fst, List.unzip_zip hl.symm]
  have hsnd : (fields.zip a).map Prod.snd = a := by
    rw [← List.unzip_snd, List.unzip_zip hl.symm]
  have hc := table_complete (fields.zip a) (by
    intro p hp
    have hneed : 0 ≤ p.1.waterNeeded := hz p.1 (List.of_mem_zip hp).1
    refine ⟨hneed, ?_⟩
    rw [minWater_eq_ceil _ hneed]
    exact hadm p hp)
  rw [hfst, hsnd] at hc
  have hlenz : (fields.zip a).length = fields.length := by
    rw [List.length_zip, hl, Nat.min_self]
  rw [hlenz] at hc
  rw [totalValue_eq]
  exact hc

/-- The total value of the allocation that `allocate` returns is `best_value`. -/
theorem allocate_value (fields : List Field) (totalWater : Int) (hW : 0 ≤ totalWater)
    (hz : ∀ f ∈ fields, 0 ≤ f.waterNeeded ∧ f.allocated = 0) :
    ((totalValue fields ((allocate fields totalWater).1.map Field.allocated) : ℚ) : Cell)
      = (best fields totalWater).2 := by
  obtain ⟨_, b2, b3, _, _⟩ := findBest_spec (fun w => (table fields fields.length w).1)
    totalWater hW (table_zero_ne_bot fields (fun f hf => (hz f hf).1))
  have hcell : (table fields fields.length
      (findBest (fun w => (table fields fields.length w).1) totalWater).1).1 ≠ ⊥ := by
    intro hb; exact b3 (b2.trans hb)
  obtain ⟨s1, _, s3⟩ := backtrack_sound fields hz _ hcell
  rw [totalValue_eq]
  simp only [allocate, best]
  rw [chosen_value fields _ s1, s3, b2]

/-- After backtracking every record is untouched, or it is scheduled with an amount of at
least one unit between `ceil(waterNeeded / 10)` and `waterNeeded`. -/
theorem chosen_scheduled (fields out : List Field) (h : List.Forall₂ Chosen fields out)
    (hz : ∀ f ∈ fields, 0 ≤ f.waterNeeded ∧ f.allocated = 0 ∧ f.scheduled = 0) :
    ∀ g ∈ out, (g.allocated = 0 ∧ g.scheduled = 0) ∨
      (g.scheduled = 1 ∧ ⌈(g.waterNeeded : ℚ) / 10⌉ ≤ g.allocated ∧
        g.allocated ≤ g.waterNeeded ∧ 1 ≤ g.allocated) := by
  induction h with
  | nil => intro g hg; simp at hg
  | @cons f g l1 l2 hfg _ ih =>
    intro g' hg'
    rcases List.mem_cons.1 hg' with rfl | hg'
    · obtain ⟨_, _, hn, _, hc⟩ := hfg
      have hf := hz f (List.mem_cons_self _ _)
      rcases hc with rfl | ⟨h1, h2, h3, h4⟩
      · exact Or.inl ⟨hf.2.1, hf.2.2⟩
      · right
        rw [hn, ← minWater_eq_ceil _ hf.1]
        exact ⟨h4, h1, h2, by omega⟩
    · exact ih (fun f hf => hz f (List.mem_cons_of_mem _ hf)) g' hg'

/-- Feasible allocations carry over along a rearrangement of the fields with their value and
their total amount. -/
theorem feasible_perm_sum (totalWater : Int) (fields sorted : List Field)
    (hp : sorted.Perm fields) (a : List Int) (ha : Feasible totalWater fields a) :
    ∃ a', Feasible totalWater sorted a' ∧ totalValue sorted a' = totalValue fields a ∧
      a'.sum = a.sum := by
  obtain ⟨h1, h2, h3⟩ := (feasible_iff_pairs _ _ _).1 ha
  have hfst : (fields.zip a).map Prod.fst = fields := by
    rw [← List.unzip_fst, List.unzip_zip h1.symm]
  have hsnd : (fields.zip a).map Prod.snd = a := by
    rw [← List.unzip_snd, List.unzip_zip h1.symm]
  obtain ⟨m, hm, hpm⟩ := perm_lift Prod.fst sorted (fields.zip a) (by rw [hfst]; exact hp)
  have hlen : (m.map Prod.snd).length = sorted.length := by
    rw [← hm]; simp
  have hzip : sorted.zip (m.map Prod.snd) = m := by
    rw [← hm]
    exact (List.zip_of_prod rfl rfl).symm
  refine ⟨m.map Prod.snd, (feasible_iff_pairs _ _ _).2 ⟨hlen, ?_, ?_⟩, ?_, ?_⟩
  · rw [hzip]
    intro p hp'
    exact h2 p (hpm.mem_iff.1 hp')
  · rw [hzip, (hpm.map Prod.snd).sum_eq]
    exact h3
  · unfold totalValue
    rw [hzip]
    exact (hpm.map _).sum_eq
  · rw [(hpm.map Prod.snd).sum_eq, hsnd]

end Dp

/-! ## Lemmas on `parseInput` -/

/-- What the `while` loop of `parseInput` keeps true of the records stored so far, and so of
the records stored when it ends without `return 0`. -/
theorem parseLoop_spec (fieldCount : Int) (objects : List RawObject) :
    ∀ (stored out : List Field),
      (∀ f ∈ stored, (0 ≤ f.moisture ∧ f.moisture ≤ 100 ∧ 0 ≤ f.waterNeeded) ∧
        f.allocated = 0 ∧ f.scheduled = 0) →
      (∀ (k : Nat) (hk : k < stored.length), (stored[k]).originalIndex = (k : Int)) →
      (stored.length : Int) ≤ fieldCount →
      parseLoop fieldCount objects stored = some out →
      (∀ f ∈ out, (0 ≤ f.moisture ∧ f.moisture ≤ 100 ∧ 0 ≤ f.waterNeeded) ∧
        f.allocated = 0 ∧ f.scheduled = 0) ∧
      (∀ (k : Nat) (hk : k < out.length), (out[k]).originalIndex = (k : Int)) ∧
      (out.length : Int) ≤ fieldCount := by
  induction objects with
  | nil =>
    intro stored out h1 h2 h3 he
    simp only [parseLoop, Option.some.injEq] at he
    subst he
    exact ⟨h1, h2, h3⟩
  | cons o rest ih =>
    intro stored out h1 h2 h3 he
    unfold parseLoop at he
    by_cases hlt : (stored.length : Int) < fieldCount
    swap
    · rw [if_neg hlt] at he
      simp only [Option.some.injEq] at he
      subst he
      exact ⟨h1, h2, h3⟩
    rw [if_pos hlt] at he
    by_cases hfit : o.fieldLen < 1024
    swap
    · rw [if_neg hfit] at he
      exact ih stored out h1 h2 h3 he
    rw [if_pos hfit] at he
    cases hname : o.name with
    | none =>
      rw [hname] at he
      exact ih stored out h1 h2 h3 he
    | some nameBuffer =>
      rw [hname] at he
      simp only at he
      by_cases hm : o.moisture < 0 ∨ o.moisture > 100
      · rw [if_pos hm] at he
        exact absurd he (by simp)
      rw [if_neg hm] at he
      by_cases hn : o.waterNeeded < 0
      · rw [if_pos hn] at he
        exact absurd he (by simp)
      rw [if_neg hn] at he
      refine ih _ out ?_ ?_ ?_ he
      · intro f hf
        rcases List.mem_append.1 hf with hf | hf
        · exact h1 f hf
        · rw [List.mem_singleton] at hf
          subst hf
          exact ⟨⟨by simp only; omega, by simp only; omega, by simp only; omega⟩, rfl, rfl⟩
      · intro k hk
        rw [List.length_append, List.length_singleton] at hk
        by_cases hks : k < stored.length
        · rw [List.getElem_append_left hks]
          exact h2 k hks
        · have hke : k = stored.length := by omega
          subst hke
          rw [List.getElem_concat_length _ _ _ rfl]
      · rw [List.length_append, List.length_singleton]
        push_cast
        omega

/-- A successful `parseInput` returns a validated record with cleared `allocated` and
`scheduled` and `originalIndex` equal to the position, and keeps `totalWater`. -/
theorem parseInput_some (raw : RawInput) (data : IrrigationData)
    (h : parseInput raw = some data) :
    Validated data ∧ FreshlyParsed data.fields ∧ data.totalWater = raw.totalWater ∧
    (data.fields.length : Int) ≤ raw.fieldCount ∧
    data.totalWaterUsed = 0 ∧ data.remainingWater = 0 := by
  unfold parseInput at h
  by_cases hw : raw.totalWater ≤ 0
  · rw [if_pos hw] at h; exact absurd h (by simp)
  rw [if_neg hw] at h
  by_cases hc : raw.fieldCount ≤ 0 ∨ raw.fieldCount > (MAX_FIELDS : Int)
  · rw [if_pos hc] at h; exact absurd h (by simp)
  rw [if_neg hc] at h
  by_cases hf : raw.fieldsFound = false
  · rw [if_pos hf] at h; exact absurd h (by simp)
  rw [if_neg hf] at h
  cases hl : parseLoop raw.fieldCount raw.objects [] with
  | none => rw [hl] at h; exact absurd h (by simp)
  | some stored =>
    rw [hl] at h
    simp only at h
    by_cases hpos : stored.length > 0
    swap
    · rw [if_neg hpos] at h; exact absurd h (by simp)
    rw [if_pos hpos, Option.some.injEq] at h
    subst h
    obtain ⟨a, b, c⟩ := parseLoop_spec raw.fieldCount raw.objects [] stored
      (by intro f hf; simp at hf) (by intro k hk; simp at hk)
      (by simp only [List.length_nil, Nat.cast_zero]; omega) hl
    have hmax : (MAX_FIELDS : Int) = 10 := rfl
    refine ⟨⟨by simp only; omega, by simp only; omega, ?_, fun f hf => (a f hf).1⟩,
      ⟨fun f hf => (a f hf).2, b⟩, rfl, c, rfl, rfl⟩
    simp only
    have : (stored.length : Int) ≤ (MAX_FIELDS : Int) := by omega
    exact_mod_cast this

/-! ## Lemmas on the partial rule and on the clamp by time -/

namespace BruteForce

/-- The first position `k` whose need exceeds the water `R` left there, reached with
`R > 0`: the field receives `R` when `R` is at least a tenth of its need (rounded down), and
nothing otherwise; the loop ends there. -/
theorem allocLoop_first_unserved (fs : List Field) :
    ∀ (used rem : Int) (k : Nat) (hk : k < fs.length),
      (∀ (j : Nat) (hj : j < k),
        (fs[j]).waterNeeded ≤ rem - ((fs.take j).map Field.waterNeeded).sum) →
      rem - ((fs.take k).map Field.waterNeeded).sum < (fs[k]).waterNeeded →
      0 < rem - ((fs.take k).map Field.waterNeeded).sum →
      ((fs[k]).waterNeeded.tdiv 10 ≤ rem - ((fs.take k).map Field.waterNeeded).sum →
        (allocLoop fs used rem).1[k]?
          = some { fs[k] with
                   allocated := rem - ((fs.take k).map Field.waterNeeded).sum
                   scheduled := 1 } ∧
        (allocLoop fs used rem).2.2 = 0 ∧ (allocLoop fs used rem).2.1 = used + rem) ∧
      (rem - ((fs.take k).map Field.waterNeeded).sum < (fs[k]).waterNeeded.tdiv 10 →
        (allocLoop fs used rem).1[k]? = some fs[k] ∧
        (allocLoop fs used rem).2.2 = rem - ((fs.take k).map Field.waterNeeded).sum ∧
        (allocLoop fs used rem).2.1
          = used + ((fs.take k).map Field.waterNeeded).sum) := by
  induction fs with
  | nil => intro used rem k hk; simp at hk
  | cons f rest ih =>
    intro used rem k hk hbefore hlt hpos
    cases k with
    | zero =>
      simp only [List.take_zero, List.map_nil, List.sum_nil, sub_zero,
        List.getElem_cons_zero] at hlt hpos ⊢
      constructor
      · intro hmin
        rw [allocLoop_partial_case f rest used rem hlt hpos hmin]
        simp
      · intro hmin
        rw [allocLoop_stop f rest used rem hlt (Or.inr hmin)]
        simp
    | succ k =>
      have h0 : f.waterNeeded ≤ rem := by
        have := hbefore 0 (Nat.succ_pos k)
        simpa using this
      have hk' : k < rest.length := by simpa using hk
      simp only [List.take_succ_cons, List.map_cons, List.sum_cons,
        List.getElem_cons_succ] at hlt hpos ⊢
      have hb' : ∀ (j : Nat) (hj : j < k),
          (rest[j]).waterNeeded
            ≤ (rem - f.waterNeeded) - ((rest.take j).map Field.waterNeeded).sum := by
        intro j hj
        have := hbefore (j + 1) (Nat.succ_lt_succ hj)
        simp only [List.take_succ_cons, List.map_cons, List.sum_cons,
          List.getElem_cons_succ] at this
        omega
      obtain ⟨a, b⟩ := ih (used + f.waterNeeded) (rem - f.waterNeeded) k hk' hb'
        (by omega) (by omega)
      rw [allocLoop_full f rest used rem h0]
      simp only [List.getElem?_cons_succ]
      constructor
      · intro hmin
        obtain ⟨a1, a2, a3⟩ := a (by omega)
        refine ⟨?_, a2, by omega⟩
        have hsub : rem - f.waterNeeded - ((rest.take k).map Field.waterNeeded).sum
            = rem - (f.waterNeeded + ((rest.take k).map Field.waterNeeded).sum) := by omega
        rw [a1, hsub]
      · intro hmin
        obtain ⟨b1, b2, b3⟩ := b (by omega)
        exact ⟨b1, by omega, by omega⟩

end BruteForce

theorem resetFields_need_sum (fs : List Field) (k : Nat) :
    (((resetFields fs).take k).map Field.waterNeeded).sum
      = ((fs.take k).map Field.waterNeeded).sum := by
  unfold resetFields
  rw [← List.map_take, List.map_map]
  rfl

namespace Dp

/-- The value of the array that `main` hands to `generateOutput`, taken against the input
fields, is the value of the sorted array after backtracking, taken against the sorted
fields. -/
theorem main_value_eq (qsort : List Field → List Field) (hq : IsQsort compareFields qsort)
    (data : IrrigationData) (hv : Validated data) (hfresh : FreshlyParsed data.fields) :
    totalValue data.fields ((main qsort data).fields.map Field.allocated)
      = totalValue (qsort data.fields)
          ((allocate (qsort data.fields) data.totalWater).1.map Field.allocated) := by
  have hperm := (hq data.fields).1
  have hz : ∀ f ∈ qsort data.fields, 0 ≤ f.waterNeeded ∧ f.allocated = 0 := by
    intro f hf
    have hf' := hperm.mem_iff.1 hf
    exact ⟨(hv.2.2.2 f hf').2.2, (hfresh.1 f hf').1⟩
  obtain ⟨s1, _⟩ := allocate_spec (qsort data.fields) data.totalWater (le_of_lt hv.1) hz
  have hbt := chosen_identity _ _ s1
  have hrp : ((main qsort data).fields).Perm (allocate (qsort data.fields) data.totalWater).1 :=
    restoreOrder_perm _
  have hid : (main qsort data).fields.map Field.identity = data.fields.map Field.identity := by
    apply restoreOrder_identity _ _ _ hfresh.2
    rw [hbt]
    exact hperm.map Field.identity
  rw [totalValue_of_identity _ _ hbt, totalValue_of_identity _ _ hid]
  exact (hrp.map _).sum_eq

end Dp

namespace Dp

/-- The DP program on the single field `D` (moisture 0, need 10) with any budget of at least
10: the field receives its full need. -/
theorem main_single_field (totalWater : Int) (hW : 10 ≤ totalWater) :
    (main (insertionSort compareFields) ⟨fieldsD, totalWater, 0, 0⟩).fields.map
        Field.allocated = [10] ∧
    (main (insertionSort compareFields) ⟨fieldsD, totalWater, 0, 0⟩).totalWaterUsed = 10 ∧
    (main (insertionSort compareFields) ⟨fieldsD, totalWater, 0, 0⟩).remainingWater
      = totalWater - 10 := by
  have hv : Validated ⟨fieldsD, totalWater, 0, 0⟩ :=
    ⟨by simp only; omega, by show 1 ≤ fieldsD.length; decide,
      by show fieldsD.length ≤ MAX_FIELDS; decide,
      by show ∀ f ∈ fieldsD, 0 ≤ f.moisture ∧ f.moisture ≤ 100 ∧ 0 ≤ f.waterNeeded; decide⟩
  have hfresh : FreshlyParsed fieldsD := ⟨by decide, by decide⟩
  have hq := insertionSort_isQsort compareFields compareFields_total
  obtain ⟨_, hfeas, hopt⟩ := main_spec (insertionSort compareFields) hq
    ⟨fieldsD, totalWater, 0, 0⟩ hv hfresh
  have hsorted : insertionSort compareFields fieldsD = fieldsD := by decide
  have hz : ∀ f ∈ fieldsD, 0 ≤ f.waterNeeded ∧ f.allocated = 0 := by decide
  obtain ⟨_, s2, _, _, s5, _, _⟩ := allocate_spec fieldsD totalWater (by omega) hz
  have hrp : ((main (insertionSort compareFields) ⟨fieldsD, totalWater, 0, 0⟩).fields).Perm
      (allocate fieldsD totalWater).1 := by
    have := restoreOrder_perm (allocate (insertionSort compareFields fieldsD) totalWater).1
    rw [hsorted] at this
    simpa only [main, hsorted] using this
  have hused : (main (insertionSort compareFields) ⟨fieldsD, totalWater, 0, 0⟩).totalWaterUsed
      = (allocate fieldsD totalWater).2.1 := by
    simp only [main, hsorted]
  have hrem : (main (insertionSort compareFields) ⟨fieldsD, totalWater, 0, 0⟩).remainingWater
      = (allocate fieldsD totalWater).2.2 := by
    simp only [main, hsorted]
  have hsum := (hrp.map Field.allocated).sum_eq
  rw [s2] at hsum
  obtain ⟨x, hx⟩ : ∃ x, (main (insertionSort compareFields)
      ⟨fieldsD, totalWater, 0, 0⟩).fields.map Field.allocated = [x] :=
    List.length_eq_one.1 hfeas.1
  rw [hx] at hfeas hopt hsum
  have hadm := hfeas.2.1 (⟨"D", 0, 10, 0, 0, 0⟩, x) (by simp [fieldsD])
  have hten : Feasible totalWater fieldsD [10] := by
    refine ⟨rfl, ?_, by simpa using hW⟩
    intro p hp
    have hp' : p = (⟨"D", 0, 10, 0, 0, 0⟩, 10) := by simpa [fieldsD] using hp
    subst hp'
    right
    constructor
    · rw [← minWater_eq_ceil _ (by decide)]
      decide
    · decide
  have hle := hopt [10] hten
  have hval : ∀ y : Int, totalValue fieldsD [y] = 10 * (y : ℚ) := by
    intro y
    simp only [totalValue, fieldsD, List.zip_cons_cons, List.zip_nil_right, List.map_cons,
      List.map_nil, List.sum_cons, List.sum_nil]
    push_cast
    ring
  rw [hval, hval] at hle
  have hx10 : (10 : Int) ≤ x := by
    have : ((10 : Int) : ℚ) ≤ (x : ℚ) := by
      push_cast at hle ⊢
      linarith
    exact_mod_cast this
  have hxe : x = 10 := by
    rcases hadm with h0 | ⟨_, h2⟩
    · simp only at h0; omega
    · simp only at h2; omega
  subst hxe
  simp only [List.sum_cons, List.sum_nil, add_zero] at hsum
  refine ⟨hx, by rw [hused, ← hsum], by rw [hrem, s5, ← hsum]⟩

end Dp

/-! ## Lemmas that compare runs of the greedy loops -/

namespace BruteForce

/-- The array that `main` hands to `generateOutput` holds the input fields, position by
position. -/
theorem main_identity (qsort : List Field → List Field) (hq : IsQsort compareFields qsort)
    (data : IrrigationData) (hfresh : FreshlyParsed data.fields) :
    (main qsort data).fields.map Field.identity = data.fields.map Field.identity := by
  apply restoreOrder_identity _ _ _ hfresh.2
  rw [allocLoop_identity, resetFields_identity]
  exact (hq _).1.map Field.identity

/-- On cleared arrays with the same moisture and need at every position the loop leaves the
same amounts and the same totals. -/
theorem allocLoop_same_keys (fsA : List Field) :
    ∀ (fsB : List Field) (used rem : Int),
      (∀ f ∈ fsA, f.allocated = 0 ∧ f.scheduled = 0) →
      (∀ f ∈ fsB, f.allocated = 0 ∧ f.scheduled = 0) →
      fsA.map (fun f => (f.moisture, f.waterNeeded))
        = fsB.map (fun f => (f.moisture, f.waterNeeded)) →
      (allocLoop fsA used rem).1.map (fun f => (f.moisture, f.waterNeeded, f.allocated))
        = (allocLoop fsB used rem).1.map
            (fun f => (f.moisture, f.waterNeeded, f.allocated)) ∧
      (allocLoop fsA used rem).2 = (allocLoop fsB used rem).2 := by
  induction fsA with
  | nil =>
    intro fsB used rem _ _ h
    have : fsB = [] := by simpa using h.symm
    subst this
    exact ⟨rfl, rfl⟩
  | cons a restA ih =>
    intro fsB used rem hA hB h
    cases fsB with
    | nil => simp at h
    | cons b restB =>
      simp only [List.map_cons, List.cons.injEq, Prod.mk.injEq] at h
      obtain ⟨⟨hm, hn⟩, hrest⟩ := h
      have hA' : ∀ f ∈ restA, f.allocated = 0 ∧ f.scheduled = 0 :=
        fun f hf => hA f (List.mem_cons_of_mem _ hf)
      have hB' : ∀ f ∈ restB, f.allocated = 0 ∧ f.scheduled = 0 :=
        fun f hf => hB f (List.mem_cons_of_mem _ hf)
      have ha0 := (hA a (List.mem_cons_self _ _)).1
      have hb0 := (hB b (List.mem_cons_self _ _)).1
      have hrest3 : restA.map (fun f => (f.moisture, f.waterNeeded, f.allocated))
          = restB.map (fun f => (f.moisture, f.waterNeeded, f.allocated)) := by
        have e : ∀ (l : List Field), (∀ f ∈ l, f.allocated = 0 ∧ f.scheduled = 0) →
            l.map (fun f => (f.moisture, f.waterNeeded, f.allocated))
              = (l.map (fun f => (f.moisture, f.waterNeeded))).map
                  (fun p => (p.1, p.2, (0 : Int))) := by
          intro l hl
          rw [List.map_map]
          apply List.map_congr_left
          intro f hf
          simp only [Function.comp_apply, (hl f hf).1]
        rw [e restA hA', e restB hB', hrest]
      rcases allocLoop_cases a restA used rem with ⟨h1, e⟩ | ⟨h1, h2, h3, e⟩ | ⟨h1, h2, e⟩
      · rw [e, allocLoop_full b restB used rem (by omega)]
        obtain ⟨i1, i2⟩ := ih restB (used + a.waterNeeded) (rem - a.waterNeeded) hA' hB' hrest
        rw [← hn]
        exact ⟨by simp only [List.map_cons, i1, hm], i2⟩
      · rw [e, allocLoop_partial_case b restB used rem (by omega) h2 (by rw [← hn]; exact h3)]
        exact ⟨by simp only [List.map_cons, hrest3, hm, hn], rfl⟩
      · rw [e, allocLoop_stop b restB used rem (by omega) (by rw [← hn]; exact h2)]
        exact ⟨by simp only [List.map_cons, hrest3, hm, hn, ha0, hb0], rfl⟩

end BruteForce

/-- The loop of `brute_force_scheduler.c` and the unconstrained branch of the loop of
`greedy_scheduler.c` leave the same amounts, the same marks and the same totals on cleared
arrays with the same need at every position. -/
theorem allocLoops_agree (rate : Int) (fsB : List Field) :
    ∀ (fsG : List Greedy.Field) (t : Greedy.Totals),
      (∀ f ∈ fsB, f.allocated = 0 ∧ f.scheduled = 0) →
      (∀ f ∈ fsG, f.allocated = 0 ∧ f.scheduled = 0) →
      fsB.map Field.waterNeeded = fsG.map Greedy.Field.waterNeeded →
      (BruteForce.allocLoop fsB t.totalWaterUsed t.remainingWater).1.map
          (fun f => (f.allocated, f.scheduled))
        = (Greedy.allocLoop 0 rate fsG t).1.map (fun f => (f.allocated, f.scheduled)) ∧
      (BruteForce.allocLoop fsB t.totalWaterUsed t.remainingWater).2.1
        = (Greedy.allocLoop 0 rate fsG t).2.totalWaterUsed ∧
      (BruteForce.allocLoop fsB t.totalWaterUsed t.remainingWater).2.2
        = (Greedy.allocLoop 0 rate fsG t).2.remainingWater := by
  induction fsB with
  | nil =>
    intro fsG t _ _ h
    have : fsG = [] := by simpa using h.symm
    subst this
    simp [BruteForce.allocLoop, Greedy.allocLoop]
  | cons b restB ih =>
    intro fsG t hB hG h
    cases fsG with
    | nil => simp at h
    | cons g restG =>
      simp only [List.map_cons, List.cons.injEq] at h
      obtain ⟨hn, hrest⟩ := h
      have hB' : ∀ f ∈ restB, f.allocated = 0 ∧ f.scheduled = 0 :=
        fun f hf => hB f (List.mem_cons_of_mem _ hf)
      have hG' : ∀ f ∈ restG, f.allocated = 0 ∧ f.scheduled = 0 :=
        fun f hf => hG f (List.mem_cons_of_mem _ hf)
      have hb0 := hB b (List.mem_cons_self _ _)
      have hg0 := hG g (List.mem_cons_self _ _)
      have hrest2 : restB.map (fun f => (f.allocated, f.scheduled))
          = restG.map (fun f => (f.allocated, f.scheduled)) := by
        have eB : restB.map (fun f => (f.allocated, f.scheduled))
            = List.replicate restB.length ((0 : Int), (0 : Int)) := by
          rw [List.eq_replicate_iff]
          refine ⟨by simp, ?_⟩
          intro p hp
          obtain ⟨f, hf, rfl⟩ := List.mem_map.1 hp
          rw [(hB' f hf).1, (hB' f hf).2]
        have eG : restG.map (fun f => (f.allocated, f.scheduled))
            = List.replicate restG.length ((0 : Int), (0 : Int)) := by
          rw [List.eq_replicate_iff]
          refine ⟨by simp, ?_⟩
          intro p hp
          obtain ⟨f, hf, rfl⟩ := List.mem_map.1 hp
          rw [(hG' f hf).1, (hG' f hf).2]
        have hlen : restB.length = restG.length := by
          have := congrArg List.length hrest
          simpa using this
        rw [eB, eG, hlen]
      rcases Greedy.allocLoop_untimed_cases rate g restG t with
        ⟨h1, e⟩ | ⟨h1, h2, h3, e⟩ | ⟨h1, h2, e⟩
      · rw [e, BruteForce.allocLoop_full b restB _ _ (by omega)]
        obtain ⟨i1, i2, i3⟩ := ih restG
          { t with remainingWater := t.remainingWater - g.waterNeeded
                   totalWaterUsed := t.totalWaterUsed + g.waterNeeded } hB' hG' hrest
        simp only at i1 i2 i3
        rw [hn]
        exact ⟨by simp only [List.map_cons, i1, hn], i2, i3⟩
      · rw [e, BruteForce.allocLoop_partial_case b restB _ _ (by omega) h2
          (by rw [hn]; exact h3)]
        exact ⟨by simp only [List.map_cons, hrest2], rfl, rfl⟩
      · rw [e, BruteForce.allocLoop_stop b restB _ _ (by omega) (by rw [hn]; exact h2)]
        exact ⟨by simp only [List.map_cons, hrest2, hb0.1, hb0.2, hg0.1, hg0.2], rfl, rfl⟩

/-- Two arrays that `qsort` may return for inputs with the same moisture and need values, in
any order, hold the same moisture and need at every position. -/
theorem sorted_keys_unique (s1 s2 : List Field)
    (hp : (s2.map (fun f => (f.moisture, f.waterNeeded))).Perm
      (s1.map (fun f => (f.moisture, f.waterNeeded))))
    (h1 : s1.Chain' (fun a b => compareFields a b ≤ 0))
    (h2 : s2.Chain' (fun a b => compareFields a b ≤ 0)) :
    s2.map (fun f => (f.moisture, f.waterNeeded))
      = s1.map (fun f => (f.moisture, f.waterNeeded)) := by
  have key : ∀ s : List Field, s.Chain' (fun a b => compareFields a b ≤ 0) →
      (s.map (fun f => (f.moisture, f.waterNeeded))).Pairwise
        (fun x y : Int × Int => x.1 < y.1 ∨ (x.1 = y.1 ∧ y.2 ≤ x.2)) := by
    intro s hs
    have hc : s.Chain' (fun a b =>
        a.moisture < b.moisture ∨ (a.moisture = b.moisture ∧ b.waterNeeded ≤ a.waterNeeded)) :=
      hs.imp (fun a b hab => (compareFields_le_iff a b).1 hab)
    haveI : IsTrans Field (fun a b =>
        a.moisture < b.moisture ∨ (a.moisture = b.moisture ∧ b.waterNeeded ≤ a.waterNeeded)) :=
      ⟨fun a b c h1 h2 => by omega⟩
    rw [List.pairwise_map]
    exact List.chain'_iff_pairwise.1 hc
  haveI : IsAntisymm (Int × Int) (fun x y => x.1 < y.1 ∨ (x.1 = y.1 ∧ y.2 ≤ x.2)) :=
    ⟨fun a b h1 h2 => by
      apply Prod.ext <;> omega⟩
  exact List.eq_of_perm_of_sorted hp (key s2 h2) (key s1 h1)

/-! ## Lemmas on machine integers and the machine version of `scheduleIrrigation` -/

theorem wrapInt_of_range (x : Int) (h1 : INT_MIN ≤ x) (h2 : x ≤ INT_MAX) : wrapInt x = x := by
  unfold INT_MIN at h1
  unfold INT_MAX at h2
  unfold wrapInt
  omega

/-- The two steps of `a + b - 1` give what one step gives. -/
theorem wrapInt_add_sub_one (a b : Int) :
    wrapInt (wrapInt (a + b) - 1) = wrapInt (a + b - 1) := by
  unfold wrapInt
  omega

namespace Greedy

namespace Machine

theorem machine_timeStep_skip (rate : Int) (f : Field) (t : Totals) (h : ¬ Admitted rate f t) :
    timeStep rate f t = (f, t) := by
  unfold Admitted at h
  simp only [timeStep, h, if_false]

theorem machine_timeStep_scheduled (rate : Int) (f : Field) (t : Totals)
    (h : Admitted rate f t) : (timeStep rate f t).1.scheduled = 1 := by
  unfold Admitted at h
  simp only [timeStep, h, and_self, if_true]

theorem machine_timeStep_scheduled_iff (rate : Int) (f : Field) (t : Totals)
    (hs : f.scheduled = 0) : (timeStep rate f t).1.scheduled = 1 ↔ Admitted rate f t := by
  by_cases h : Admitted rate f t
  · exact ⟨fun _ => h, fun _ => machine_timeStep_scheduled rate f t h⟩
  · rw [machine_timeStep_skip rate f t h]
    simp only [hs]
    constructor
    · intro h0; omega
    · intro h1; exact absurd h1 h

/-- When `floor(waterNeeded / 10) + rate - 1` is an `int`, the machine's admission test is the
test of the design. -/
theorem machine_admitted_iff (rate : Int) (f : Field) (t : Totals) (hr : 0 < rate)
    (hneed : 0 ≤ f.waterNeeded) (hrange : f.waterNeeded.tdiv 10 + rate - 1 ≤ INT_MAX) :
    Admitted rate f t ↔
      (⌊(f.waterNeeded : ℚ) / 10⌋ ≤ t.remainingWater ∧
        ⌈((⌊(f.waterNeeded : ℚ) / 10⌋ : Int) : ℚ) / (rate : ℚ)⌉ ≤ t.remainingElectricity) := by
  unfold Admitted
  have hmin : 0 ≤ f.waterNeeded.tdiv 10 := Int.tdiv_nonneg hneed (by omega)
  rw [wrapInt_add_sub_one, wrapInt_of_range _ (by unfold INT_MIN; omega) hrange,
    tdiv_ceil _ _ hmin hr, tdiv_floor _ hneed]

theorem machine_allocLoop_cons (u rate : Int) (hu : u ≠ 0) (f : Field) (rest : List Field)
    (t : Totals) :
    allocLoop u rate (f :: rest) t =
      ((timeStep rate f t).1 :: (allocLoop u rate rest (timeStep rate f t).2).1,
        (allocLoop u rate rest (timeStep rate f t).2).2) := by
  simp [allocLoop, hu]

theorem machine_allocLoop_append (u rate : Int) (hu : u ≠ 0) (l₁ l₂ : List Field) :
    ∀ t : Totals, allocLoop u rate (l₁ ++ l₂) t =
      ((allocLoop u rate l₁ t).1 ++ (allocLoop u rate l₂ (allocLoop u rate l₁ t).2).1,
        (allocLoop u rate l₂ (allocLoop u rate l₁ t).2).2) := by
  induction l₁ with
  | nil => intro t; simp [allocLoop]
  | cons f rest ih =>
    intro t
    rw [List.cons_append, machine_allocLoop_cons u rate hu, ih,
      machine_allocLoop_cons u rate hu]
    rfl

theorem machine_allocLoop_length (u rate : Int) (hu : u ≠ 0) (fs : List Field) :
    ∀ t : Totals, (allocLoop u rate fs t).1.length = fs.length := by
  induction fs with
  | nil => intro t; simp [allocLoop]
  | cons f rest ih =>
    intro t
    rw [machine_allocLoop_cons u rate hu]
    simp [ih]

/-- Field `k` is handled by the loop body with the totals left by the fields before it. -/
theorem machine_allocLoop_getElem (u rate : Int) (hu : u ≠ 0) (fs : List Field) (t : Totals)
    (k : Nat) (hk : k < fs.length) :
    (allocLoop u rate fs t).1[k]? =
        some (timeStep rate fs[k] (allocLoop u rate (fs.take k) t).2).1 ∧
    (allocLoop u rate (fs.take (k + 1)) t).2 =
        (timeStep rate fs[k] (allocLoop u rate (fs.take k) t).2).2 := by
  have hsplit : fs = fs.take k ++ fs[k] :: fs.drop (k + 1) := by
    rw [← List.drop_eq_getElem_cons hk, List.take_append_drop]
  have hlen : (allocLoop u rate (fs.take k) t).1.length = k := by
    rw [machine_allocLoop_length u rate hu, List.length_take]; omega
  constructor
  · conv_lhs => rw [hsplit]
    rw [machine_allocLoop_append u rate hu, machine_allocLoop_cons u rate hu]
    simp only
    rw [List.getElem?_append_right (by omega), hlen]
    simp
  · have htake : fs.take (k + 1) = fs.take k ++ [fs[k]] := by
      rw [List.take_succ, List.getElem?_eq_getElem hk]; rfl
    rw [htake, machine_allocLoop_append u rate hu, machine_allocLoop_cons u rate hu]
    simp [allocLoop]

/-- With at least one field and a budget that is not negative, the machine version of
`scheduleIrrigation` returns the array that the loop leaves. -/
theorem machine_scheduleIrrigation_fields (qsort : List Field → List Field)
    (data : IrrigationData) (hn : data.fields ≠ []) (hW : 0 ≤ data.totalWater) :
    (scheduleIrrigation qsort data).fields =
        (allocLoop data.useTimeConstraints (loopRate data) (priorityFields qsort data)
          (startTotals data)).1 := by
  have hlen : ¬ (data.fields.length ≤ 0 ∨ data.totalWater < 0) := by
    intro h
    rcases h with h | h
    · exact hn (List.length_eq_zero.1 (Nat.le_zero.1 h))
    · omega
  unfold scheduleIrrigation priorityFields loopRate startTotals
  rw [if_neg hlen]
  by_cases hu : data.useTimeConstraints ≠ 0
  · rw [if_pos hu]
    rfl
  · rw [if_neg hu]

theorem machine_loopRate_timed (data : IrrigationData) (hu : data.useTimeConstraints ≠ 0)
    (hr : 0 < data.waterDeliveryRate) : loopRate data = data.waterDeliveryRate := by
  unfold loopRate
  rw [if_pos hu]
  simp only [calculateFieldTimes]
  rw [if_neg (by omega)]

/-- In time mode every record that reaches the loop has a need that is not negative, the
`timeNeeded` that `calculateFieldTimes` stored for it, and is cleared. -/
theorem machine_priorityFields_timed (qsort : List Field → List Field)
    (hq : IsQsort compareFields qsort) (data : IrrigationData)
    (hu : data.useTimeConstraints ≠ 0) (hr : 0 < data.waterDeliveryRate)
    (h : ∀ f ∈ data.fields, 0 ≤ f.waterNeeded ∧ f.waterNeeded ≤ INT_MAX) :
    ∀ f ∈ priorityFields qsort data,
      0 ≤ f.waterNeeded ∧ f.waterNeeded ≤ INT_MAX ∧
      f.timeNeeded
        = (if (wrapInt (wrapInt (f.waterNeeded + data.waterDeliveryRate) - 1)).tdiv
              data.waterDeliveryRate ≤ 0 then 1
           else (wrapInt (wrapInt (f.waterNeeded + data.waterDeliveryRate) - 1)).tdiv
              data.waterDeliveryRate) ∧
      f.allocated = 0 ∧ f.scheduled = 0 := by
  intro f hf
  unfold priorityFields at hf
  rw [if_pos hu] at hf
  obtain ⟨g, hg, rfl⟩ := List.mem_map.1 hf
  have hg' := (hq _).1.mem_iff.1 hg
  have hrate : (if data.waterDeliveryRate ≤ 0 then 50 else data.waterDeliveryRate)
      = data.waterDeliveryRate := if_neg (by omega)
  simp only [calculateFieldTimes, hrate] at hg'
  obtain ⟨g0, hg0, rfl⟩ := List.mem_map.1 hg'
  exact ⟨(h g0 hg0).1, (h g0 hg0).2, rfl, rfl, rfl⟩

/-- Every record that reaches the loop has the need of a record of the input, and
`allocated` and `scheduled` cleared. -/
theorem machine_priorityFields_mem (qsort : List Field → List Field)
    (hq : IsQsort compareFields qsort) (data : IrrigationData) :
    ∀ f ∈ priorityFields qsort data, ∃ g ∈ data.fields,
      f.waterNeeded = g.waterNeeded ∧ f.allocated = 0 ∧ f.scheduled = 0 := by
  intro f hf
  unfold priorityFields at hf
  obtain ⟨g, hg, rfl⟩ := List.mem_map.1 hf
  have hg' := (hq _).1.mem_iff.1 hg
  by_cases hu : data.useTimeConstraints ≠ 0
  · rw [if_pos hu] at hg'
    simp only [calculateFieldTimes] at hg'
    obtain ⟨g0, hg0, rfl⟩ := List.mem_map.1 hg'
    exact ⟨g0, hg0, rfl, rfl, rfl⟩
  · rw [if_neg hu] at hg'
    exact ⟨g, hg', rfl, rfl, rfl⟩

theorem machine_priorityFields_length (qsort : List Field → List Field)
    (hq : IsQsort compareFields qsort) (data : IrrigationData) :
    (priorityFields qsort data).length = data.fields.length := by
  unfold priorityFields
  rw [List.length_map, (hq _).1.length_eq]
  split_ifs
  · simp [calculateFieldTimes]
  · rfl

end Machine

end Greedy

namespace Greedy

namespace Machine

/-- A negative numerator above `-2 * r` gives a truncated quotient of `-1` or `0`. -/
theorem tdiv_ge_neg_one (a r : Int) (hr : 0 < r) (ha : -(2 * r) < a) : -1 ≤ a.tdiv r := by
  by_cases h0 : 0 ≤ a
  · have := Int.tdiv_nonneg h0 (le_of_lt hr)
    omega
  · have h1 : a.tdiv r = -((-a).tdiv r) := by
      rw [Int.neg_tdiv]; omega
    have h2 : (-a).tdiv r = (-a) / r := Int.tdiv_eq_ediv (by omega) (le_of_lt hr)
    have h3 : (-a) / r < 2 := Int.ediv_lt_of_lt_mul hr (by omega)
    omega

/-- A negative numerator gives a truncated quotient that is not positive. -/
theorem tdiv_nonpos_of_neg (a r : Int) (hr : 0 < r) (ha : a < 0) : a.tdiv r ≤ 0 := by
  have h1 : a.tdiv r = -((-a).tdiv r) := by
    rw [Int.neg_tdiv]; omega
  have h2 : 0 ≤ (-a).tdiv r := Int.tdiv_nonneg (by omega) (le_of_lt hr)
  omega

/-- The minimal time of the admission test, as the machine computes it, is at least `-1`. -/
theorem machine_minTime_ge (rate need : Int) (hr : 0 < rate) (hrmax : rate ≤ INT_MAX)
    (hneed : 0 ≤ need) (hnmax : need ≤ INT_MAX) :
    -1 ≤ (wrapInt (wrapInt (need.tdiv 10 + rate) - 1)).tdiv rate := by
  have hmw : need.tdiv 10 = need / 10 := Int.tdiv_eq_ediv hneed (by omega)
  rw [wrapInt_add_sub_one, hmw]
  unfold INT_MAX at hrmax hnmax
  apply tdiv_ge_neg_one _ _ hr
  unfold wrapInt
  omega

/-- The clamp by time on the machine.  For a field with the `timeNeeded` that
`calculateFieldTimes` stored, admitted, whose need fits the remaining water and whose
`timeNeeded` exceeds the remaining electricity `E`: the product `E * rate` is an `int`, the
field receives `min (E * rate) waterNeeded`, and the time taken from the budget is `E`. -/
theorem machine_timeStep_clamp (rate : Int) (f : Field) (t : Totals)
    (hr : 0 < rate) (hrmax : rate ≤ INT_MAX)
    (hneed : 0 ≤ f.waterNeeded) (hnmax : f.waterNeeded ≤ INT_MAX)
    (hstored : f.timeNeeded
      = (if (wrapInt (wrapInt (f.waterNeeded + rate) - 1)).tdiv rate ≤ 0 then 1
         else (wrapInt (wrapInt (f.waterNeeded + rate) - 1)).tdiv rate))
    (hadm : Admitted rate f t) (hw : f.waterNeeded ≤ t.remainingWater)
    (ht : f.timeNeeded > t.remainingElectricity) :
    (INT_MIN ≤ t.remainingElectricity * rate ∧ t.remainingElectricity * rate ≤ INT_MAX) ∧
    (timeStep rate f t).1.allocated = min (t.remainingElectricity * rate) f.waterNeeded ∧
    (timeStep rate f t).1.scheduled = 1 ∧
    (timeStep rate f t).2.remainingElectricity = 0 ∧
    (timeStep rate f t).2.totalTimeUsed = wrapInt (t.totalTimeUsed + t.remainingElectricity) := by
  have hE : -1 ≤ t.remainingElectricity := by
    have := machine_minTime_ge rate f.waterNeeded hr hrmax hneed hnmax
    have h2 := hadm.2
    omega
  have hprod : INT_MIN ≤ t.remainingElectricity * rate ∧
      t.remainingElectricity * rate ≤ INT_MAX ∧
      (0 ≤ t.remainingElectricity → t.remainingElectricity * rate ≤ f.waterNeeded) := by
    by_cases hneg : t.remainingElectricity < 0
    · have he : t.remainingElectricity = -1 := by omega
      rw [he]
      unfold INT_MIN INT_MAX
      unfold INT_MAX at hrmax
      refine ⟨by omega, by omega, by omega⟩
    · by_cases hq : (wrapInt (wrapInt (f.waterNeeded + rate) - 1)).tdiv rate ≤ 0
      · rw [if_pos hq] at hstored
        have he : t.remainingElectricity = 0 := by omega
        rw [he]
        unfold INT_MIN INT_MAX
        refine ⟨by omega, by omega, by omega⟩
      · rw [if_neg hq] at hstored
        rw [wrapInt_add_sub_one] at hq hstored
        have hpos : 0 ≤ wrapInt (f.waterNeeded + rate - 1) := by
          by_contra hc
          exact hq (tdiv_nonpos_of_neg _ _ hr (by omega))
        have hS : f.waterNeeded + rate - 1 ≤ INT_MAX := by
          unfold INT_MAX at hrmax hnmax ⊢
          unfold wrapInt at hpos
          omega
        rw [wrapInt_of_range _ (by unfold INT_MIN; omega) hS] at hstored
        rw [Int.tdiv_eq_ediv (by omega) (le_of_lt hr)] at hstored
        have h1 : (f.waterNeeded + rate - 1) / rate * rate ≤ f.waterNeeded + rate - 1 :=
          Int.ediv_mul_le _ (by omega)
        have h2 : (t.remainingElectricity + 1) * rate
            ≤ (f.waterNeeded + rate - 1) / rate * rate :=
          Int.mul_le_mul_of_nonneg_right (by omega) (le_of_lt hr)
        have h3 : (t.remainingElectricity + 1) * rate
            = t.remainingElectricity * rate + rate := by ring
        have h4 : 0 ≤ t.remainingElectricity * rate :=
          mul_nonneg (by omega) (le_of_lt hr)
        unfold INT_MIN
        unfold INT_MAX at hS ⊢
        refine ⟨by omega, by omega, fun _ => by omega⟩
  obtain ⟨p1, p2, p3⟩ := hprod
  have hwrap : wrapInt (t.remainingElectricity * rate) = t.remainingElectricity * rate :=
    wrapInt_of_range _ p1 p2
  have hzero : wrapInt (t.remainingElectricity - t.remainingElectricity) = 0 := by
    rw [sub_self]; rfl
  have hadm' := hadm
  unfold Admitted at hadm'
  have hnw : ¬ f.waterNeeded > t.remainingWater := by omega
  refine ⟨⟨p1, p2⟩, ?_⟩
  simp only [timeStep, hadm', and_self, if_true, hnw, if_false, ht, hwrap, hzero]
  refine ⟨?_, trivial⟩
  generalize t.remainingElectricity * rate = pr at *
  split_ifs <;> omega

end Machine

end Greedy

/-! ## Lemmas on the machine version of the dynamic-programming run -/

namespace Dp

namespace Machine

/-- For a need in `0 .. INT_MAX - 9` the machine stores the exact `minWater`. -/
theorem minWater_of_range (f : Field) (h0 : 0 ≤ f.waterNeeded)
    (h1 : f.waterNeeded + 9 ≤ INT_MAX) : minWater f = (f.waterNeeded + 9).tdiv 10 := by
  unfold minWater
  rw [wrapInt_of_range _ (by unfold INT_MIN; omega) h1]

/-- A validated input whose needs are at most `INT_MAX - 9` and whose budget is below
`INT_MAX` gives a defined run. -/
theorem defined_of_range (fields : List Field) (totalWater : Int) (hW : 0 ≤ totalWater)
    (hmax : totalWater < INT_MAX)
    (h : ∀ f ∈ fields, 0 ≤ f.waterNeeded ∧ f.waterNeeded + 9 ≤ INT_MAX) :
    Defined fields totalWater := by
  refine ⟨hW, by omega, ?_⟩
  intro f hf
  left
  rw [minWater_of_range f (h f hf).1 (h f hf).2]
  exact minWater_nonneg f (h f hf).1

/-- The condition on the fields in `Defined` says that every read `dp[i][w - x]` of line 238
is inside the row: for every `w` in `0 .. totalWater` and every `x` that the loop reaches
(`minWater ≤ x ≤ waterNeeded`, `x ≤ w`) the index `w - x` lies in `0 .. totalWater`. -/
theorem defined_iff_reads_in_row (fields : List Field) (totalWater : Int)
    (hW : 0 ≤ totalWater) :
    (∀ f ∈ fields, 0 ≤ minWater f ∨ f.waterNeeded < minWater f) ↔
      ∀ f ∈ fields, ∀ w x : Int, 0 ≤ w → w ≤ totalWater → minWater f ≤ x →
        x ≤ f.waterNeeded → x ≤ w → 0 ≤ w - x ∧ w - x ≤ totalWater := by
  constructor
  · intro h f hf w x h0 h1 h2 h3 h4
    rcases h f hf with h5 | h5 <;> omega
  · intro h f hf
    by_contra hc
    have := h f hf totalWater (minWater f) hW (le_refl _) (le_refl _) (by omega) (by omega)
    omega

theorem addCell_ne_bot (ar : Arith) (c : Cell) (v : ℚ) (h : addCell ar c v ≠ ⊥) : c ≠ ⊥ := by
  intro hc
  rw [hc] at h
  exact h rfl

theorem addCell_exact (c : Cell) (v : ℚ) : addCell exactArith c v = c + ((v : ℚ) : Cell) := by
  cases c with
  | none => rfl
  | some a => rfl

/-- What the loop over `x` leaves in the cell: it never lowers the cell, and it is either the
start value or a candidate for an `x ≤ w` of a field with `waterNeeded ≠ 0`. -/
theorem machine_xLoop_spec (ar : Arith) (f : Field) (prev : Nat → Cell) (w : Nat) :
    ∀ (xs : List Int) (acc : Cell × Int),
      acc.1 ≤ (xLoop ar f prev w xs acc).1 ∧
      (xLoop ar f prev w xs acc = acc ∨
        ∃ x ∈ xs, x ≤ (w : Int) ∧ f.waterNeeded ≠ 0 ∧ acc.1 < (xLoop ar f prev w xs acc).1 ∧
          xLoop ar f prev w xs acc
            = (addCell ar (prev (w - x.toNat)) (ar.value f x), x)) := by
  intro xs
  induction xs with
  | nil => intro acc; simp [xLoop]
  | cons x xs ih =>
    intro acc
    unfold xLoop
    by_cases hw : (w : Int) < x
    · simp only [hw, if_true]
      exact ⟨le_refl _, Or.inl trivial⟩
    · simp only [hw, if_false]
      by_cases hn : f.waterNeeded = 0
      · simp only [hn, if_true]
        obtain ⟨a, c⟩ := ih acc
        refine ⟨a, ?_⟩
        rcases c with c | ⟨y, hy, hyw, hne, hlt, c⟩
        · exact Or.inl c
        · exact absurd hn hne
      · simp only [hn, if_false]
        by_cases hc : addCell ar (prev (w - x.toNat)) (ar.value f x) > acc.1
        · simp only [hc, if_true]
          obtain ⟨a, c⟩ := ih (addCell ar (prev (w - x.toNat)) (ar.value f x), x)
          refine ⟨le_trans (le_of_lt hc) a, ?_⟩
          rcases c with c | ⟨y, hy, hyw, hne, hlt, c⟩
          · exact Or.inr ⟨x, List.mem_cons_self _ _, by omega, hn, by rw [c]; exact hc, c⟩
          · exact Or.inr ⟨y, List.mem_cons_of_mem _ hy, hyw, hne, lt_of_lt_of_le hc a, c⟩
        · simp only [hc, if_false]
          obtain ⟨a, c⟩ := ih acc
          refine ⟨a, ?_⟩
          rcases c with c | ⟨y, hy, hyw, hne, hlt, c⟩
          · exact Or.inl c
          · exact Or.inr ⟨y, List.mem_cons_of_mem _ hy, hyw, hne, hlt, c⟩

/-- What one cell of row `i + 1` holds after the loop body. -/
theorem machine_cell_spec (ar : Arith) (f : Field) (prev : Nat → Cell) (w : Nat) :
    prev w ≤ (cell ar f prev w).1 ∧
    (((cell ar f prev w).2 = -1 ∧ (cell ar f prev w).1 = prev w) ∨
      (minWater f ≤ (cell ar f prev w).2 ∧ (cell ar f prev w).2 ≤ f.waterNeeded ∧
        (cell ar f prev w).2 ≤ (w : Int) ∧ f.waterNeeded ≠ 0 ∧
        prev w < (cell ar f prev w).1 ∧
        (cell ar f prev w).1 =
          addCell ar (prev (w - (cell ar f prev w).2.toNat))
            (ar.value f (cell ar f prev w).2))) := by
  have hskip : (if prev w > (⊥ : Cell) then (prev w, (-1 : Int)) else (⊥, -1)) = (prev w, -1) := by
    by_cases hb : prev w > (⊥ : Cell)
    · simp [hb]
    · have : prev w = ⊥ := by simpa using hb
      simp [this]
  obtain ⟨a, c⟩ := machine_xLoop_spec ar f prev w (xRange (minWater f) f.waterNeeded)
    (prev w, -1)
  unfold cell
  simp only [hskip]
  refine ⟨a, ?_⟩
  rcases c with c | ⟨x, hx, hxw, hne, hlt, c⟩
  · left; rw [c]; exact ⟨rfl, rfl⟩
  · right
    obtain ⟨h1, h2⟩ := (mem_xRange _ _ _).1 hx
    rw [c] at hlt ⊢
    exact ⟨h1, h2, hxw, hne, hlt, rfl⟩

/-- Rows `0 .. i` of the table depend on the fields `0 .. i-1` only. -/
theorem machine_table_append (ar : Arith) (pre suf : List Field) :
    ∀ (i : Nat), i ≤ pre.length → ∀ w, table ar (pre ++ suf) i w = table ar pre i w := by
  intro i
  induction i with
  | zero => intro _ w; rfl
  | succ i ih =>
    intro h w
    have hi : i < pre.length := h
    have hrow : (fun w' => (table ar (pre ++ suf) i w').1) = fun w' => (table ar pre i w').1 :=
      funext fun w' => by rw [ih (le_of_lt hi) w']
    simp only [table, List.getElem?_append_left hi, hrow]

/-- The last row of the table is the loop body applied to the row before it. -/
theorem machine_table_snoc (ar : Arith) (pre : List Field) (f : Field) (w : Nat) :
    table ar (pre ++ [f]) (pre.length + 1) w
      = cell ar f (fun w' => (table ar pre pre.length w').1) w := by
  have hrow : (fun w' => (table ar (pre ++ [f]) pre.length w').1)
      = fun w' => (table ar pre pre.length w').1 :=
    funext fun w' => by rw [machine_table_append ar pre [f] pre.length (le_refl _) w']
  simp only [table, List.getElem?_concat_length, hrow]

/-- The last iteration of the backtracking loop. -/
theorem machine_backtrack_snoc (ar : Arith) (pre : List Field) (f : Field) (cur : Int) :
    backtrack (pre ++ [f]) (fun i w => (table ar (pre ++ [f]) i w).2) (pre.length + 1) cur =
      if (cell ar f (fun w' => (table ar pre pre.length w').1) cur.toNat).2 ≥ 0 then
        backtrack pre (fun i w => (table ar pre i w).2) pre.length
            (cur - (cell ar f (fun w' => (table ar pre pre.length w').1) cur.toNat).2)
          ++ [{ f with
                allocated := (cell ar f (fun w' => (table ar pre pre.length w').1) cur.toNat).2
                scheduled := 1 }]
      else
        backtrack pre (fun i w => (table ar pre i w).2) pre.length cur ++ [f] := by
  have hb : ∀ c, backtrack (pre ++ [f]) (fun i w => (table ar (pre ++ [f]) i w).2) pre.length c
      = backtrack pre (fun i w => (table ar pre i w).2) pre.length c :=
    fun c => backtrack_append pre [f] _ _ pre.length (le_refl _)
      (fun j hj w => by rw [machine_table_append ar pre [f] j hj w]) c
  simp only [backtrack, List.getElem?_concat_length, machine_table_snoc, hb]

/-- Cell `0` of every row holds a value: giving nothing to anybody uses no water. -/
theorem machine_table_zero_ne_bot (ar : Arith) (fields : List Field) :
    (table ar fields fields.length 0).1 ≠ ⊥ := by
  induction fields using List.reverseRecOn with
  | nil => simp [table]
  | append_singleton pre f ih =>
    rw [List.length_append, List.length_singleton, machine_table_snoc]
    have h := (machine_cell_spec ar f (fun w' => (table ar pre pre.length w').1) 0).1
    intro hb
    rw [hb] at h
    exact ih (le_bot_iff.1 h)

/-- Backtracking from a cell that holds a value returns admissible amounts that use exactly
`w` units, whatever the value arithmetic. -/
theorem machine_backtrack_sound (ar : Arith) (fields : List Field) :
    (∀ f ∈ fields, 0 ≤ f.waterNeeded ∧ f.waterNeeded + 9 ≤ INT_MAX ∧ f.allocated = 0) →
    ∀ w : Nat, (table ar fields fields.length w).1 ≠ ⊥ →
      List.Forall₂ Chosen fields
        (backtrack fields (fun i w => (table ar fields i w).2) fields.length w) ∧
      ((backtrack fields (fun i w => (table ar fields i w).2) fields.length w).map
        Field.allocated).sum = w := by
  induction fields using List.reverseRecOn with
  | nil =>
    intro _ w hw
    have hw0 : w = 0 := by
      by_contra hne
      simp [table, hne] at hw
    subst hw0
    simp [backtrack]
  | append_singleton pre f ih =>
    intro h w hw
    have ih' := ih (fun g hg => h g (List.mem_append_left _ hg))
    obtain ⟨hneed, hmax, hzero⟩ := h f (List.mem_append_right _ (List.mem_singleton_self _))
    have hmw := minWater_of_range f hneed hmax
    rw [List.length_append, List.length_singleton, machine_table_snoc] at hw
    rw [List.length_append, List.length_singleton, machine_backtrack_snoc]
    simp only [Int.toNat_ofNat]
    rcases (machine_cell_spec ar f (fun w' => (table ar pre pre.length w').1) w).2 with
      ⟨hp, hv⟩ | ⟨h1, h2, h3, hne, hlt, hv⟩
    · have hneg : ¬ (cell ar f (fun w' => (table ar pre pre.length w').1) w).2 ≥ 0 := by
        rw [hp]; decide
      rw [if_neg hneg]
      rw [hv] at hw
      obtain ⟨a, b⟩ := ih' w hw
      refine ⟨List.rel_append a (List.Forall₂.cons ?_ List.Forall₂.nil), ?_⟩
      · exact ⟨rfl, rfl, rfl, rfl, Or.inl rfl⟩
      · simp only [List.map_append, List.sum_append, List.map_cons, List.map_nil, List.sum_cons,
          List.sum_nil, b, hzero]
        omega
    · rw [hmw] at h1
      have hmin1 : 1 ≤ (f.waterNeeded + 9).tdiv 10 := by
        rw [Int.tdiv_eq_ediv (by omega) (by omega)]
        omega
      have hpos : (cell ar f (fun w' => (table ar pre pre.length w').1) w).2 ≥ 0 := by omega
      rw [if_pos hpos]
      generalize hx : (cell ar f (fun w' => (table ar pre pre.length w').1) w).2 = x at *
      generalize hc : (cell ar f (fun w' => (table ar pre pre.length w').1) w).1 = v at *
      have hcur : (w : Int) - x = ((w - x.toNat : Nat) : Int) := by omega
      rw [hcur]
      have hprev : (table ar pre pre.length (w - x.toNat)).1 ≠ ⊥ := by
        apply addCell_ne_bot ar _ (ar.value f x)
        rw [← hv]
        exact hw
      obtain ⟨a, b⟩ := ih' (w - x.toNat) hprev
      refine ⟨List.rel_append a (List.Forall₂.cons ?_ List.Forall₂.nil), ?_⟩
      · exact ⟨rfl, rfl, rfl, rfl, Or.inr ⟨h1, h2, by simp only; omega, rfl⟩⟩
      · simp only [List.map_append, List.sum_append, List.map_cons, List.map_nil, List.sum_cons,
          List.sum_nil, b]
        omega

end Machine

end Dp

namespace Dp

namespace Machine

theorem machine_allocate_eq (ar : Arith) (fields : List Field) (totalWater : Int)
    (hd : Defined fields totalWater) :
    allocate ar fields totalWater
      = some (backtrack fields (fun i w => (table ar fields i w).2) fields.length
          (findBest (fun w => (table ar fields fields.length w).1) totalWater).1,
        ((findBest (fun w => (table ar fields fields.length w).1) totalWater).1 : Int),
        totalWater - (findBest (fun w => (table ar fields fields.length w).1) totalWater).1) := by
  unfold allocate
  rw [if_pos hd]

theorem machine_best_eq (ar : Arith) (fields : List Field) (totalWater : Int)
    (hd : Defined fields totalWater) :
    best ar fields totalWater
      = some (findBest (fun w => (table ar fields fields.length w).1) totalWater) := by
  unfold best
  rw [if_pos hd]

theorem machine_main_some (ar : Arith) (qsort : List Field → List Field)
    (data : IrrigationData) (r : List Field × Int × Int)
    (h : allocate ar (qsort data.fields) data.totalWater = some r) :
    main ar qsort data
      = some { data with
               fields := restoreOrder r.1, totalWaterUsed := r.2.1, remainingWater := r.2.2 } := by
  unfold main
  rw [h]

/-- The run on a sorted array whose needs are in `0 .. INT_MAX - 9`, with a budget in
`0 .. INT_MAX - 1`, whatever the value arithmetic: backtracking writes admissible amounts
that add up to `best_w`, which lies in `0 .. totalWater`. -/
theorem machine_run_spec (ar : Arith) (fields : List Field) (totalWater : Int)
    (hW : 0 ≤ totalWater)
    (hz : ∀ f ∈ fields, 0 ≤ f.waterNeeded ∧ f.waterNeeded + 9 ≤ INT_MAX ∧ f.allocated = 0) :
    List.Forall₂ Chosen fields
      (backtrack fields (fun i w => (table ar fields i w).2) fields.length
        (findBest (fun w => (table ar fields fields.length w).1) totalWater).1) ∧
    ((backtrack fields (fun i w => (table ar fields i w).2) fields.length
        (findBest (fun w => (table ar fields fields.length w).1) totalWater).1).map
      Field.allocated).sum
      = (findBest (fun w => (table ar fields fields.length w).1) totalWater).1 ∧
    ((findBest (fun w => (table ar fields fields.length w).1) totalWater).1 : Int)
      ≤ totalWater := by
  obtain ⟨b1, b2, b3, _, _⟩ := findBest_spec
    (fun w => (table ar fields fields.length w).1) totalWater hW
    (machine_table_zero_ne_bot ar fields)
  rw [b2] at b3
  obtain ⟨s1, s2⟩ := machine_backtrack_sound ar fields hz _ b3
  exact ⟨s1, s2, b1⟩

theorem machine_xLoop_exact (f : Field) (prev : Nat → Cell) (w : Nat)
    (hn : f.waterNeeded ≠ 0) :
    ∀ (xs : List Int) (acc : Cell × Int),
      xLoop exactArith f prev w xs acc = Dp.xLoop f prev w xs acc := by
  intro xs
  induction xs with
  | nil => intro acc; rfl
  | cons x xs ih =>
    intro acc
    unfold xLoop Dp.xLoop
    by_cases hw : (w : Int) < x
    · simp only [hw, if_true]
    · simp only [hw, if_false, hn, addCell_exact, ih]
      rfl

/-- With the exact arithmetic the machine version of a cell is `Dp.cell`, as long as
`minWater` is stored exactly. -/
theorem machine_cell_exact (f : Field) (prev : Nat → Cell) (w : Nat)
    (h0 : 0 ≤ f.waterNeeded) (h1 : f.waterNeeded + 9 ≤ INT_MAX) :
    cell exactArith f prev w = Dp.cell f prev w := by
  simp only [cell, Dp.cell]
  rw [minWater_of_range f h0 h1]
  by_cases hn : f.waterNeeded = 0
  · have hr : xRange ((f.waterNeeded + 9).tdiv 10) f.waterNeeded = [0] := by
      rw [hn]; decide
    rw [hr]
    have hv : value f 0 = 0 := value_zero f
    by_cases hb : prev w > (⊥ : Cell)
    · simp [xLoop, Dp.xLoop, hn, hb, hv]
    · have hbot : prev w = ⊥ := by simpa using hb
      simp [xLoop, Dp.xLoop, hn, hbot]
  · exact machine_xLoop_exact f prev w hn _ _

theorem machine_table_exact (fields : List Field)
    (h : ∀ f ∈ fields, 0 ≤ f.waterNeeded ∧ f.waterNeeded + 9 ≤ INT_MAX) :
    ∀ (i w : Nat), table exactArith fields i w = Dp.table fields i w := by
  intro i
  induction i with
  | zero => intro w; rfl
  | succ i ih =>
    intro w
    have hrow : (fun w' => (table exactArith fields i w').1)
        = fun w' => (Dp.table fields i w').1 := funext fun w' => by rw [ih w']
    unfold table Dp.table
    cases hf : fields[i]? with
    | none => rfl
    | some f =>
      have hm := h f (List.getElem?_mem hf)
      simp only [hrow]
      exact machine_cell_exact f _ w hm.1 hm.2

/-- With the exact arithmetic a defined run on needs in `0 .. INT_MAX - 9` is the run that
`Dp.allocate` describes. -/
theorem machine_allocate_exact (fields : List Field) (totalWater : Int)
    (hd : Defined fields totalWater)
    (h : ∀ f ∈ fields, 0 ≤ f.waterNeeded ∧ f.waterNeeded + 9 ≤ INT_MAX) :
    allocate exactArith fields totalWater = some (Dp.allocate fields totalWater) := by
  rw [machine_allocate_eq exactArith fields totalWater hd]
  have e1 : (fun w => (table exactArith fields fields.length w).1)
      = fun w => (Dp.table fields fields.length w).1 :=
    funext fun w => by rw [machine_table_exact fields h]
  have e2 : (fun i w => (table exactArith fields i w).2)
      = fun i w => (Dp.table fields i w).2 :=
    funext fun i => funext fun w => by rw [machine_table_exact fields h]
  rw [e1, e2]
  rfl

theorem machine_main_exact (qsort : List Field → List Field)
    (hq : IsQsort compareFields qsort) (data : IrrigationData)
    (hW : 0 ≤ data.totalWater) (hmax : data.totalWater < INT_MAX)
    (h : ∀ f ∈ data.fields, 0 ≤ f.waterNeeded ∧ f.waterNeeded + 9 ≤ INT_MAX) :
    main exactArith qsort data = some (Dp.main qsort data) := by
  have hs : ∀ f ∈ qsort data.fields, 0 ≤ f.waterNeeded ∧ f.waterNeeded + 9 ≤ INT_MAX :=
    fun f hf => h f ((hq data.fields).1.mem_iff.1 hf)
  rw [machine_main_some exactArith qsort data _
    (machine_allocate_exact _ _ (defined_of_range _ _ hW hmax hs) hs)]
  rfl

end Machine

end Dp

namespace Dp

namespace Machine

/-- The run of `main` on a validated input as `parseInput` stores it, with needs of at most
`INT_MAX - 9` and a budget below `INT_MAX`, whatever the value arithmetic: the run has a
result, which holds the array after backtracking in input order, `best_w` as
`totalWaterUsed` and `totalWater - best_w` as `remainingWater`; backtracking writes
admissible amounts that add up to `best_w`, which lies in `0 .. totalWater`. -/
theorem machine_main_spec (ar : Arith) (qsort : List Field → List Field)
    (hq : IsQsort compareFields qsort) (data : IrrigationData) (hv : Validated data)
    (hfresh : FreshlyParsed data.fields)
    (hneed : ∀ f ∈ data.fields, f.waterNeeded + 9 ≤ INT_MAX)
    (hmax : data.totalWater < INT_MAX) :
    main ar qsort data
      = some { data with
               fields := restoreOrder
                 (backtrack (qsort data.fields)
                   (fun i w => (table ar (qsort data.fields) i w).2) (qsort data.fields).length
                   (findBest (fun w => (table ar (qsort data.fields)
                     (qsort data.fields).length w).1) data.totalWater).1)
               totalWaterUsed := (findBest (fun w => (table ar (qsort data.fields)
                     (qsort data.fields).length w).1) data.totalWater).1
               remainingWater := data.totalWater - (findBest (fun w =>
                     (table ar (qsort data.fields) (qsort data.fields).length w).1)
                     data.totalWater).1 } ∧
    best ar (qsort data.fields) data.totalWater
      = some (findBest (fun w => (table ar (qsort data.fields)
          (qsort data.fields).length w).1) data.totalWater) ∧
    List.Forall₂ Chosen (qsort data.fields)
      (backtrack (qsort data.fields) (fun i w => (table ar (qsort data.fields) i w).2)
        (qsort data.fields).length
        (findBest (fun w => (table ar (qsort data.fields)
          (qsort data.fields).length w).1) data.totalWater).1) ∧
    ((backtrack (qsort data.fields) (fun i w => (table ar (qsort data.fields) i w).2)
        (qsort data.fields).length
        (findBest (fun w => (table ar (qsort data.fields)
          (qsort data.fields).length w).1) data.totalWater).1).map Field.allocated).sum
      = (findBest (fun w => (table ar (qsort data.fields)
          (qsort data.fields).length w).1) data.totalWater).1 ∧
    ((findBest (fun w => (table ar (qsort data.fields)
        (qsort data.fields).length w).1) data.totalWater).1 : Int) ≤ data.totalWater := by
  have hperm := (hq data.fields).1
  have hz : ∀ f ∈ qsort data.fields,
      0 ≤ f.waterNeeded ∧ f.waterNeeded + 9 ≤ INT_MAX ∧ f.allocated = 0 := by
    intro f hf
    have hf' := hperm.mem_iff.1 hf
    exact ⟨(hv.2.2.2 f hf').2.2, hneed f hf', (hfresh.1 f hf').1⟩
  have hd : Defined (qsort data.fields) data.totalWater :=
    defined_of_range _ _ (le_of_lt hv.1) hmax (fun f hf => ⟨(hz f hf).1, (hz f hf).2.1⟩)
  obtain ⟨s1, s2, s3⟩ := machine_run_spec ar (qsort data.fields) data.totalWater
    (le_of_lt hv.1) hz
  exact ⟨machine_main_some ar qsort data _ (machine_allocate_eq ar _ _ hd),
    machine_best_eq ar _ _ hd, s1, s2, s3⟩

end Machine

end Dp

namespace Dp

/-- With exact values the water that `main` reports is at most the water of any feasible
allocation of the same total value. -/
theorem main_water_minimal (qsort : List Field → List Field)
    (hq : IsQsort compareFields qsort) (data : IrrigationData) (hv : Validated data)
    (hfresh : FreshlyParsed data.fields) :
    ∀ a, Feasible data.totalWater data.fields a →
      totalValue data.fields a
        = totalValue data.fields ((main qsort data).fields.map Field.allocated) →
      (main qsort data).totalWaterUsed ≤ a.sum := by
  have hperm := (hq data.fields).1
  have hz : ∀ f ∈ qsort data.fields, 0 ≤ f.waterNeeded ∧ f.allocated = 0 := by
    intro f hf
    have hf' := hperm.mem_iff.1 hf
    exact ⟨(hv.2.2.2 f hf').2.2, (hfresh.1 f hf').1⟩
  have hz0 := table_zero_ne_bot (qsort data.fields) (fun f hf => (hz f hf).1)
  obtain ⟨b1, b2, _, b4, b5⟩ := findBest_spec
    (fun w => (table (qsort data.fields) (qsort data.fields).length w).1)
    data.totalWater (le_of_lt hv.1) hz0
  have hu : (main qsort data).totalWaterUsed
      = (best (qsort data.fields) data.totalWater).1 := rfl
  intro a ha hval
  obtain ⟨a', ha', hv', hs'⟩ := feasible_perm_sum data.totalWater data.fields
    (qsort data.fields) hperm a ha
  obtain ⟨hnn, hle⟩ := value_le_row data.totalWater (qsort data.fields) a'
    (fun f hf => (hz f hf).1) ha'
  have hbv := allocate_value (qsort data.fields) data.totalWater (le_of_lt hv.1) hz
  rw [← main_value_eq qsort hq data hv hfresh, ← hval, ← hv'] at hbv
  rw [hbv] at hle
  have hnlt : ¬ a'.sum.toNat < (best (qsort data.fields) data.totalWater).1 := by
    intro hlt
    exact absurd (b5 _ hlt) (not_lt.2 hle)
  rw [hu, ← hs']
  omega

end Dp

/-! ## A run of the dynamic-programming search in `float` arithmetic -/

namespace Dp

/-- The search of lines 250-257 returns the first cell that no cell in `0 .. totalWater`
exceeds. -/
theorem findBest_unique (row : Nat → Cell) (totalWater : Int) (hW : 0 ≤ totalWater)
    (h0 : row 0 ≠ ⊥) (w0 : Nat) (hw0 : (w0 : Int) ≤ totalWater)
    (hmax : ∀ w : Nat, (w : Int) ≤ totalWater → row w ≤ row w0)
    (hlt : ∀ w : Nat, w < w0 → row w < row w0) :
    findBest row totalWater = (w0, row w0) := by
  obtain ⟨b1, b2, _, b4, b5⟩ := findBest_spec row totalWater hW h0
  have h1 : (findBest row totalWater).1 = w0 := by
    rcases Nat.lt_trichotomy (findBest row totalWater).1 w0 with h | h | h
    · have := hlt _ h
      have := b4 w0 hw0
      rw [b2] at this
      exact absurd ‹row (findBest row totalWater).1 < row w0› (not_lt.2 this)
    · exact h
    · have := b5 w0 h
      rw [b2] at this
      exact absurd this (not_lt.2 (hmax _ b1))
  exact Prod.ext h1 (by rw [b2, h1])

theorem xRange_split (m k n : Int) (h1 : m ≤ k + 1) (h2 : k ≤ n) :
    xRange m n = xRange m k ++ xRange (k + 1) n := by
  unfold xRange
  have e : (n - m + 1).toNat = (k - m + 1).toNat + (n - (k + 1) + 1).toNat := by omega
  rw [e, List.range_add, List.map_append, List.map_map]
  congr 1
  apply List.map_congr_left
  intro a _
  simp only [Function.comp_apply]
  push_cast
  omega

namespace Machine

/-- The loop over `x` stops at the first `x` above `w`. -/
theorem machine_xLoop_append (ar : Arith) (f : Field) (prev : Nat → Cell) (w : Nat)
    (ys : List Int) (h : ∀ y ∈ ys, (w : Int) < y) :
    ∀ (xs : List Int) (acc : Cell × Int),
      xLoop ar f prev w (xs ++ ys) acc = xLoop ar f prev w xs acc := by
  intro xs
  induction xs with
  | nil =>
    intro acc
    cases ys with
    | nil => rfl
    | cons y ys =>
      simp only [List.nil_append]
      unfold xLoop
      rw [if_pos (h y (List.mem_cons_self _ _))]
  | cons x xs ih =>
    intro acc
    rw [List.cons_append]
    unfold xLoop
    simp only [ih]

/-- For `w` between `minWater - 1` and `waterNeeded` the loop over `x` runs through
`minWater .. w`. -/
theorem machine_cell_trunc (ar : Arith) (f : Field) (prev : Nat → Cell) (w : Nat)
    (h1 : minWater f ≤ (w : Int) + 1) (h2 : (w : Int) ≤ f.waterNeeded) :
    cell ar f prev w
      = xLoop ar f prev w (xRange (minWater f) w)
          (if prev w > (⊥ : Cell) then (prev w, -1) else (⊥, -1)) := by
  unfold cell
  simp only
  rw [xRange_split (minWater f) w f.waterNeeded h1 h2]
  apply machine_xLoop_append
  intro y hy
  have := ((mem_xRange _ _ _).1 hy).1
  omega

/-- Below `minWater` the cell is the cell above it. -/
theorem machine_cell_below (ar : Arith) (f : Field) (prev : Nat → Cell) (w : Nat)
    (h : (w : Int) < minWater f) :
    cell ar f prev w = (if prev w > (⊥ : Cell) then (prev w, -1) else (⊥, -1)) := by
  unfold cell
  simp only
  have := machine_xLoop_append ar f prev w (xRange (minWater f) f.waterNeeded)
    (fun y hy => by have := ((mem_xRange _ _ _).1 hy).1; omega) []
    (if prev w > (⊥ : Cell) then (prev w, -1) else (⊥, -1))
  rw [List.nil_append] at this
  rw [this]
  rfl

end Machine

end Dp

namespace Dp

namespace Machine

/-- Row 1 of the `float` table for the fields `P`, `Q`: no water is worth 0, one unit for `P`
is worth 100, and `P` cannot take more. -/
theorem round_row_one (w : Nat) :
    (table floatArith fieldsRound 1 w).1
      = if w = 0 then (0 : Cell) else if w = 1 then ((100 : ℚ) : Cell) else ⊥ := by
  have ht : table floatArith fieldsRound 1 w
      = cell floatArith ⟨"P", 0, 1, 0, 0, 0⟩
          (fun w' => (table floatArith fieldsRound 0 w').1) w := rfl
  rcases Nat.lt_or_ge w 2 with h | h
  · interval_cases w
    · decide!
    · decide!
  · have h0 : w ≠ 0 := by omega
    have h1 : w ≠ 1 := by omega
    rw [ht, if_neg h0, if_neg h1]
    have hm : minWater ⟨"P", 0, 1, 0, 0, 0⟩ = 1 := by decide
    have hp : (table floatArith fieldsRound 0 w).1 = ⊥ := by simp [table, h0]
    have hp1 : (table floatArith fieldsRound 0 (w - 1)).1 = ⊥ := by
      have : w - 1 ≠ 0 := by omega
      simp [table, this]
    rcases (machine_cell_spec floatArith ⟨"P", 0, 1, 0, 0, 0⟩
        (fun w' => (table floatArith fieldsRound 0 w').1) w).2 with
      ⟨_, hv⟩ | ⟨c1, c2, _, _, _, hv⟩
    · rw [hv]
      exact hp
    · rw [hm] at c1
      have hc : (cell floatArith ⟨"P", 0, 1, 0, 0, 0⟩
          (fun w' => (table floatArith fieldsRound 0 w').1) w).2 = 1 := by
        have c2' : (cell floatArith ⟨"P", 0, 1, 0, 0, 0⟩
          (fun w' => (table floatArith fieldsRound 0 w').1) w).2 ≤ 1 := c2
        omega
      rw [hv, hc]
      simp only [Int.toNat_one, hp1]
      rfl

/-- Below `minWater = 26215` row 2 is row 1. -/
theorem round_row_two_low (w : Nat) (h : w < 26215) :
    (table floatArith fieldsRound 2 w).1 = (table floatArith fieldsRound 1 w).1 := by
  have ht : table floatArith fieldsRound 2 w
      = cell floatArith ⟨"Q", 99, 262150, 0, 0, 1⟩
          (fun w' => (table floatArith fieldsRound 1 w').1) w := rfl
  have hm : minWater ⟨"Q", 99, 262150, 0, 0, 1⟩ = 26215 := by decide
  rw [ht, machine_cell_below _ _ _ _ (by rw [hm]; omega)]
  split_ifs with hb
  · rfl
  · simp only
    symm
    simpa using hb

/-- The cells of row 2 from `minWater` on: with 26217 and with 26218 units the `float` values
are the same, although the second allocation gives `Q` one unit more. -/
theorem round_row_two_high :
    table floatArith fieldsRound 2 26215 = (((13421773 / 134217728 : ℚ) : Cell), 26215) ∧
    table floatArith fieldsRound 2 26216 = (((13120307 / 131072 : ℚ) : Cell), 26215) ∧
    table floatArith fieldsRound 2 26217 = (((3280077 / 32768 : ℚ) : Cell), 26216) ∧
    table floatArith fieldsRound 2 26218 = (((3280077 / 32768 : ℚ) : Cell), 26217) := by
  have ht : ∀ w, table floatArith fieldsRound 2 w
      = cell floatArith ⟨"Q", 99, 262150, 0, 0, 1⟩
          (fun w' => (table floatArith fieldsRound 1 w').1) w := fun w => rfl
  have hm : minWater ⟨"Q", 99, 262150, 0, 0, 1⟩ = 26215 := by decide
  refine ⟨?_, ?_, ?_, ?_⟩
  · rw [ht, machine_cell_trunc _ _ _ _ (by rw [hm]; decide) (by decide)]
    decide!
  · rw [ht, machine_cell_trunc _ _ _ _ (by rw [hm]; decide) (by decide)]
    decide!
  · rw [ht, machine_cell_trunc _ _ _ _ (by rw [hm]; decide) (by decide)]
    decide!
  · rw [ht, machine_cell_trunc _ _ _ _ (by rw [hm]; decide) (by decide)]
    decide!

/-- The search finds its maximum first at `w = 26217`. -/
theorem round_best :
    findBest (fun w => (table floatArith fieldsRound fieldsRound.length w).1) 26218
      = (26217, ((3280077 / 32768 : ℚ) : Cell)) := by
  obtain ⟨c0, c1, c2, c3⟩ := round_row_two_high
  have hrow : (fun w => (table floatArith fieldsRound fieldsRound.length w).1) 26217
      = ((3280077 / 32768 : ℚ) : Cell) := by
    show (table floatArith fieldsRound 2 26217).1 = _
    rw [c2]
  have hlow : ∀ w : Nat, w < 26215 →
      (table floatArith fieldsRound 2 w).1 < ((3280077 / 32768 : ℚ) : Cell) := by
    intro w hw
    rw [round_row_two_low w hw, round_row_one]
    split_ifs
    · decide!
    · decide!
    · exact WithBot.bot_lt_coe _
  have key := findBest_unique
    (fun w => (table floatArith fieldsRound fieldsRound.length w).1) 26218
    (by norm_num) (machine_table_zero_ne_bot floatArith fieldsRound) 26217 (by norm_num)
    (by
      intro w hw
      show (table floatArith fieldsRound 2 w).1 ≤ (table floatArith fieldsRound 2 26217).1
      rw [c2]
      rcases Nat.lt_or_ge w 26215 with h | h
      · exact le_of_lt (hlow w h)
      · have h2 : w ≤ 26218 := by omega
        interval_cases w
        · rw [c0]; decide!
        · rw [c1]; decide!
        · rw [c2]
        · rw [c3])
    (by
      intro w hw
      show (table floatArith fieldsRound 2 w).1 < (table floatArith fieldsRound 2 26217).1
      rw [c2]
      rcases Nat.lt_or_ge w 26215 with h | h
      · exact hlow w h
      · interval_cases w
        · rw [c0]; decide!
        · rw [c1]; decide!)
  rw [key, hrow]

/-- Backtracking from `w = 26217` gives `Q` 26216 units and `P` one. -/
theorem round_backtrack :
    backtrack fieldsRound (fun i w => (table floatArith fieldsRound i w).2)
        fieldsRound.length 26217
      = [⟨"P", 0, 1, 1, 1, 0⟩, ⟨"Q", 99, 262150, 26216, 1, 1⟩] := by
  have hsn := machine_backtrack_snoc floatArith [⟨"P", 0, 1, 0, 0, 0⟩]
    ⟨"Q", 99, 262150, 0, 0, 1⟩ 26217
  have hcell : cell floatArith ⟨"Q", 99, 262150, 0, 0, 1⟩
      (fun w' => (table floatArith [⟨"P", 0, 1, 0, 0, 0⟩]
        [(⟨"P", 0, 1, 0, 0, 0⟩ : Field)].length w').1) (26217 : Int).toNat
      = (((3280077 / 32768 : ℚ) : Cell), 26216) := by
    rw [← machine_table_snoc]
    exact round_row_two_high.2.2.1
  rw [hcell] at hsn
  have hpre : backtrack [⟨"P", 0, 1, 0, 0, 0⟩]
      (fun i w => (table floatArith [⟨"P", 0, 1, 0, 0, 0⟩] i w).2)
      [(⟨"P", 0, 1, 0, 0, 0⟩ : Field)].length (26217 - 26216)
      = [⟨"P", 0, 1, 1, 1, 0⟩] := by decide!
  simp only [ge_iff_le, if_pos (by decide : (0 : Int) ≤ 26216), hpre] at hsn
  exact hsn

/-- The run of `main` in `float` arithmetic on `totalWater = 26218` and the fields `P`, `Q`
gives `Q` 26216 units and leaves one unit unused. -/
theorem round_main :
    main floatArith (insertionSort compareFields) ⟨fieldsRound, 26218, 0, 0⟩
      = some ⟨[⟨"P", 0, 1, 1, 1, 0⟩, ⟨"Q", 99, 262150, 26216, 1, 1⟩], 26218, 26217, 1⟩ := by
  have hs : insertionSort compareFields fieldsRound = fieldsRound := by decide
  have hd : Defined fieldsRound 26218 := by decide
  have ha := machine_allocate_eq floatArith fieldsRound 26218 hd
  rw [round_best] at ha
  simp only at ha
  rw [show ((26217 : Nat) : Int) = 26217 from rfl, round_backtrack] at ha
  rw [machine_main_some floatArith (insertionSort compareFields) ⟨fieldsRound, 26218, 0, 0⟩ _
    (by rw [hs]; exact ha)]
  decide

end Machine

end Dp

/-! ## Claims -/

set_option linter.unusedVariables false

/-- C1: the DP strategy of `dp_scheduler.c` with the value arithmetic taken exactly.  For
every validated input as `parseInput` stores it, with every need at most `INT_MAX - 9` and a
budget below `INT_MAX`, the run has a result; the allocation left by table build and
backtracking is feasible (every amount is `0` or lies between `ceil(waterNeeded / 10)` and
`waterNeeded`, and the amounts add up to at most `totalWater`) and no feasible allocation has
a larger total value `sum (100 - moisture) * allocated / waterNeeded`; this holds for the
sorted array after backtracking and for the array of `main` in input order.  With
`totalWater = 10` and one field of moisture 0 and need 10 the field receives 10 and
`remainingWater` is 0, in exact and in `float` arithmetic.  With a need of `INT_MAX`, which
is a validated input, `waterNeeded + 9` wraps, `minWater` is negative and the run has no
result. -/
theorem dp_allocation_feasible_optimal
    (qsort : List Field → List Field) (hq : IsQsort compareFields qsort)
    (data : IrrigationData) (hv : Validated data) (hfresh : FreshlyParsed data.fields)
    (hneed : ∀ f ∈ data.fields, f.waterNeeded + 9 ≤ INT_MAX)
    (hmax : data.totalWater < INT_MAX) :
    (∃ r, Dp.Machine.allocate Dp.exactArith (qsort data.fields) data.totalWater = some r ∧
      Dp.Feasible data.totalWater (qsort data.fields) (r.1.map Field.allocated) ∧
      ∀ a, Dp.Feasible data.totalWater (qsort data.fields) a →
        Dp.totalValue (qsort data.fields) a
          ≤ Dp.totalValue (qsort data.fields) (r.1.map Field.allocated)) ∧
    (∃ out, Dp.Machine.main Dp.exactArith qsort data = some out ∧
      Dp.Feasible data.totalWater data.fields (out.fields.map Field.allocated) ∧
      ∀ a, Dp.Feasible data.totalWater data.fields a →
        Dp.totalValue data.fields a
          ≤ Dp.totalValue data.fields (out.fields.map Field.allocated)) ∧
    Dp.Machine.main Dp.exactArith (insertionSort compareFields) ⟨fieldsD, 10, 0, 0⟩
      = some ⟨[⟨"D", 0, 10, 10, 1, 0⟩], 10, 10, 0⟩ ∧
    Dp.Machine.main Dp.floatArith (insertionSort compareFields) ⟨fieldsD, 10, 0, 0⟩
      = some ⟨[⟨"D", 0, 10, 10, 1, 0⟩], 10, 10, 0⟩ ∧
    (Validated ⟨fieldsH, 10, 0, 0⟩ ∧ FreshlyParsed fieldsH ∧
      Dp.Machine.main Dp.exactArith (insertionSort compareFields) ⟨fieldsH, 10, 0, 0⟩ = none ∧
      Dp.Machine.main Dp.floatArith (insertionSort compareFields) ⟨fieldsH, 10, 0, 0⟩
        = none) := by
  have hr : ∀ f ∈ data.fields, 0 ≤ f.waterNeeded ∧ f.waterNeeded + 9 ≤ INT_MAX :=
    fun f hf => ⟨(hv.2.2.2 f hf).2.2, hneed f hf⟩
  have hs : ∀ f ∈ qsort data.fields, 0 ≤ f.waterNeeded ∧ f.waterNeeded + 9 ≤ INT_MAX :=
    fun f hf => hr f ((hq data.fields).1.mem_iff.1 hf)
  obtain ⟨h1, h2⟩ := Dp.main_spec qsort hq data hv hfresh
  refine ⟨⟨_, Dp.Machine.machine_allocate_exact _ _
      (Dp.Machine.defined_of_range _ _ (le_of_lt hv.1) hmax hs) hs, h1.1, h1.2⟩,
    ⟨_, Dp.Machine.machine_main_exact qsort hq data (le_of_lt hv.1) hmax hr, h2.1, h2.2⟩,
    by decide!, by decide!, by decide, ⟨by decide, by decide⟩, by decide, by decide⟩

/-- C1, on the input of the claim (`totalWater = 10`, one field of moisture 0 and need 10). -/
theorem dp_allocation_feasible_optimal_witness :
    Validated ⟨fieldsD, 10, 0, 0⟩ ∧ FreshlyParsed fieldsD ∧
    (∀ f ∈ fieldsD, f.waterNeeded + 9 ≤ INT_MAX) ∧ (10 : Int) < INT_MAX ∧
    (∃ out, Dp.Machine.main Dp.exactArith (insertionSort compareFields) ⟨fieldsD, 10, 0, 0⟩
        = some out ∧
      Dp.Feasible 10 fieldsD (out.fields.map Field.allocated) ∧
      ∀ a, Dp.Feasible 10 fieldsD a →
        Dp.totalValue fieldsD a ≤ Dp.totalValue fieldsD (out.fields.map Field.allocated)) :=
  ⟨by decide, ⟨by decide, by decide⟩, by decide, by decide,
    (dp_allocation_feasible_optimal (insertionSort compareFields)
      (insertionSort_isQsort _ compareFields_total) ⟨fieldsD, 10, 0, 0⟩ (by decide)
      ⟨by decide, by decide⟩ (by decide) (by decide)).2.1⟩

/-- C2: unconstrained greedy, both implementations (`main` of `brute_force_scheduler.c` and
`scheduleIrrigation` with `useTimeConstraints = 0`): for a positive `totalWater` and needs
that are not negative, every field of the result has `0 ≤ allocated ≤ waterNeeded`. -/
theorem greedy_allocated_within_need
    (qsortB : List Field → List Field) (hB : IsQsort compareFields qsortB)
    (qsortG : List Greedy.Field → List Greedy.Field)
    (hG : IsQsort Greedy.compareFields qsortG)
    (dataB : IrrigationData) (hWB : 0 < dataB.totalWater)
    (hNB : ∀ f ∈ dataB.fields, 0 ≤ f.waterNeeded)
    (dataG : Greedy.IrrigationData) (hU : dataG.useTimeConstraints = 0)
    (hWG : 0 < dataG.totalWater) (hNG : ∀ f ∈ dataG.fields, 0 ≤ f.waterNeeded) :
    (∀ f ∈ (BruteForce.main qsortB dataB).fields,
      0 ≤ f.allocated ∧ f.allocated ≤ f.waterNeeded) ∧
    (∀ f ∈ (Greedy.scheduleIrrigation qsortG dataG).fields,
      0 ≤ f.allocated ∧ f.allocated ≤ f.waterNeeded) := by
  constructor
  · intro f hf
    have hf' : f ∈ BruteForce.priorityResult qsortB dataB :=
      (restoreOrder_perm _).mem_iff.1 hf
    exact (BruteForce.allocLoop_spec _ 0 dataB.totalWater (le_of_lt hWB)
      (resetFields_need _ (qsort_need qsortB hB _ hNB)) (resetFields_cleared _)).1 f hf'
  · intro f hf
    by_cases hn : dataG.fields = []
    · have : Greedy.scheduleIrrigation qsortG dataG = dataG := by
        simp [Greedy.scheduleIrrigation, hn]
      rw [this, hn] at hf
      simp at hf
    · rw [(Greedy.scheduleIrrigation_eq qsortG dataG hn (le_of_lt hWG)).1, hU] at hf
      have hp := Greedy.priorityFields_untimed qsortG hG dataG hU hNG
      exact (Greedy.allocLoop_untimed_spec _ _ (Greedy.startTotals dataG) (le_of_lt hWG)
        (fun g hg => (hp g hg).1) (fun g hg => (hp g hg).2)).1 f hf

/-- C2, on scenario 1 (`totalWater = 100`, fields `B`, `A`). -/
theorem greedy_allocated_within_need_witness :
    (0 < (100 : Int)) ∧ (∀ f ∈ fieldsBA, 0 ≤ f.waterNeeded) ∧
    (∀ f ∈ Greedy.fieldsBA, 0 ≤ f.waterNeeded) ∧
    ((∀ f ∈ (BruteForce.main (insertionSort compareFields) ⟨fieldsBA, 100, 0, 0⟩).fields,
      0 ≤ f.allocated ∧ f.allocated ≤ f.waterNeeded) ∧
    (∀ f ∈ (Greedy.scheduleIrrigation (insertionSort Greedy.compareFields)
        (Greedy.untimed Greedy.fieldsBA 100)).fields,
      0 ≤ f.allocated ∧ f.allocated ≤ f.waterNeeded)) :=
  ⟨by decide, by decide, by decide,
    greedy_allocated_within_need
      (insertionSort compareFields) (insertionSort_isQsort _ compareFields_total)
      (insertionSort Greedy.compareFields)
      (insertionSort_isQsort _ Greedy.compareFields_total_sched)
      ⟨fieldsBA, 100, 0, 0⟩ (by decide) (by decide)
      (Greedy.untimed Greedy.fieldsBA 100) rfl (by decide) (by decide)⟩

/-- C3: unconstrained greedy, both implementations: the allocations add up to
`totalWaterUsed`, which is at most `totalWater`, and `remainingWater` is
`totalWater - totalWaterUsed` and not negative. -/
theorem greedy_water_balance
    (qsortB : List Field → List Field) (hB : IsQsort compareFields qsortB)
    (qsortG : List Greedy.Field → List Greedy.Field)
    (hG : IsQsort Greedy.compareFields qsortG)
    (dataB : IrrigationData) (hWB : 0 < dataB.totalWater)
    (hNB : ∀ f ∈ dataB.fields, 0 ≤ f.waterNeeded)
    (dataG : Greedy.IrrigationData) (hU : dataG.useTimeConstraints = 0)
    (hWG : 0 < dataG.totalWater) (hCG : 1 ≤ dataG.fields.length)
    (hNG : ∀ f ∈ dataG.fields, 0 ≤ f.waterNeeded) :
    (((BruteForce.main qsortB dataB).fields.map Field.allocated).sum
        = (BruteForce.main qsortB dataB).totalWaterUsed ∧
      (BruteForce.main qsortB dataB).totalWaterUsed ≤ dataB.totalWater ∧
      (BruteForce.main qsortB dataB).remainingWater
        = dataB.totalWater - (BruteForce.main qsortB dataB).totalWaterUsed ∧
      0 ≤ (BruteForce.main qsortB dataB).remainingWater) ∧
    (((Greedy.scheduleIrrigation qsortG dataG).fields.map Greedy.Field.allocated).sum
        = (Greedy.scheduleIrrigation qsortG dataG).totalWaterUsed ∧
      (Greedy.scheduleIrrigation qsortG dataG).totalWaterUsed ≤ dataG.totalWater ∧
      (Greedy.scheduleIrrigation qsortG dataG).remainingWater
        = dataG.totalWater - (Greedy.scheduleIrrigation qsortG dataG).totalWaterUsed ∧
      0 ≤ (Greedy.scheduleIrrigation qsortG dataG).remainingWater) := by
  constructor
  · obtain ⟨_, b, c, d, e⟩ := BruteForce.allocLoop_spec _ 0 dataB.totalWater (le_of_lt hWB)
      (resetFields_need _ (qsort_need qsortB hB _ hNB)) (resetFields_cleared _)
    have hs : ((BruteForce.main qsortB dataB).fields.map Field.allocated).sum
        = ((BruteForce.allocLoop (resetFields (qsortB dataB.fields)) 0
            dataB.totalWater).1.map Field.allocated).sum :=
      ((restoreOrder_perm _).map Field.allocated).sum_eq
    rw [hs]
    simp only [BruteForce.main]
    omega
  · have hn : dataG.fields ≠ [] := by
      intro h; rw [h] at hCG; simp at hCG
    obtain ⟨e1, e2, _, e4, _, _, _⟩ := Greedy.scheduleIrrigation_eq qsortG dataG hn (le_of_lt hWG)
    have hp := Greedy.priorityFields_untimed qsortG hG dataG hU hNG
    obtain ⟨_, b, c, d, e⟩ := Greedy.allocLoop_untimed_spec (Greedy.loopRate dataG) _
      (Greedy.startTotals dataG) (le_of_lt hWG)
      (fun g hg => (hp g hg).1) (fun g hg => (hp g hg).2)
    rw [e1, e2, e4, hU]
    simp only [Greedy.startTotals] at b c d e ⊢
    omega

/-- C3, on scenario 1 (`totalWater = 100`, fields `B`, `A`). -/
theorem greedy_water_balance_witness :
    (0 < (100 : Int)) ∧ (∀ f ∈ fieldsBA, 0 ≤ f.waterNeeded) ∧
    (1 ≤ Greedy.fieldsBA.length) ∧ (∀ f ∈ Greedy.fieldsBA, 0 ≤ f.waterNeeded) ∧
    ((((BruteForce.main (insertionSort compareFields) ⟨fieldsBA, 100, 0, 0⟩).fields.map
          Field.allocated).sum
        = (BruteForce.main (insertionSort compareFields) ⟨fieldsBA, 100, 0, 0⟩).totalWaterUsed ∧
      (BruteForce.main (insertionSort compareFields) ⟨fieldsBA, 100, 0, 0⟩).totalWaterUsed
        ≤ 100 ∧
      (BruteForce.main (insertionSort compareFields) ⟨fieldsBA, 100, 0, 0⟩).remainingWater
        = 100 - (BruteForce.main (insertionSort compareFields)
            ⟨fieldsBA, 100, 0, 0⟩).totalWaterUsed ∧
      0 ≤ (BruteForce.main (insertionSort compareFields) ⟨fieldsBA, 100, 0, 0⟩).remainingWater) ∧
    (((Greedy.scheduleIrrigation (insertionSort Greedy.compareFields)
          (Greedy.untimed Greedy.fieldsBA 100)).fields.map Greedy.Field.allocated).sum
        = (Greedy.scheduleIrrigation (insertionSort Greedy.compareFields)
            (Greedy.untimed Greedy.fieldsBA 100)).totalWaterUsed ∧
      (Greedy.scheduleIrrigation (insertionSort Greedy.compareFields)
          (Greedy.untimed Greedy.fieldsBA 100)).totalWaterUsed ≤ 100 ∧
      (Greedy.scheduleIrrigation (insertionSort Greedy.compareFields)
          (Greedy.untimed Greedy.fieldsBA 100)).remainingWater
        = 100 - (Greedy.scheduleIrrigation (insertionSort Greedy.compareFields)
            (Greedy.untimed Greedy.fieldsBA 100)).totalWaterUsed ∧
      0 ≤ (Greedy.scheduleIrrigation (insertionSort Greedy.compareFields)
          (Greedy.untimed Greedy.fieldsBA 100)).remainingWater)) :=
  ⟨by decide, by decide, by decide, by decide,
    greedy_water_balance
      (insertionSort compareFields) (insertionSort_isQsort _ compareFields_total)
      (insertionSort Greedy.compareFields)
      (insertionSort_isQsort _ Greedy.compareFields_total_sched)
      ⟨fieldsBA, 100, 0, 0⟩ (by decide) (by decide)
      (Greedy.untimed Greedy.fieldsBA 100) rfl (by decide) (by decide) (by decide)⟩

/-- C4: unconstrained greedy of `brute_force_scheduler.c`, validated input: at most one
field ends with `0 < allocated < waterNeeded`; such a field sits at the first position of
the priority order whose need exceeds the water that remains when the loop reaches it. -/
theorem greedy_at_most_one_partial_field
    (qsort : List Field → List Field) (hq : IsQsort compareFields qsort)
    (data : IrrigationData) (hv : Validated data) :
    (BruteForce.main qsort data).fields.countP
        (fun f => decide (0 < f.allocated ∧ f.allocated < f.waterNeeded)) ≤ 1 ∧
    (∀ (k k' : Nat) (hk : k < (BruteForce.priorityResult qsort data).length)
        (hk' : k' < (BruteForce.priorityResult qsort data).length),
      ((BruteForce.priorityResult qsort data)[k]).isPartial →
      ((BruteForce.priorityResult qsort data)[k']).isPartial → k = k') ∧
    (∀ (k : Nat) (hk : k < (BruteForce.priorityResult qsort data).length),
      ((BruteForce.priorityResult qsort data)[k]).isPartial →
      BruteForce.remainingAt qsort data k
          < ((BruteForce.priorityResult qsort data)[k]).waterNeeded ∧
      ∀ (j : Nat) (hj : j < k),
        ((BruteForce.priorityResult qsort data)[j]).waterNeeded
          ≤ BruteForce.remainingAt qsort data j) := by
  have hfirst := BruteForce.allocLoop_partial_first (resetFields (qsort data.fields)) 0
    data.totalWater (resetFields_cleared _)
  have key : ∀ (k : Nat) (hk : k < (BruteForce.priorityResult qsort data).length),
      ((BruteForce.priorityResult qsort data)[k]).isPartial →
      BruteForce.remainingAt qsort data k
          < ((BruteForce.priorityResult qsort data)[k]).waterNeeded ∧
      ∀ (j : Nat) (hj : j < k),
        ((BruteForce.priorityResult qsort data)[j]).waterNeeded
          ≤ BruteForce.remainingAt qsort data j := by
    intro k hk hp
    exact hfirst k hk hp.1 hp.2
  refine ⟨?_, ?_, key⟩
  · have hc := BruteForce.allocLoop_countP (resetFields (qsort data.fields)) 0
      data.totalWater (resetFields_cleared _)
    have hperm : ((BruteForce.main qsort data).fields).Perm
        (BruteForce.allocLoop (resetFields (qsort data.fields)) 0 data.totalWater).1 :=
      restoreOrder_perm _
    rw [hperm.countP_eq]
    exact hc
  · intro k k' hk hk' hp hp'
    obtain ⟨a, b⟩ := key k hk hp
    obtain ⟨a', b'⟩ := key k' hk' hp'
    rcases Nat.lt_trichotomy k k' with h | h | h
    · have := b' k h; omega
    · exact h
    · have := b k' h; omega

/-- C4, on scenario 1 (`totalWater = 100`, fields `B`, `A`): `B` is the partially served
field. -/
theorem greedy_at_most_one_partial_field_witness :
    Validated ⟨fieldsBA, 100, 0, 0⟩ ∧
    ((BruteForce.main (insertionSort compareFields) ⟨fieldsBA, 100, 0, 0⟩).fields.countP
        (fun f => decide (0 < f.allocated ∧ f.allocated < f.waterNeeded)) ≤ 1 ∧
    (∀ (k k' : Nat)
        (hk : k < (BruteForce.priorityResult (insertionSort compareFields)
          ⟨fieldsBA, 100, 0, 0⟩).length)
        (hk' : k' < (BruteForce.priorityResult (insertionSort compareFields)
          ⟨fieldsBA, 100, 0, 0⟩).length),
      ((BruteForce.priorityResult (insertionSort compareFields)
        ⟨fieldsBA, 100, 0, 0⟩)[k]).isPartial →
      ((BruteForce.priorityResult (insertionSort compareFields)
        ⟨fieldsBA, 100, 0, 0⟩)[k']).isPartial → k = k') ∧
    (∀ (k : Nat)
        (hk : k < (BruteForce.priorityResult (insertionSort compareFields)
          ⟨fieldsBA, 100, 0, 0⟩).length),
      ((BruteForce.priorityResult (insertionSort compareFields)
        ⟨fieldsBA, 100, 0, 0⟩)[k]).isPartial →
      BruteForce.remainingAt (insertionSort compareFields) ⟨fieldsBA, 100, 0, 0⟩ k
          < ((BruteForce.priorityResult (insertionSort compareFields)
              ⟨fieldsBA, 100, 0, 0⟩)[k]).waterNeeded ∧
      ∀ (j : Nat) (hj : j < k),
        ((BruteForce.priorityResult (insertionSort compareFields)
            ⟨fieldsBA, 100, 0, 0⟩)[j]).waterNeeded
          ≤ BruteForce.remainingAt (insertionSort compareFields) ⟨fieldsBA, 100, 0, 0⟩ j)) :=
  ⟨by decide,
    greedy_at_most_one_partial_field (insertionSort compareFields)
      (insertionSort_isQsort _ compareFields_total) ⟨fieldsBA, 100, 0, 0⟩ (by decide)⟩

/-- C5: unconstrained greedy, both implementations, validated input: a field that is not
fully served is followed in the priority order only by fields with `allocated = 0` and
`scheduled = 0`.  With `totalWater = 5` and fields `A` (need 80), `B` (need 50) nothing is
allocated, although `5 ≥ 50 / 10`. -/
theorem greedy_hard_stop
    (qsortB : List Field → List Field) (hB : IsQsort compareFields qsortB)
    (qsortG : List Greedy.Field → List Greedy.Field)
    (hG : IsQsort Greedy.compareFields qsortG)
    (dataB : IrrigationData) (hvB : Validated dataB)
    (dataG : Greedy.IrrigationData) (hU : dataG.useTimeConstraints = 0)
    (hvG : Greedy.Validated dataG) :
    (∀ (k j : Nat) (hk : k < (BruteForce.priorityResult qsortB dataB).length)
        (hj : j < (BruteForce.priorityResult qsortB dataB).length), k < j →
      ((BruteForce.priorityResult qsortB dataB)[k]).allocated
        < ((BruteForce.priorityResult qsortB dataB)[k]).waterNeeded →
      ((BruteForce.priorityResult qsortB dataB)[j]).allocated = 0 ∧
      ((BruteForce.priorityResult qsortB dataB)[j]).scheduled = 0) ∧
    (∀ (k j : Nat) (hk : k < (Greedy.scheduleIrrigation qsortG dataG).fields.length)
        (hj : j < (Greedy.scheduleIrrigation qsortG dataG).fields.length), k < j →
      ((Greedy.scheduleIrrigation qsortG dataG).fields[k]).allocated
        < ((Greedy.scheduleIrrigation qsortG dataG).fields[k]).waterNeeded →
      ((Greedy.scheduleIrrigation qsortG dataG).fields[j]).allocated = 0 ∧
      ((Greedy.scheduleIrrigation qsortG dataG).fields[j]).scheduled = 0) ∧
    BruteForce.main (insertionSort compareFields) ⟨fieldsAB, 5, 0, 0⟩ = ⟨fieldsAB, 5, 0, 5⟩ ∧
    (Greedy.scheduleIrrigation (insertionSort Greedy.compareFields)
        (Greedy.untimed Greedy.fieldsAB 5)).fields = Greedy.fieldsAB ∧
    (5 : Int) ≥ (50 : Int).tdiv 10 := by
  refine ⟨?_, ?_, by decide, by decide, by decide⟩
  · have hp := BruteForce.allocLoop_hardstop (resetFields (qsortB dataB.fields)) 0
      dataB.totalWater (resetFields_cleared _)
    intro k j hk hj hkj
    exact (List.pairwise_iff_getElem.1 hp) k j hk hj hkj
  · have hn : dataG.fields ≠ [] := by
      intro h
      have := hvG.2.1
      rw [h] at this
      simp at this
    have he := (Greedy.scheduleIrrigation_eq qsortG dataG hn (le_of_lt hvG.1)).1
    have hpf := Greedy.priorityFields_untimed qsortG hG dataG hU
      (fun f hf => (hvG.2.2.2 f hf).2.2)
    have hp := Greedy.allocLoop_untimed_hardstop (Greedy.loopRate dataG)
      (Greedy.priorityFields qsortG dataG) (Greedy.startTotals dataG)
      (fun g hg => (hpf g hg).2)
    rw [hU] at he
    rw [he]
    intro k j hk hj hkj
    exact (List.pairwise_iff_getElem.1 hp) k j hk hj hkj

/-- C5, on scenario 1 (`totalWater = 100`, fields `B`, `A`). -/
theorem greedy_hard_stop_witness :
    Validated ⟨fieldsBA, 100, 0, 0⟩ ∧ Greedy.Validated (Greedy.untimed Greedy.fieldsBA 100) ∧
    (∀ (k j : Nat)
        (hk : k < (BruteForce.priorityResult (insertionSort compareFields)
          ⟨fieldsBA, 100, 0, 0⟩).length)
        (hj : j < (BruteForce.priorityResult (insertionSort compareFields)
          ⟨fieldsBA, 100, 0, 0⟩).length), k < j →
      ((BruteForce.priorityResult (insertionSort compareFields)
          ⟨fieldsBA, 100, 0, 0⟩)[k]).allocated
        < ((BruteForce.priorityResult (insertionSort compareFields)
          ⟨fieldsBA, 100, 0, 0⟩)[k]).waterNeeded →
      ((BruteForce.priorityResult (insertionSort compareFields)
          ⟨fieldsBA, 100, 0, 0⟩)[j]).allocated = 0 ∧
      ((BruteForce.priorityResult (insertionSort compareFields)
          ⟨fieldsBA, 100, 0, 0⟩)[j]).scheduled = 0) :=
  ⟨by decide, by decide,
    (greedy_hard_stop (insertionSort compareFields)
      (insertionSort_isQsort _ compareFields_total)
      (insertionSort Greedy.compareFields)
      (insertionSort_isQsort _ Greedy.compareFields_total_sched)
      ⟨fieldsBA, 100, 0, 0⟩ (by decide)
      (Greedy.untimed Greedy.fieldsBA 100) rfl (by decide)).1⟩

/-- C6: time-constrained greedy (`scheduleIrrigation` with `useTimeConstraints = 1`, positive
`totalWater`, `totalElectricity` and `waterDeliveryRate`, needs that are not negative): the
allocations add up to `totalWaterUsed ≤ totalWater`, `totalTimeUsed ≤ totalElectricity`,
both remaining budgets are the totals minus what was used and are not negative, every field
has `0 ≤ allocated ≤ waterNeeded`, and at every position of the priority order the water and
the time committed by the loop body lie within the budgets that remain at that moment. -/
theorem timed_greedy_within_budgets
    (qsort : List Greedy.Field → List Greedy.Field) (hq : IsQsort Greedy.compareFields qsort)
    (data : Greedy.IrrigationData) (hU : data.useTimeConstraints = 1)
    (hW : 0 < data.totalWater) (hE : 0 < data.totalElectricity)
    (hR : 0 < data.waterDeliveryRate) (hC : 1 ≤ data.fields.length)
    (hN : ∀ f ∈ data.fields, 0 ≤ f.waterNeeded) :
    ((Greedy.scheduleIrrigation qsort data).fields.map Greedy.Field.allocated).sum
        = (Greedy.scheduleIrrigation qsort data).totalWaterUsed ∧
    (Greedy.scheduleIrrigation qsort data).totalWaterUsed ≤ data.totalWater ∧
    (Greedy.scheduleIrrigation qsort data).totalTimeUsed ≤ data.totalElectricity ∧
    (Greedy.scheduleIrrigation qsort data).remainingWater
        = data.totalWater - (Greedy.scheduleIrrigation qsort data).totalWaterUsed ∧
    0 ≤ (Greedy.scheduleIrrigation qsort data).remainingWater ∧
    (Greedy.scheduleIrrigation qsort data).remainingElectricity
        = data.totalElectricity - (Greedy.scheduleIrrigation qsort data).totalTimeUsed ∧
    0 ≤ (Greedy.scheduleIrrigation qsort data).remainingElectricity ∧
    (∀ f ∈ (Greedy.scheduleIrrigation qsort data).fields,
      0 ≤ f.allocated ∧ f.allocated ≤ f.waterNeeded) ∧
    (∀ (k : Nat) (hk : k < (Greedy.priorityFields qsort data).length),
      0 ≤ (Greedy.timeStep data.waterDeliveryRate (Greedy.priorityFields qsort data)[k]
            (Greedy.totalsAt qsort data k)).2.remainingWater ∧
      (Greedy.timeStep data.waterDeliveryRate (Greedy.priorityFields qsort data)[k]
            (Greedy.totalsAt qsort data k)).2.remainingWater
        ≤ (Greedy.totalsAt qsort data k).remainingWater ∧
      0 ≤ (Greedy.timeStep data.waterDeliveryRate (Greedy.priorityFields qsort data)[k]
            (Greedy.totalsAt qsort data k)).2.remainingElectricity ∧
      (Greedy.timeStep data.waterDeliveryRate (Greedy.priorityFields qsort data)[k]
            (Greedy.totalsAt qsort data k)).2.remainingElectricity
        ≤ (Greedy.totalsAt qsort data k).remainingElectricity ∧
      Greedy.totalsAt qsort data (k + 1)
        = (Greedy.timeStep data.waterDeliveryRate (Greedy.priorityFields qsort data)[k]
            (Greedy.totalsAt qsort data k)).2) := by
  have hu : data.useTimeConstraints ≠ 0 := by rw [hU]; decide
  have hn : data.fields ≠ [] := by
    intro h; rw [h] at hC; simp at hC
  have hrate := Greedy.loopRate_timed data hu hR
  obtain ⟨e1, e2, e3, e4, e5, _, _⟩ := Greedy.scheduleIrrigation_eq qsort data hn (le_of_lt hW)
  have hp := Greedy.priorityFields_timed qsort hq data hu hN
  have hp' : ∀ f ∈ Greedy.priorityFields qsort data,
      0 ≤ f.waterNeeded ∧ 0 ≤ f.timeNeeded ∧ f.allocated = 0 :=
    fun f hf => ⟨(hp f hf).1, (hp f hf).2.1, (hp f hf).2.2.1⟩
  obtain ⟨a, b, c, d, e, g, i⟩ := Greedy.allocLoop_time_spec data.useTimeConstraints
    data.waterDeliveryRate hu hR (Greedy.priorityFields qsort data) (Greedy.startTotals data)
    (le_of_lt hW) (le_of_lt hE) hp'
  rw [e1, e2, e3, e4, e5, hrate]
  have h0 : (Greedy.startTotals data).totalWaterUsed = 0 := rfl
  have h1 : (Greedy.startTotals data).remainingWater = data.totalWater := rfl
  have h2 : (Greedy.startTotals data).remainingElectricity = data.totalElectricity := rfl
  have h3 : (Greedy.startTotals data).totalTimeUsed = 0 := rfl
  rw [h0] at b i
  rw [h0, h1] at c
  rw [h2, h3] at g
  refine ⟨by omega, by omega, by omega, by omega, d, by omega, e, a, ?_⟩
  intro k hk
  have hpre : ∀ f ∈ (Greedy.priorityFields qsort data).take k,
      0 ≤ f.waterNeeded ∧ 0 ≤ f.timeNeeded ∧ f.allocated = 0 :=
    fun f hf => hp' f (List.mem_of_mem_take hf)
  obtain ⟨_, _, _, d', e', _, _⟩ := Greedy.allocLoop_time_spec data.useTimeConstraints
    data.waterDeliveryRate hu hR ((Greedy.priorityFields qsort data).take k)
    (Greedy.startTotals data) (le_of_lt hW) (le_of_lt hE) hpre
  have hk' := hp' _ (List.getElem_mem (l := Greedy.priorityFields qsort data) (n := k) hk)
  have hstep := (Greedy.allocLoop_time_getElem data.useTimeConstraints data.waterDeliveryRate hu
    (Greedy.priorityFields qsort data) (Greedy.startTotals data) k hk).2
  unfold Greedy.totalsAt
  rw [hrate]
  obtain ⟨s1, s2, s3, s4, s5, s6, s7, s8, s9⟩ := Greedy.timeStep_bounds data.waterDeliveryRate
    ((Greedy.priorityFields qsort data)[k])
    (Greedy.allocLoop data.useTimeConstraints data.waterDeliveryRate
      ((Greedy.priorityFields qsort data).take k) (Greedy.startTotals data)).2
    hR hk'.1 hk'.2.1 hk'.2.2 d' e'
  exact ⟨by omega, by omega, s7, s8, hstep⟩

/-- C6, on scenario 3 (`totalWater = 100`, rate 50, `totalElectricity = 1`, one field of
need 100). -/
theorem timed_greedy_within_budgets_witness :
    ((Greedy.scheduleIrrigation (insertionSort Greedy.compareFields)
        (Greedy.timed [⟨"C", 0, 100, 0, 0, 0⟩] 100 1 50)).fields.map
        Greedy.Field.allocated).sum = 50 ∧
    (Greedy.scheduleIrrigation (insertionSort Greedy.compareFields)
        (Greedy.timed [⟨"C", 0, 100, 0, 0, 0⟩] 100 1 50)).totalWaterUsed = 50 ∧
    (Greedy.scheduleIrrigation (insertionSort Greedy.compareFields)
        (Greedy.timed [⟨"C", 0, 100, 0, 0, 0⟩] 100 1 50)).totalTimeUsed = 1 ∧
    ((Greedy.scheduleIrrigation (insertionSort Greedy.compareFields)
        (Greedy.timed [⟨"C", 0, 100, 0, 0, 0⟩] 100 1 50)).fields.map
        Greedy.Field.allocated).sum
      = (Greedy.scheduleIrrigation (insertionSort Greedy.compareFields)
        (Greedy.timed [⟨"C", 0, 100, 0, 0, 0⟩] 100 1 50)).totalWaterUsed :=
  ⟨by decide, by decide, by decide,
    (timed_greedy_within_budgets (insertionSort Greedy.compareFields)
      (insertionSort_isQsort _ Greedy.compareFields_total_sched)
      (Greedy.timed [⟨"C", 0, 100, 0, 0, 0⟩] 100 1 50) rfl (by decide) (by decide) (by decide)
      (by decide) (by decide)).1⟩

/-- C7: time-constrained greedy has no early exit.  For a validated input with positive
`totalElectricity` and `waterDeliveryRate` on which `floor(waterNeeded / 10) + rate - 1` is
an `int` for every field, the field at position `k` of the priority order is marked scheduled
exactly when the budgets that remain when the loop reaches it satisfy
`remainingWater ≥ floor(waterNeeded / 10)` and
`remainingElectricity ≥ ceil(floor(waterNeeded / 10) / rate)`; a field that fails the test
is left as it was, leaves both budgets as they were, and the loop goes on to position
`k + 1`: the result has one record per field.  With `totalWater = 5`, ample electricity and
fields `A` (need 80), `B` (need 50), `A` is skipped and `B` receives 5.  With rate `INT_MAX`,
`totalElectricity = 1` and fields `P` (need 5), `Q` (need 20) the sum
`2 + INT_MAX - 1` wraps, the machine's `minTime` for `Q` is `-1`, and `Q` is marked scheduled
with no electricity left, although `ceil(2 / INT_MAX) = 1 > 0`. -/
theorem timed_greedy_no_early_exit
    (qsort : List Greedy.Field → List Greedy.Field) (hq : IsQsort Greedy.compareFields qsort)
    (data : Greedy.IrrigationData) (hU : data.useTimeConstraints = 1)
    (hv : Greedy.Validated data) (hE : 0 < data.totalElectricity)
    (hR : 0 < data.waterDeliveryRate)
    (hrange : ∀ f ∈ data.fields,
      f.waterNeeded.tdiv 10 + data.waterDeliveryRate - 1 ≤ INT_MAX) :
    (Greedy.Machine.scheduleIrrigation qsort data).fields.length = data.fields.length ∧
    (∀ (k : Nat) (hk : k < (Greedy.Machine.priorityFields qsort data).length)
        (hk' : k < (Greedy.Machine.scheduleIrrigation qsort data).fields.length),
      (((Greedy.Machine.scheduleIrrigation qsort data).fields[k]).scheduled = 1 ↔
        (⌊(((Greedy.Machine.priorityFields qsort data)[k]).waterNeeded : ℚ) / 10⌋
            ≤ (Greedy.Machine.totalsAt qsort data k).remainingWater ∧
          ⌈((⌊(((Greedy.Machine.priorityFields qsort data)[k]).waterNeeded : ℚ) / 10⌋ : Int) : ℚ)
              / (data.waterDeliveryRate : ℚ)⌉
            ≤ (Greedy.Machine.totalsAt qsort data k).remainingElectricity)) ∧
      (((Greedy.Machine.scheduleIrrigation qsort data).fields[k]).scheduled ≠ 1 →
        (Greedy.Machine.scheduleIrrigation qsort data).fields[k]
          = (Greedy.Machine.priorityFields qsort data)[k] ∧
        Greedy.Machine.totalsAt qsort data (k + 1) = Greedy.Machine.totalsAt qsort data k)) ∧
    Greedy.Machine.scheduleIrrigation (insertionSort Greedy.compareFields)
        (Greedy.timed Greedy.fieldsAB 5 1000 50) =
      { fields := [⟨"A", 10, 80, 2, 0, 0⟩, ⟨"B", 50, 50, 1, 5, 1⟩]
        totalWater := 5, totalElectricity := 1000, waterDeliveryRate := 50
        totalWaterUsed := 5, totalTimeUsed := 1, remainingWater := 0
        remainingElectricity := 999, useTimeConstraints := 1 } ∧
    (Greedy.Validated (Greedy.timed Greedy.fieldsPQ 100 1 2147483647) ∧
      Greedy.Machine.priorityFields (insertionSort Greedy.compareFields)
          (Greedy.timed Greedy.fieldsPQ 100 1 2147483647)
        = [⟨"P", 10, 5, 1, 0, 0⟩, ⟨"Q", 50, 20, 1, 0, 0⟩] ∧
      (Greedy.Machine.totalsAt (insertionSort Greedy.compareFields)
          (Greedy.timed Greedy.fieldsPQ 100 1 2147483647) 1).remainingElectricity = 0 ∧
      (Greedy.Machine.scheduleIrrigation (insertionSort Greedy.compareFields)
          (Greedy.timed Greedy.fieldsPQ 100 1 2147483647)).fields
        = [⟨"P", 10, 5, 1, 5, 1⟩, ⟨"Q", 50, 20, 1, 0, 1⟩] ∧
      ¬ (⌈((⌊((20 : Int) : ℚ) / 10⌋ : Int) : ℚ) / ((2147483647 : Int) : ℚ)⌉ ≤ (0 : Int))) := by
  have hu : data.useTimeConstraints ≠ 0 := by rw [hU]; decide
  have hn : data.fields ≠ [] := by
    intro h
    have := hv.2.1
    rw [h] at this
    simp at this
  have hrate := Greedy.Machine.machine_loopRate_timed data hu hR
  have e1 := Greedy.Machine.machine_scheduleIrrigation_fields qsort data hn (le_of_lt hv.1)
  have hp := Greedy.Machine.machine_priorityFields_mem qsort hq data
  have hlen := Greedy.Machine.machine_priorityFields_length qsort hq data
  refine ⟨?_, ?_, by decide, by decide, by decide, by decide, by decide, ?_⟩
  · rw [e1, Greedy.Machine.machine_allocLoop_length _ _ hu, hlen]
  · intro k hk hk'
    obtain ⟨g1, g2⟩ := Greedy.Machine.machine_allocLoop_getElem data.useTimeConstraints
      data.waterDeliveryRate hu (Greedy.Machine.priorityFields qsort data)
      (Greedy.startTotals data) k hk
    have hget : (Greedy.Machine.scheduleIrrigation qsort data).fields[k]
        = (Greedy.Machine.timeStep data.waterDeliveryRate
            (Greedy.Machine.priorityFields qsort data)[k]
            (Greedy.Machine.totalsAt qsort data k)).1 := by
      have h1 : (Greedy.Machine.scheduleIrrigation qsort data).fields[k]?
          = some ((Greedy.Machine.scheduleIrrigation qsort data).fields[k]) :=
        List.getElem?_eq_getElem hk'
      have h2 : (Greedy.Machine.scheduleIrrigation qsort data).fields[k]?
          = some (Greedy.Machine.timeStep data.waterDeliveryRate
            (Greedy.Machine.priorityFields qsort data)[k]
            (Greedy.Machine.totalsAt qsort data k)).1 := by
        rw [e1, hrate]
        unfold Greedy.Machine.totalsAt
        rw [hrate]
        exact g1
      rw [h1] at h2
      exact Option.some.inj h2
    obtain ⟨g, hg, hgn, _, hgs⟩ := hp _
      (List.getElem_mem (l := Greedy.Machine.priorityFields qsort data) (n := k) hk)
    have hiff := Greedy.Machine.machine_timeStep_scheduled_iff data.waterDeliveryRate
      ((Greedy.Machine.priorityFields qsort data)[k]) (Greedy.Machine.totalsAt qsort data k) hgs
    have hadm := Greedy.Machine.machine_admitted_iff data.waterDeliveryRate
      ((Greedy.Machine.priorityFields qsort data)[k]) (Greedy.Machine.totalsAt qsort data k) hR
      (by rw [hgn]; exact (hv.2.2.2 g hg).2.2) (by rw [hgn]; exact hrange g hg)
    rw [hget]
    refine ⟨hiff.trans hadm, ?_⟩
    intro hns
    have hna : ¬ Greedy.Machine.Admitted data.waterDeliveryRate
        ((Greedy.Machine.priorityFields qsort data)[k])
        (Greedy.Machine.totalsAt qsort data k) := fun h => hns (hiff.2 h)
    have hskip := Greedy.Machine.machine_timeStep_skip _ _ _ hna
    refine ⟨by rw [hskip], ?_⟩
    have : Greedy.Machine.totalsAt qsort data (k + 1)
        = (Greedy.Machine.timeStep data.waterDeliveryRate
            (Greedy.Machine.priorityFields qsort data)[k]
            (Greedy.Machine.totalsAt qsort data k)).2 := by
      unfold Greedy.Machine.totalsAt
      rw [hrate]
      exact g2
    rw [this, hskip]
  · rw [not_le, Int.lt_ceil]
    norm_num

/-- C7, on the input of the claim (`totalWater = 5`, `totalElectricity = 1000`, rate 50,
fields `A`, `B`). -/
theorem timed_greedy_no_early_exit_witness :
    Greedy.Validated (Greedy.timed Greedy.fieldsAB 5 1000 50) ∧
    (∀ f ∈ (Greedy.timed Greedy.fieldsAB 5 1000 50).fields,
      f.waterNeeded.tdiv 10 + (Greedy.timed Greedy.fieldsAB 5 1000 50).waterDeliveryRate - 1
        ≤ INT_MAX) ∧
    (Greedy.Machine.scheduleIrrigation (insertionSort Greedy.compareFields)
        (Greedy.timed Greedy.fieldsAB 5 1000 50)).fields.length
      = (Greedy.timed Greedy.fieldsAB 5 1000 50).fields.length ∧
    (∀ (k : Nat)
        (hk : k < (Greedy.Machine.priorityFields (insertionSort Greedy.compareFields)
          (Greedy.timed Greedy.fieldsAB 5 1000 50)).length)
        (hk' : k < (Greedy.Machine.scheduleIrrigation (insertionSort Greedy.compareFields)
          (Greedy.timed Greedy.fieldsAB 5 1000 50)).fields.length),
      (((Greedy.Machine.scheduleIrrigation (insertionSort Greedy.compareFields)
          (Greedy.timed Greedy.fieldsAB 5 1000 50)).fields[k]).scheduled = 1 ↔
        (⌊(((Greedy.Machine.priorityFields (insertionSort Greedy.compareFields)
              (Greedy.timed Greedy.fieldsAB 5 1000 50))[k]).waterNeeded : ℚ) / 10⌋
            ≤ (Greedy.Machine.totalsAt (insertionSort Greedy.compareFields)
              (Greedy.timed Greedy.fieldsAB 5 1000 50) k).remainingWater ∧
          ⌈((⌊(((Greedy.Machine.priorityFields (insertionSort Greedy.compareFields)
              (Greedy.timed Greedy.fieldsAB 5 1000 50))[k]).waterNeeded : ℚ) / 10⌋ : Int) : ℚ)
              / ((Greedy.timed Greedy.fieldsAB 5 1000 50).waterDeliveryRate : ℚ)⌉
            ≤ (Greedy.Machine.totalsAt (insertionSort Greedy.compareFields)
              (Greedy.timed Greedy.fieldsAB 5 1000 50) k).remainingElectricity)) ∧
      (((Greedy.Machine.scheduleIrrigation (insertionSort Greedy.compareFields)
          (Greedy.timed Greedy.fieldsAB 5 1000 50)).fields[k]).scheduled ≠ 1 →
        (Greedy.Machine.scheduleIrrigation (insertionSort Greedy.compareFields)
            (Greedy.timed Greedy.fieldsAB 5 1000 50)).fields[k]
          = (Greedy.Machine.priorityFields (insertionSort Greedy.compareFields)
            (Greedy.timed Greedy.fieldsAB 5 1000 50))[k] ∧
        Greedy.Machine.totalsAt (insertionSort Greedy.compareFields)
            (Greedy.timed Greedy.fieldsAB 5 1000 50) (k + 1)
          = Greedy.Machine.totalsAt (insertionSort Greedy.compareFields)
            (Greedy.timed Greedy.fieldsAB 5 1000 50) k)) :=
  ⟨by decide, by decide,
    (timed_greedy_no_early_exit (insertionSort Greedy.compareFields)
      (insertionSort_isQsort _ Greedy.compareFields_total_sched)
      (Greedy.timed Greedy.fieldsAB 5 1000 50) rfl (by decide) (by decide) (by decide)
      (by decide)).1,
    (timed_greedy_no_early_exit (insertionSort Greedy.compareFields)
      (insertionSort_isQsort _ Greedy.compareFields_total_sched)
      (Greedy.timed Greedy.fieldsAB 5 1000 50) rfl (by decide) (by decide) (by decide)
      (by decide)).2.1⟩

/-- C9: the order restoration of `brute_force_scheduler.c` and `dp_scheduler.c`, applied to
at most `MAX_FIELDS` records with pairwise distinct `originalIndex`, returns the same
records, each one unchanged, arranged with `originalIndex` strictly increasing. -/
theorem restoreOrder_sorts (fields : List Field) (hn : fields.length ≤ MAX_FIELDS)
    (hd : (fields.map Field.originalIndex).Nodup) :
    (restoreOrder fields).Perm fields ∧
    (restoreOrder fields).Pairwise (fun a b => a.originalIndex < b.originalIndex) :=
  ⟨restoreOrder_perm fields, restoreOrder_strict fields hd⟩

/-- C9, on three records in the order of their `originalIndex` 2, 0, 1. -/
theorem restoreOrder_sorts_witness :
    ([(⟨"c", 30, 5, 5, 1, 2⟩ : Field), ⟨"a", 10, 8, 8, 1, 0⟩, ⟨"b", 20, 7, 0, 0, 1⟩].map
        Field.originalIndex).Nodup ∧
    restoreOrder [(⟨"c", 30, 5, 5, 1, 2⟩ : Field), ⟨"a", 10, 8, 8, 1, 0⟩, ⟨"b", 20, 7, 0, 0, 1⟩]
      = [⟨"a", 10, 8, 8, 1, 0⟩, ⟨"b", 20, 7, 0, 0, 1⟩, ⟨"c", 30, 5, 5, 1, 2⟩] ∧
    ((restoreOrder
        [(⟨"c", 30, 5, 5, 1, 2⟩ : Field), ⟨"a", 10, 8, 8, 1, 0⟩, ⟨"b", 20, 7, 0, 0, 1⟩]).Perm
        [(⟨"c", 30, 5, 5, 1, 2⟩ : Field), ⟨"a", 10, 8, 8, 1, 0⟩, ⟨"b", 20, 7, 0, 0, 1⟩] ∧
      (restoreOrder
        [(⟨"c", 30, 5, 5, 1, 2⟩ : Field), ⟨"a", 10, 8, 8, 1, 0⟩, ⟨"b", 20, 7, 0, 0, 1⟩]).Pairwise
        (fun a b => a.originalIndex < b.originalIndex)) :=
  ⟨by decide, by decide,
    restoreOrder_sorts
      [(⟨"c", 30, 5, 5, 1, 2⟩ : Field), ⟨"a", 10, 8, 8, 1, 0⟩, ⟨"b", 20, 7, 0, 0, 1⟩]
      (by decide) (by decide)⟩

/-- C10: the comparator `compareFields` (the same in the three programs).  For fields with
moisture in `0 .. 100` and needs that are not negative, `compareFields a b < 0` exactly when
`a` is drier than `b`, or as dry and needing more; `compareFields a b = 0` exactly when both
keys are equal; and the sign of `compareFields a b` is the opposite of the sign of
`compareFields b a`.  Hence an array sorted with it by `qsort` is a rearrangement of the
input in which moisture ascends and, at equal moisture, `waterNeeded` descends. -/
theorem compareFields_priority_order :
    (∀ a b : Field,
      (0 ≤ a.moisture ∧ a.moisture ≤ 100 ∧ 0 ≤ a.waterNeeded) →
      (0 ≤ b.moisture ∧ b.moisture ≤ 100 ∧ 0 ≤ b.waterNeeded) →
      (compareFields a b < 0 ↔
        a.moisture < b.moisture ∨
          (a.moisture = b.moisture ∧ a.waterNeeded > b.waterNeeded)) ∧
      (compareFields a b = 0 ↔
        a.moisture = b.moisture ∧ a.waterNeeded = b.waterNeeded) ∧
      Int.sign (compareFields a b) = - Int.sign (compareFields b a)) ∧
    (∀ a b : Greedy.Field,
      (0 ≤ a.moisture ∧ a.moisture ≤ 100 ∧ 0 ≤ a.waterNeeded) →
      (0 ≤ b.moisture ∧ b.moisture ≤ 100 ∧ 0 ≤ b.waterNeeded) →
      (Greedy.compareFields a b < 0 ↔
        a.moisture < b.moisture ∨
          (a.moisture = b.moisture ∧ a.waterNeeded > b.waterNeeded)) ∧
      (Greedy.compareFields a b = 0 ↔
        a.moisture = b.moisture ∧ a.waterNeeded = b.waterNeeded) ∧
      Int.sign (Greedy.compareFields a b) = - Int.sign (Greedy.compareFields b a)) ∧
    (∀ (qsort : List Field → List Field), IsQsort compareFields qsort →
      ∀ l : List Field,
        (∀ f ∈ l, 0 ≤ f.moisture ∧ f.moisture ≤ 100 ∧ 0 ≤ f.waterNeeded) →
        (qsort l).Perm l ∧
        (qsort l).Pairwise (fun a b =>
          a.moisture < b.moisture ∨
            (a.moisture = b.moisture ∧ a.waterNeeded ≥ b.waterNeeded))) ∧
    (∀ (qsort : List Greedy.Field → List Greedy.Field), IsQsort Greedy.compareFields qsort →
      ∀ l : List Greedy.Field,
        (∀ f ∈ l, 0 ≤ f.moisture ∧ f.moisture ≤ 100 ∧ 0 ≤ f.waterNeeded) →
        (qsort l).Perm l ∧
        (qsort l).Pairwise (fun a b =>
          a.moisture < b.moisture ∨
            (a.moisture = b.moisture ∧ a.waterNeeded ≥ b.waterNeeded))) := by
  refine ⟨?_, ?_, ?_, ?_⟩
  · intro a b _ _
    have hneg : compareFields b a = - compareFields a b := by
      unfold compareFields
      split_ifs <;> omega
    refine ⟨?_, ?_, ?_⟩
    · unfold compareFields
      split_ifs <;> omega
    · unfold compareFields
      split_ifs <;> omega
    · rw [hneg, Int.sign_neg, neg_neg]
  · intro a b _ _
    have hneg : Greedy.compareFields b a = - Greedy.compareFields a b := by
      unfold Greedy.compareFields
      split_ifs <;> omega
    refine ⟨?_, ?_, ?_⟩
    · unfold Greedy.compareFields
      split_ifs <;> omega
    · unfold Greedy.compareFields
      split_ifs <;> omega
    · rw [hneg, Int.sign_neg, neg_neg]
  · intro qsort hq l _
    exact ⟨(hq l).1, qsort_pairwise qsort hq l⟩
  · intro qsort hq l _
    exact ⟨(hq l).1, Greedy.qsort_pairwise_sched qsort hq l⟩

/-- C10, on the fields `A` (moisture 10, need 80) and `B` (moisture 50, need 50). -/
theorem compareFields_priority_order_witness :
    compareFields ⟨"A", 10, 80, 0, 0, 0⟩ ⟨"B", 50, 50, 0, 0, 1⟩ = -40 ∧
    (compareFields ⟨"A", 10, 80, 0, 0, 0⟩ ⟨"B", 50, 50, 0, 0, 1⟩ < 0 ↔
      (10 : Int) < 50 ∨ ((10 : Int) = 50 ∧ (80 : Int) > 50)) ∧
    insertionSort compareFields fieldsBA
      = [⟨"A", 10, 80, 0, 0, 1⟩, ⟨"B", 50, 50, 0, 0, 0⟩] ∧
    ((insertionSort compareFields fieldsBA).Perm fieldsBA ∧
      (insertionSort compareFields fieldsBA).Pairwise (fun a b =>
        a.moisture < b.moisture ∨
          (a.moisture = b.moisture ∧ a.waterNeeded ≥ b.waterNeeded))) :=
  ⟨by decide,
    (compareFields_priority_order.1 ⟨"A", 10, 80, 0, 0, 0⟩ ⟨"B", 50, 50, 0, 0, 1⟩
      (by decide) (by decide)).1,
    by decide,
    compareFields_priority_order.2.2.1 (insertionSort compareFields)
      (insertionSort_isQsort _ compareFields_total) fieldsBA (by decide)⟩

/-- C11, the claim fails: the fields `X` and `Y` have the same moisture and the same need and
`X` comes first in the input; `compareFields` returns `0` for them in both directions, and
`unstableSort`, which meets the contract of `qsort`, puts `Y` first, so that the allocation
loop of `brute_force_scheduler.c` serves `Y` (`originalIndex` 1) before `X`
(`originalIndex` 0). -/
theorem tie_order_not_input_order :
    IsQsort compareFields (unstableSort compareFields) ∧
    unstableSort compareFields fieldsXY
      = [⟨"Y", 10, 50, 0, 0, 1⟩, ⟨"X", 10, 50, 0, 0, 0⟩] ∧
    compareFields ⟨"X", 10, 50, 0, 0, 0⟩ ⟨"Y", 10, 50, 0, 0, 1⟩ = 0 ∧
    compareFields ⟨"Y", 10, 50, 0, 0, 1⟩ ⟨"X", 10, 50, 0, 0, 0⟩ = 0 ∧
    (BruteForce.priorityResult (unstableSort compareFields) ⟨fieldsXY, 60, 0, 0⟩).map
        (fun f => (f.originalIndex, f.allocated)) = [(1, 50), (0, 10)] :=
  ⟨unstableSort_isQsort _ compareFields_total, by decide, by decide, by decide, by decide⟩

/-- C11 as amended: the priority order has two keys only.  For two fields with equal
moisture and equal `waterNeeded`, `compareFields` returns `0` in both directions whatever
their `originalIndex`, and each of the two arrangements of the pair is the result of a
sorting function that meets the contract of `qsort`; the same holds for the comparator of
`greedy_scheduler.c`. -/
theorem tie_order_left_open :
    (∀ a b : Field, a.moisture = b.moisture → a.waterNeeded = b.waterNeeded →
      compareFields a b = 0 ∧ compareFields b a = 0 ∧
      (∃ q : List Field → List Field, IsQsort compareFields q ∧ q [a, b] = [a, b]) ∧
      (∃ q : List Field → List Field, IsQsort compareFields q ∧ q [a, b] = [b, a])) ∧
    (∀ a b : Greedy.Field, a.moisture = b.moisture → a.waterNeeded = b.waterNeeded →
      Greedy.compareFields a b = 0 ∧ Greedy.compareFields b a = 0 ∧
      (∃ q : List Greedy.Field → List Greedy.Field,
        IsQsort Greedy.compareFields q ∧ q [a, b] = [a, b]) ∧
      (∃ q : List Greedy.Field → List Greedy.Field,
        IsQsort Greedy.compareFields q ∧ q [a, b] = [b, a])) := by
  constructor
  · intro a b hm hn
    have h1 : compareFields a b = 0 := by
      unfold compareFields; split_ifs <;> omega
    have h2 : compareFields b a = 0 := by
      unfold compareFields; split_ifs <;> omega
    refine ⟨h1, h2, ⟨insertionSort compareFields,
      insertionSort_isQsort _ compareFields_total, ?_⟩,
      ⟨unstableSort compareFields, unstableSort_isQsort _ compareFields_total, ?_⟩⟩
    · simp [insertionSort, orderedInsert, h1]
    · simp [unstableSort, insertionSort, orderedInsert, h2]
  · intro a b hm hn
    have h1 : Greedy.compareFields a b = 0 := by
      unfold Greedy.compareFields; split_ifs <;> omega
    have h2 : Greedy.compareFields b a = 0 := by
      unfold Greedy.compareFields; split_ifs <;> omega
    refine ⟨h1, h2, ⟨insertionSort Greedy.compareFields,
      insertionSort_isQsort _ Greedy.compareFields_total_sched, ?_⟩,
      ⟨unstableSort Greedy.compareFields,
        unstableSort_isQsort _ Greedy.compareFields_total_sched, ?_⟩⟩
    · simp [insertionSort, orderedInsert, h1]
    · simp [unstableSort, insertionSort, orderedInsert, h2]

/-- C11 as amended, on the fields `X` and `Y`. -/
theorem tie_order_left_open_witness :
    ((10 : Int) = 10) ∧ ((50 : Int) = 50) ∧
    (compareFields ⟨"X", 10, 50, 0, 0, 0⟩ ⟨"Y", 10, 50, 0, 0, 1⟩ = 0 ∧
      compareFields ⟨"Y", 10, 50, 0, 0, 1⟩ ⟨"X", 10, 50, 0, 0, 0⟩ = 0 ∧
      (∃ q : List Field → List Field, IsQsort compareFields q ∧
        q [⟨"X", 10, 50, 0, 0, 0⟩, ⟨"Y", 10, 50, 0, 0, 1⟩]
          = [⟨"X", 10, 50, 0, 0, 0⟩, ⟨"Y", 10, 50, 0, 0, 1⟩]) ∧
      (∃ q : List Field → List Field, IsQsort compareFields q ∧
        q [⟨"X", 10, 50, 0, 0, 0⟩, ⟨"Y", 10, 50, 0, 0, 1⟩]
          = [⟨"Y", 10, 50, 0, 0, 1⟩, ⟨"X", 10, 50, 0, 0, 0⟩])) :=
  ⟨rfl, rfl,
    tie_order_left_open.1 ⟨"X", 10, 50, 0, 0, 0⟩ ⟨"Y", 10, 50, 0, 0, 1⟩ rfl rfl⟩

/-- C12: DP backtracking consistency, whatever the value arithmetic.  For every validated
input as `parseInput` stores it, with every need at most `INT_MAX - 9` and a budget below
`INT_MAX`, the run has a result; the walk along the parent pointers from
`(fieldCount, best_w)` ends with `current_w = 0`, and in the record handed to
`generateOutput` `totalWaterUsed` is `best_w`, is the sum of `allocated`, is at most
`totalWater`, and `remainingWater = totalWater - totalWaterUsed ≥ 0`.  With a need of
`INT_MAX`, which is a validated input, the run has no result. -/
theorem dp_backtrack_consistent (ar : Dp.Arith)
    (qsort : List Field → List Field) (hq : IsQsort compareFields qsort)
    (data : IrrigationData) (hv : Validated data) (hfresh : FreshlyParsed data.fields)
    (hneed : ∀ f ∈ data.fields, f.waterNeeded + 9 ≤ INT_MAX)
    (hmax : data.totalWater < INT_MAX) :
    (∃ b out, Dp.Machine.best ar (qsort data.fields) data.totalWater = some b ∧
      Dp.Machine.main ar qsort data = some out ∧
      Dp.backtrackWater (qsort data.fields)
          (fun i w => (Dp.Machine.table ar (qsort data.fields) i w).2)
          (qsort data.fields).length b.1 = 0 ∧
      out.totalWaterUsed = b.1 ∧
      (out.fields.map Field.allocated).sum = out.totalWaterUsed ∧
      out.totalWaterUsed ≤ data.totalWater ∧
      out.remainingWater = data.totalWater - out.totalWaterUsed ∧
      0 ≤ out.remainingWater) ∧
    (Validated ⟨fieldsH, 10, 0, 0⟩ ∧ FreshlyParsed fieldsH ∧
      Dp.Machine.main Dp.floatArith (insertionSort compareFields) ⟨fieldsH, 10, 0, 0⟩
        = none) := by
  obtain ⟨m1, m2, m3, m4, m5⟩ :=
    Dp.Machine.machine_main_spec ar qsort hq data hv hfresh hneed hmax
  have hzero : ∀ f ∈ qsort data.fields, f.allocated = 0 :=
    fun f hf => (hfresh.1 f ((hq data.fields).1.mem_iff.1 hf)).1
  refine ⟨⟨_, _, m2, m1, ?_, rfl, ?_, m5, rfl, ?_⟩, by decide, ⟨by decide, by decide⟩,
    by decide⟩
  · rw [Dp.backtrackWater_eq _ _ hzero, m4]
    omega
  · show ((restoreOrder _).map Field.allocated).sum = _
    rw [((restoreOrder_perm _).map Field.allocated).sum_eq, m4]
  · show 0 ≤ data.totalWater - _
    omega

/-- C12, on scenario 4 (`totalWater = 10`, one field of moisture 0 and need 10) in `float`
arithmetic. -/
theorem dp_backtrack_consistent_witness :
    Validated ⟨fieldsD, 10, 0, 0⟩ ∧ FreshlyParsed fieldsD ∧
    (∀ f ∈ fieldsD, f.waterNeeded + 9 ≤ INT_MAX) ∧ (10 : Int) < INT_MAX ∧
    (∃ b out, Dp.Machine.best Dp.floatArith (insertionSort compareFields fieldsD) 10 = some b ∧
      Dp.Machine.main Dp.floatArith (insertionSort compareFields) ⟨fieldsD, 10, 0, 0⟩
        = some out ∧
      Dp.backtrackWater (insertionSort compareFields fieldsD)
          (fun i w => (Dp.Machine.table Dp.floatArith (insertionSort compareFields fieldsD)
            i w).2) (insertionSort compareFields fieldsD).length b.1 = 0 ∧
      out.totalWaterUsed = b.1 ∧
      (out.fields.map Field.allocated).sum = out.totalWaterUsed ∧
      out.totalWaterUsed ≤ 10 ∧
      out.remainingWater = 10 - out.totalWaterUsed ∧
      0 ≤ out.remainingWater) :=
  ⟨by decide, ⟨by decide, by decide⟩, by decide, by decide,
    (dp_backtrack_consistent Dp.floatArith (insertionSort compareFields)
      (insertionSort_isQsort _ compareFields_total) ⟨fieldsD, 10, 0, 0⟩ (by decide)
      ⟨by decide, by decide⟩ (by decide) (by decide)).1⟩

/-- C13: DP monotonicity, whatever the value arithmetic.  For a fixed list of validated
fields with needs of at most `INT_MAX - 9` and budgets `0 < W1 ≤ W2 < INT_MAX`, both runs
find a `best_value`, each is the largest cell of the last row within its budget, and the one
found with `totalWater = W1` is at most the one found with `totalWater = W2`.  With a need
of `INT_MAX` no `best_value` is found. -/
theorem dp_best_value_monotone (ar : Dp.Arith) (fields : List Field) (W1 W2 : Int)
    (hcount : 1 ≤ fields.length ∧ fields.length ≤ MAX_FIELDS)
    (hvalid : ∀ f ∈ fields, 0 ≤ f.moisture ∧ f.moisture ≤ 100 ∧ 0 ≤ f.waterNeeded)
    (hneed : ∀ f ∈ fields, f.waterNeeded + 9 ≤ INT_MAX)
    (h1 : 0 < W1) (h12 : W1 ≤ W2) (h2 : W2 < INT_MAX) :
    (∃ b1 b2, Dp.Machine.best ar fields W1 = some b1 ∧
      Dp.Machine.best ar fields W2 = some b2 ∧
      (b1.2 = (Dp.Machine.table ar fields fields.length b1.1).1 ∧ (b1.1 : Int) ≤ W1 ∧
        ∀ w : Nat, (w : Int) ≤ W1 → (Dp.Machine.table ar fields fields.length w).1 ≤ b1.2) ∧
      (b2.2 = (Dp.Machine.table ar fields fields.length b2.1).1 ∧ (b2.1 : Int) ≤ W2 ∧
        ∀ w : Nat, (w : Int) ≤ W2 → (Dp.Machine.table ar fields fields.length w).1 ≤ b2.2) ∧
      b1.2 ≤ b2.2) ∧
    Dp.Machine.best Dp.floatArith fieldsH 10 = none := by
  have hr : ∀ f ∈ fields, 0 ≤ f.waterNeeded ∧ f.waterNeeded + 9 ≤ INT_MAX :=
    fun f hf => ⟨(hvalid f hf).2.2, hneed f hf⟩
  have hz0 := Dp.Machine.machine_table_zero_ne_bot ar fields
  obtain ⟨a1, a2, _, a4, _⟩ := Dp.findBest_spec
    (fun w => (Dp.Machine.table ar fields fields.length w).1) W1 (le_of_lt h1) hz0
  obtain ⟨b1, b2, _, b4, _⟩ := Dp.findBest_spec
    (fun w => (Dp.Machine.table ar fields fields.length w).1) W2 (by omega) hz0
  refine ⟨⟨_, _,
    Dp.Machine.machine_best_eq ar fields W1
      (Dp.Machine.defined_of_range _ _ (le_of_lt h1) (by omega) hr),
    Dp.Machine.machine_best_eq ar fields W2
      (Dp.Machine.defined_of_range _ _ (by omega) h2 hr),
    ⟨a2, a1, a4⟩, ⟨b2, b1, b4⟩, ?_⟩, by decide⟩
  rw [a2]
  exact b4 _ (by omega)

/-- C13, on the field `D` (moisture 0, need 10) with the budgets 5 and 10 in `float`
arithmetic: the values found are 50 and 100. -/
theorem dp_best_value_monotone_witness :
    (1 ≤ fieldsD.length ∧ fieldsD.length ≤ MAX_FIELDS) ∧ ((0 : Int) < 5) ∧ ((5 : Int) ≤ 10) ∧
    ((10 : Int) < INT_MAX) ∧
    Dp.Machine.best Dp.floatArith fieldsD 5 = some (5, ((50 : ℚ) : Dp.Cell)) ∧
    Dp.Machine.best Dp.floatArith fieldsD 10 = some (10, ((100 : ℚ) : Dp.Cell)) ∧
    (∃ b1 b2, Dp.Machine.best Dp.floatArith fieldsD 5 = some b1 ∧
      Dp.Machine.best Dp.floatArith fieldsD 10 = some b2 ∧
      (b1.2 = (Dp.Machine.table Dp.floatArith fieldsD fieldsD.length b1.1).1 ∧
        (b1.1 : Int) ≤ 5 ∧
        ∀ w : Nat, (w : Int) ≤ 5 →
          (Dp.Machine.table Dp.floatArith fieldsD fieldsD.length w).1 ≤ b1.2) ∧
      (b2.2 = (Dp.Machine.table Dp.floatArith fieldsD fieldsD.length b2.1).1 ∧
        (b2.1 : Int) ≤ 10 ∧
        ∀ w : Nat, (w : Int) ≤ 10 →
          (Dp.Machine.table Dp.floatArith fieldsD fieldsD.length w).1 ≤ b2.2) ∧
      b1.2 ≤ b2.2) :=
  ⟨by decide, by decide, by decide, by decide, by decide!, by decide!,
    (dp_best_value_monotone Dp.floatArith fieldsD 5 10 (by decide) (by decide) (by decide)
      (by decide) (by decide) (by decide)).1⟩

/-- C14: DP per-field admissibility, whatever the value arithmetic.  For every validated
input as `parseInput` stores it, with every need at most `INT_MAX - 9` and a budget below
`INT_MAX`, the run has a result, and every record handed to `generateOutput` has
`allocated = 0` and `scheduled = 0`, or `scheduled = 1` and
`ceil(waterNeeded / 10) ≤ allocated ≤ waterNeeded` with `allocated ≥ 1`; a field with
`waterNeeded = 0` is not scheduled, so a scheduled field has `waterNeeded > 0`.  With a need
of `INT_MAX`, which is a validated input, the run has no result. -/
theorem dp_fields_admissible (ar : Dp.Arith)
    (qsort : List Field → List Field) (hq : IsQsort compareFields qsort)
    (data : IrrigationData) (hv : Validated data) (hfresh : FreshlyParsed data.fields)
    (hneed : ∀ f ∈ data.fields, f.waterNeeded + 9 ≤ INT_MAX)
    (hmax : data.totalWater < INT_MAX) :
    (∃ out, Dp.Machine.main ar qsort data = some out ∧
      (∀ g ∈ out.fields,
        (g.allocated = 0 ∧ g.scheduled = 0) ∨
        (g.scheduled = 1 ∧ ⌈(g.waterNeeded : ℚ) / 10⌉ ≤ g.allocated ∧
          g.allocated ≤ g.waterNeeded ∧ 1 ≤ g.allocated)) ∧
      (∀ g ∈ out.fields, g.waterNeeded = 0 → g.scheduled = 0) ∧
      (∀ g ∈ out.fields, g.scheduled = 1 → 0 < g.waterNeeded)) ∧
    Dp.Machine.main Dp.floatArith (insertionSort compareFields) ⟨fieldsZ, 10, 0, 0⟩
      = some ⟨fieldsZ, 10, 0, 10⟩ ∧
    (Validated ⟨fieldsH, 10, 0, 0⟩ ∧ FreshlyParsed fieldsH ∧
      Dp.Machine.main Dp.floatArith (insertionSort compareFields) ⟨fieldsH, 10, 0, 0⟩
        = none) := by
  obtain ⟨m1, _, m3, _, _⟩ :=
    Dp.Machine.machine_main_spec ar qsort hq data hv hfresh hneed hmax
  have hperm := (hq data.fields).1
  have hz : ∀ f ∈ qsort data.fields,
      0 ≤ f.waterNeeded ∧ f.allocated = 0 ∧ f.scheduled = 0 := by
    intro f hf
    have hf' := hperm.mem_iff.1 hf
    exact ⟨(hv.2.2.2 f hf').2.2, (hfresh.1 f hf').1, (hfresh.1 f hf').2⟩
  have key : ∀ g ∈ restoreOrder (Dp.backtrack (qsort data.fields)
        (fun i w => (Dp.Machine.table ar (qsort data.fields) i w).2) (qsort data.fields).length
        (Dp.findBest (fun w => (Dp.Machine.table ar (qsort data.fields)
          (qsort data.fields).length w).1) data.totalWater).1),
      (g.allocated = 0 ∧ g.scheduled = 0) ∨
      (g.scheduled = 1 ∧ ⌈(g.waterNeeded : ℚ) / 10⌉ ≤ g.allocated ∧
        g.allocated ≤ g.waterNeeded ∧ 1 ≤ g.allocated) :=
    fun g hg => Dp.chosen_scheduled _ _ m3 hz g ((restoreOrder_perm _).mem_iff.1 hg)
  refine ⟨⟨_, m1, key, ?_, ?_⟩, by decide!, by decide, ⟨by decide, by decide⟩, by decide⟩
  · intro g hg h0
    rcases key g hg with h | h
    · exact h.2
    · omega
  · intro g hg h1
    rcases key g hg with h | h
    · omega
    · omega

/-- C14, on scenario 4 (`totalWater = 10`, one field of moisture 0 and need 10) in `float`
arithmetic. -/
theorem dp_fields_admissible_witness :
    Validated ⟨fieldsD, 10, 0, 0⟩ ∧ FreshlyParsed fieldsD ∧
    (∀ f ∈ fieldsD, f.waterNeeded + 9 ≤ INT_MAX) ∧ (10 : Int) < INT_MAX ∧
    (∃ out, Dp.Machine.main Dp.floatArith (insertionSort compareFields) ⟨fieldsD, 10, 0, 0⟩
        = some out ∧
      (∀ g ∈ out.fields,
        (g.allocated = 0 ∧ g.scheduled = 0) ∨
        (g.scheduled = 1 ∧ ⌈(g.waterNeeded : ℚ) / 10⌉ ≤ g.allocated ∧
          g.allocated ≤ g.waterNeeded ∧ 1 ≤ g.allocated)) ∧
      (∀ g ∈ out.fields, g.waterNeeded = 0 → g.scheduled = 0) ∧
      (∀ g ∈ out.fields, g.scheduled = 1 → 0 < g.waterNeeded)) :=
  ⟨by decide, ⟨by decide, by decide⟩, by decide, by decide,
    (dp_fields_admissible Dp.floatArith (insertionSort compareFields)
      (insertionSort_isQsort _ compareFields_total) ⟨fieldsD, 10, 0, 0⟩ (by decide)
      ⟨by decide, by decide⟩ (by decide) (by decide)).1⟩

/-- C15, the greedy programs break the invariant.  With `totalWater = 10` and the single
field `Z` that needs no water, `brute_force_scheduler.c` and `greedy_scheduler.c` (without
and with time constraints) leave `Z` with `scheduled = 1` and `allocated = 0`; with time
constraints a field `Q` of need 5 reached with no water left is marked scheduled with
`allocated = 0` as well.  `dp_scheduler.c` leaves `Z` unscheduled. -/
theorem greedy_scheduled_without_allocation :
    BruteForce.main (insertionSort compareFields) ⟨fieldsZ, 10, 0, 0⟩
      = ⟨[⟨"Z", 50, 0, 0, 1, 0⟩], 10, 0, 10⟩ ∧
    (Greedy.scheduleIrrigation (insertionSort Greedy.compareFields)
        (Greedy.untimed Greedy.fieldsZ 10)).fields = [⟨"Z", 50, 0, 0, 0, 1⟩] ∧
    (Greedy.scheduleIrrigation (insertionSort Greedy.compareFields)
        (Greedy.timed Greedy.fieldsZ 10 5 50)).fields = [⟨"Z", 50, 0, 1, 0, 1⟩] ∧
    (Greedy.scheduleIrrigation (insertionSort Greedy.compareFields)
        (Greedy.timed [⟨"P", 10, 20, 0, 0, 0⟩, ⟨"Q", 50, 5, 0, 0, 0⟩] 20 5 50)).fields
      = [⟨"P", 10, 20, 1, 20, 1⟩, ⟨"Q", 50, 5, 1, 0, 1⟩] ∧
    (Dp.main (insertionSort compareFields) ⟨fieldsZ, 10, 0, 0⟩).fields
      = [⟨"Z", 50, 0, 0, 0, 0⟩] :=
  ⟨by decide, by decide, by decide, by decide, by decide!⟩

/-- C16: input validation by `parseInput`.  It returns failure when the parsed `totalWater`
is `≤ 0` or the declared `fieldCount` is `≤ 0` or `> 10`; when it returns success, the record
has `totalWater > 0`, between 1 and 10 stored fields, and every stored field has moisture in
`0 .. 100` and a need that is not negative (and `allocated = scheduled = 0`, `originalIndex`
equal to its position).  An input that declares exactly 10 fields and holds 10 valid fields
is accepted with all 10 stored. -/
theorem parseInput_validates (raw : RawInput) :
    ((raw.totalWater ≤ 0 ∨ raw.fieldCount ≤ 0 ∨ raw.fieldCount > 10) →
      parseInput raw = none) ∧
    (∀ data, parseInput raw = some data →
      (0 < data.totalWater ∧ 1 ≤ data.fields.length ∧ data.fields.length ≤ 10 ∧
        ∀ f ∈ data.fields, 0 ≤ f.moisture ∧ f.moisture ≤ 100 ∧ 0 ≤ f.waterNeeded) ∧
      FreshlyParsed data.fields ∧ data.totalWater = raw.totalWater ∧
      (data.fields.length : Int) ≤ raw.fieldCount) ∧
    (∃ data, parseInput rawTenFields = some data ∧ data.fields.length = 10) := by
  refine ⟨?_, ?_, ?_⟩
  · intro h
    unfold parseInput
    by_cases hw : raw.totalWater ≤ 0
    · rw [if_pos hw]
    · rw [if_neg hw]
      have hc : raw.fieldCount ≤ 0 ∨ raw.fieldCount > (MAX_FIELDS : Int) := by
        have hmax : (MAX_FIELDS : Int) = 10 := rfl
        omega
      rw [if_pos hc]
  · intro data h
    obtain ⟨a, b, c, d, _, _⟩ := parseInput_some raw data h
    exact ⟨a, b, c, d⟩
  · exact ⟨⟨List.map (fun k : Nat => (⟨"F", 20, 5, 0, 0, (k : Int)⟩ : Field)) (List.range 10),
      100, 0, 0⟩, by decide, by decide⟩

/-- C16, on an input with `totalWater = 0` and on the input with ten fields. -/
theorem parseInput_validates_witness :
    parseInput ⟨0, 1, true, [⟨40, some "D", 0, 10⟩]⟩ = none ∧
    parseInput ⟨100, 11, true, [⟨40, some "D", 0, 10⟩]⟩ = none ∧
    parseInput ⟨100, 1, true, [⟨40, some "D", 101, 10⟩]⟩ = none ∧
    parseInput ⟨100, 1, true, [⟨40, some "D", 0, 10⟩]⟩ = some ⟨fieldsD, 100, 0, 0⟩ ∧
    ((0 : Int) < 100 ∧ 1 ≤ fieldsD.length ∧ fieldsD.length ≤ 10 ∧
      ∀ f ∈ fieldsD, 0 ≤ f.moisture ∧ f.moisture ≤ 100 ∧ 0 ≤ f.waterNeeded) :=
  ⟨(parseInput_validates ⟨0, 1, true, [⟨40, some "D", 0, 10⟩]⟩).1 (by decide),
    (parseInput_validates ⟨100, 11, true, [⟨40, some "D", 0, 10⟩]⟩).1 (by decide),
    by decide, by decide,
    ((parseInput_validates ⟨100, 1, true, [⟨40, some "D", 0, 10⟩]⟩).2.1
      ⟨fieldsD, 100, 0, 0⟩ (by decide)).1⟩

/-- C17, the DP program has no capacity check.  The input with `totalWater = 100001`, above
`MAX_WATER = 100000`, passes `parseInput`, and `main` goes on to the table build with it: the
run ends with a record for `generateOutput` in which the field has received 10 units, not
with the failure exit. -/
theorem dp_accepts_water_above_capacity :
    rawOverCapacity.totalWater > Dp.MAX_WATER ∧
    parseInput rawOverCapacity = some ⟨fieldsD, 100001, 0, 0⟩ ∧
    Dp.run (insertionSort compareFields) rawOverCapacity
      = some (Dp.main (insertionSort compareFields) ⟨fieldsD, 100001, 0, 0⟩) ∧
    (Dp.main (insertionSort compareFields) ⟨fieldsD, 100001, 0, 0⟩).fields.map
        Field.allocated = [10] ∧
    (Dp.main (insertionSort compareFields) ⟨fieldsD, 100001, 0, 0⟩).totalWaterUsed = 10 ∧
    (Dp.main (insertionSort compareFields) ⟨fieldsD, 100001, 0, 0⟩).remainingWater = 99991 :=
  ⟨by decide, by decide, rfl, (Dp.main_single_field 100001 (by decide)).1,
    (Dp.main_single_field 100001 (by decide)).2.1,
    by rw [(Dp.main_single_field 100001 (by decide)).2.2]; decide⟩

/-- C18: the partial rule of the unconstrained greedy of `brute_force_scheduler.c`.  For a
validated input, let `k` be the first position of the priority order whose need exceeds the
water `R` left there (every field before it fits and is fully served), reached with `R > 0`.
If `R ≥ floor(waterNeeded / 10)` the field receives exactly `R` and `remainingWater` ends
as `0`; otherwise it receives `0` and `remainingWater` ends as `R`.  With fields `A` (need
80), `B` (need 50): `totalWater = 100` gives 80 and 20, used 100, remaining 0;
`totalWater = 5` gives 0 and 0, used 0, remaining 5. -/
theorem greedy_partial_rule
    (qsort : List Field → List Field) (hq : IsQsort compareFields qsort)
    (data : IrrigationData) (hv : Validated data)
    (k : Nat) (hk : k < (BruteForce.priorityFields qsort data).length)
    (hbefore : ∀ (j : Nat) (hj : j < k),
      ((BruteForce.priorityFields qsort data)[j]).waterNeeded
        ≤ BruteForce.waterLeftAt qsort data j)
    (hlt : BruteForce.waterLeftAt qsort data k
      < ((BruteForce.priorityFields qsort data)[k]).waterNeeded)
    (hpos : 0 < BruteForce.waterLeftAt qsort data k) :
    (⌊(((BruteForce.priorityFields qsort data)[k]).waterNeeded : ℚ) / 10⌋
        ≤ BruteForce.waterLeftAt qsort data k →
      (BruteForce.priorityResult qsort data)[k]?
        = some { (BruteForce.priorityFields qsort data)[k] with
                 allocated := BruteForce.waterLeftAt qsort data k, scheduled := 1 } ∧
      (BruteForce.main qsort data).remainingWater = 0 ∧
      (BruteForce.main qsort data).totalWaterUsed = data.totalWater) ∧
    (BruteForce.waterLeftAt qsort data k
        < ⌊(((BruteForce.priorityFields qsort data)[k]).waterNeeded : ℚ) / 10⌋ →
      (BruteForce.priorityResult qsort data)[k]?
        = some ((BruteForce.priorityFields qsort data)[k]) ∧
      ((BruteForce.priorityFields qsort data)[k]).allocated = 0 ∧
      (BruteForce.main qsort data).remainingWater = BruteForce.waterLeftAt qsort data k ∧
      (BruteForce.main qsort data).totalWaterUsed
        = data.totalWater - BruteForce.waterLeftAt qsort data k) ∧
    BruteForce.main (insertionSort compareFields) ⟨fieldsAB, 100, 0, 0⟩
      = ⟨[⟨"A", 10, 80, 80, 1, 0⟩, ⟨"B", 50, 50, 20, 1, 1⟩], 100, 100, 0⟩ ∧
    BruteForce.main (insertionSort compareFields) ⟨fieldsAB, 5, 0, 0⟩
      = ⟨[⟨"A", 10, 80, 0, 0, 0⟩, ⟨"B", 50, 50, 0, 0, 1⟩], 5, 0, 5⟩ := by
  have hmem := List.getElem_mem (l := BruteForce.priorityFields qsort data) (n := k) hk
  have hneed : 0 ≤ ((BruteForce.priorityFields qsort data)[k]).waterNeeded :=
    resetFields_need _ (qsort_need qsort hq _ (fun f hf => (hv.2.2.2 f hf).2.2)) _ hmem
  have hclr := (resetFields_cleared (qsort data.fields) _ hmem).1
  obtain ⟨a, b⟩ := BruteForce.allocLoop_first_unserved (BruteForce.priorityFields qsort data)
    0 data.totalWater k hk hbefore hlt hpos
  rw [← Greedy.tdiv_floor _ hneed]
  refine ⟨?_, ?_, by decide, by decide⟩
  · intro hmin
    obtain ⟨a1, a2, a3⟩ := a hmin
    exact ⟨a1, a2, by rw [show (BruteForce.main qsort data).totalWaterUsed
      = (BruteForce.allocLoop (BruteForce.priorityFields qsort data) 0
          data.totalWater).2.1 from rfl, a3]; omega⟩
  · intro hmin
    obtain ⟨b1, b2, b3⟩ := b hmin
    refine ⟨b1, hclr, b2, ?_⟩
    rw [show (BruteForce.main qsort data).totalWaterUsed
      = (BruteForce.allocLoop (BruteForce.priorityFields qsort data) 0
          data.totalWater).2.1 from rfl, b3]
    unfold BruteForce.waterLeftAt
    omega

/-- C18, on scenario 1 (`totalWater = 100`, fields `A`, `B`): position 1 holds `B`, reached
with 20 units left. -/
theorem greedy_partial_rule_witness :
    Validated ⟨fieldsAB, 100, 0, 0⟩ ∧
    BruteForce.waterLeftAt (insertionSort compareFields) ⟨fieldsAB, 100, 0, 0⟩ 1 = 20 ∧
    (BruteForce.priorityResult (insertionSort compareFields) ⟨fieldsAB, 100, 0, 0⟩)[1]?
      = some ⟨"B", 50, 50, 20, 1, 1⟩ ∧
    (BruteForce.main (insertionSort compareFields) ⟨fieldsAB, 100, 0, 0⟩).remainingWater = 0 :=
  ⟨by decide, by decide, by decide,
    ((greedy_partial_rule (insertionSort compareFields)
      (insertionSort_isQsort _ compareFields_total) ⟨fieldsAB, 100, 0, 0⟩ (by decide)
      1 (by decide) (by decide) (by decide) (by decide)).1 (by
        rw [← Greedy.tdiv_floor _ (by decide)]
        decide)).2.1⟩

/-- C19: the clamp by time of the time-constrained greedy, with the `int` operations as the
machine performs them.  For a validated input with positive `totalElectricity` and
`waterDeliveryRate`, a field at position `k` of the priority order that passes the admission
test, whose need fits the remaining water and whose stored `timeNeeded` exceeds the remaining
electricity `E`: the product `E * waterDeliveryRate` is an `int`, the field receives
`min (E * waterDeliveryRate) waterNeeded`, and the time consumed is `E`: the remaining
electricity falls to `0` and `totalTimeUsed` grows by `E`.  With `totalWater = 100`, rate 50,
`totalElectricity = 1` and one field of need 100: allocated 50, `totalTimeUsed = 1`,
`remainingElectricity = 0`, `remainingWater = 50`.  With `totalWater = 2000000000`,
`totalElectricity = 1`, rate `1000000000` and one field of need `2000000000` the stored
`timeNeeded` is `1`, which does not exceed `E = 1`, and the field receives its whole need. -/
theorem timed_greedy_clamp_by_time
    (qsort : List Greedy.Field → List Greedy.Field) (hq : IsQsort Greedy.compareFields qsort)
    (data : Greedy.IrrigationData) (hU : data.useTimeConstraints = 1)
    (hv : Greedy.Validated data) (hE : 0 < data.totalElectricity)
    (hR : 0 < data.waterDeliveryRate) (hRmax : data.waterDeliveryRate ≤ INT_MAX)
    (hNmax : ∀ f ∈ data.fields, f.waterNeeded ≤ INT_MAX)
    (k : Nat) (hk : k < (Greedy.Machine.priorityFields qsort data).length)
    (hk' : k < (Greedy.Machine.scheduleIrrigation qsort data).fields.length)
    (hadm : Greedy.Machine.Admitted data.waterDeliveryRate
      ((Greedy.Machine.priorityFields qsort data)[k]) (Greedy.Machine.totalsAt qsort data k))
    (hw : ((Greedy.Machine.priorityFields qsort data)[k]).waterNeeded
      ≤ (Greedy.Machine.totalsAt qsort data k).remainingWater)
    (ht : ((Greedy.Machine.priorityFields qsort data)[k]).timeNeeded
      > (Greedy.Machine.totalsAt qsort data k).remainingElectricity) :
    (INT_MIN ≤ (Greedy.Machine.totalsAt qsort data k).remainingElectricity
        * data.waterDeliveryRate ∧
      (Greedy.Machine.totalsAt qsort data k).remainingElectricity * data.waterDeliveryRate
        ≤ INT_MAX) ∧
    ((Greedy.Machine.scheduleIrrigation qsort data).fields[k]).allocated
      = min ((Greedy.Machine.totalsAt qsort data k).remainingElectricity
            * data.waterDeliveryRate)
          ((Greedy.Machine.priorityFields qsort data)[k]).waterNeeded ∧
    ((Greedy.Machine.scheduleIrrigation qsort data).fields[k]).scheduled = 1 ∧
    (Greedy.Machine.totalsAt qsort data (k + 1)).totalTimeUsed
      = wrapInt ((Greedy.Machine.totalsAt qsort data k).totalTimeUsed
        + (Greedy.Machine.totalsAt qsort data k).remainingElectricity) ∧
    (Greedy.Machine.totalsAt qsort data (k + 1)).remainingElectricity = 0 ∧
    Greedy.Machine.scheduleIrrigation (insertionSort Greedy.compareFields)
        (Greedy.timed [⟨"C", 0, 100, 0, 0, 0⟩] 100 1 50) =
      { fields := [⟨"C", 0, 100, 2, 50, 1⟩]
        totalWater := 100, totalElectricity := 1, waterDeliveryRate := 50
        totalWaterUsed := 50, totalTimeUsed := 1, remainingWater := 50
        remainingElectricity := 0, useTimeConstraints := 1 } ∧
    Greedy.Machine.scheduleIrrigation (insertionSort Greedy.compareFields)
        (Greedy.timed [⟨"C", 0, 2000000000, 0, 0, 0⟩] 2000000000 1 1000000000) =
      { fields := [⟨"C", 0, 2000000000, 1, 2000000000, 1⟩]
        totalWater := 2000000000, totalElectricity := 1, waterDeliveryRate := 1000000000
        totalWaterUsed := 2000000000, totalTimeUsed := 1, remainingWater := 0
        remainingElectricity := 0, useTimeConstraints := 1 } := by
  have hu : data.useTimeConstraints ≠ 0 := by rw [hU]; decide
  have hn : data.fields ≠ [] := by
    intro h
    have := hv.2.1
    rw [h] at this
    simp at this
  have hrate := Greedy.Machine.machine_loopRate_timed data hu hR
  have e1 := Greedy.Machine.machine_scheduleIrrigation_fields qsort data hn (le_of_lt hv.1)
  obtain ⟨g1, g2⟩ := Greedy.Machine.machine_allocLoop_getElem data.useTimeConstraints
    data.waterDeliveryRate hu (Greedy.Machine.priorityFields qsort data)
    (Greedy.startTotals data) k hk
  have hget : (Greedy.Machine.scheduleIrrigation qsort data).fields[k]
      = (Greedy.Machine.timeStep data.waterDeliveryRate
          (Greedy.Machine.priorityFields qsort data)[k]
          (Greedy.Machine.totalsAt qsort data k)).1 := by
    have h1 : (Greedy.Machine.scheduleIrrigation qsort data).fields[k]?
        = some ((Greedy.Machine.scheduleIrrigation qsort data).fields[k]) :=
      List.getElem?_eq_getElem hk'
    have h2 : (Greedy.Machine.scheduleIrrigation qsort data).fields[k]?
        = some (Greedy.Machine.timeStep data.waterDeliveryRate
          (Greedy.Machine.priorityFields qsort data)[k]
          (Greedy.Machine.totalsAt qsort data k)).1 := by
      rw [e1, hrate]
      unfold Greedy.Machine.totalsAt
      rw [hrate]
      exact g1
    rw [h1] at h2
    exact Option.some.inj h2
  have hnext : Greedy.Machine.totalsAt qsort data (k + 1)
      = (Greedy.Machine.timeStep data.waterDeliveryRate
          (Greedy.Machine.priorityFields qsort data)[k]
          (Greedy.Machine.totalsAt qsort data k)).2 := by
    unfold Greedy.Machine.totalsAt
    rw [hrate]
    exact g2
  obtain ⟨p1, p2, p3, _, _⟩ := Greedy.Machine.machine_priorityFields_timed qsort hq data hu hR
    (fun f hf => ⟨(hv.2.2.2 f hf).2.2, hNmax f hf⟩) _
    (List.getElem_mem (l := Greedy.Machine.priorityFields qsort data) (n := k) hk)
  obtain ⟨c0, c1, c2, c3, c4⟩ := Greedy.Machine.machine_timeStep_clamp data.waterDeliveryRate
    ((Greedy.Machine.priorityFields qsort data)[k]) (Greedy.Machine.totalsAt qsort data k)
    hR hRmax p1 p2 p3 hadm hw ht
  rw [hget, hnext]
  exact ⟨c0, c1, c2, c4, c3, by decide, by decide⟩

/-- C19, on scenario 3 (`totalWater = 100`, rate 50, `totalElectricity = 1`, one field of
need 100). -/
theorem timed_greedy_clamp_by_time_witness :
    Greedy.Validated (Greedy.timed [⟨"C", 0, 100, 0, 0, 0⟩] 100 1 50) ∧
    Greedy.Machine.Admitted 50 ⟨"C", 0, 100, 2, 0, 0⟩ ⟨100, 1, 0, 0⟩ ∧
    ((Greedy.Machine.scheduleIrrigation (insertionSort Greedy.compareFields)
        (Greedy.timed [⟨"C", 0, 100, 0, 0, 0⟩] 100 1 50)).fields.map
        Greedy.Field.allocated) = [50] ∧
    (Greedy.Machine.totalsAt (insertionSort Greedy.compareFields)
        (Greedy.timed [⟨"C", 0, 100, 0, 0, 0⟩] 100 1 50) 1).remainingElectricity = 0 :=
  ⟨by decide, by decide, by decide,
    (timed_greedy_clamp_by_time (insertionSort Greedy.compareFields)
      (insertionSort_isQsort _ Greedy.compareFields_total_sched)
      (Greedy.timed [⟨"C", 0, 100, 0, 0, 0⟩] 100 1 50) rfl (by decide) (by decide)
      (by decide) (by decide) (by decide) 0 (by decide) (by decide) (by decide) (by decide)
      (by decide)).2.2.2.2.1⟩

/-- C20 as claimed fails on the compiled program.  With `totalWater = 2` and the fields `B`
(moisture 2, need 14), `A` (moisture 86, need 1), two units for `B` and one unit for `A` are
both worth 14, the largest value a feasible allocation can have; in `float` arithmetic
`98 * (2 / 14)` comes out above 14, so the program gives `B` two units and reports
`totalWaterUsed = 2`, although the allocation that gives `A` one unit has the same value and
uses 1.  And with a need of `INT_MAX` the run has no result. -/
theorem dp_float_water_not_minimal :
    Validated ⟨fieldsTie, 2, 0, 0⟩ ∧ FreshlyParsed fieldsTie ∧
    Dp.Machine.main Dp.floatArith (insertionSort compareFields) ⟨fieldsTie, 2, 0, 0⟩
      = some ⟨[⟨"B", 2, 14, 2, 1, 0⟩, ⟨"A", 86, 1, 0, 0, 1⟩], 2, 2, 0⟩ ∧
    (∀ a, Dp.Feasible 2 fieldsTie a → Dp.totalValue fieldsTie a ≤ 14) ∧
    Dp.totalValue fieldsTie [2, 0] = 14 ∧
    Dp.Feasible 2 fieldsTie [0, 1] ∧ Dp.totalValue fieldsTie [0, 1] = 14 ∧
    ([0, 1] : List Int).sum < 2 ∧
    (Validated ⟨fieldsH, 10, 0, 0⟩ ∧
      Dp.Machine.main Dp.floatArith (insertionSort compareFields) ⟨fieldsH, 10, 0, 0⟩
        = none) := by
  have hopt := (Dp.main_spec (insertionSort compareFields)
    (insertionSort_isQsort _ compareFields_total) ⟨fieldsTie, 2, 0, 0⟩ (by decide)
    ⟨by decide, by decide⟩).2.2
  have hval : Dp.totalValue fieldsTie
      ((Dp.main (insertionSort compareFields) ⟨fieldsTie, 2, 0, 0⟩).fields.map Field.allocated)
      = 14 := by decide!
  refine ⟨by decide, ⟨by decide, by decide⟩, by decide!, ?_, by decide!, ?_, by decide!,
    by decide, by decide, by decide⟩
  · intro a ha
    have := hopt a ha
    rw [hval] at this
    exact this
  · refine ⟨rfl, ?_, by decide⟩
    intro p hp
    simp only [fieldsTie, List.zip_cons_cons, List.zip_nil_right, List.mem_cons,
      List.mem_singleton, List.not_mem_nil, or_false] at hp
    rcases hp with rfl | rfl
    · exact Or.inl rfl
    · right
      refine ⟨?_, le_refl _⟩
      rw [Int.ceil_le]
      norm_num

/-- C20 as amended.  For every validated input as `parseInput` stores it, with every need at
most `INT_MAX - 9` and a budget below `INT_MAX`, the run has a result whatever the value
arithmetic; `best_w` lies in `0 .. totalWater`, the cell of the last row at `best_w` is
`best_value`, no cell in `0 .. totalWater` is larger and every cell before `best_w` is
smaller, and `totalWaterUsed = best_w`.  With the value arithmetic taken exactly,
`totalWaterUsed` is at most the water used by any feasible allocation of the same total
value as the one returned. -/
theorem dp_best_w_smallest (ar : Dp.Arith)
    (qsort : List Field → List Field) (hq : IsQsort compareFields qsort)
    (data : IrrigationData) (hv : Validated data) (hfresh : FreshlyParsed data.fields)
    (hneed : ∀ f ∈ data.fields, f.waterNeeded + 9 ≤ INT_MAX)
    (hmax : data.totalWater < INT_MAX) :
    (∃ b out, Dp.Machine.best ar (qsort data.fields) data.totalWater = some b ∧
      Dp.Machine.main ar qsort data = some out ∧
      out.totalWaterUsed = b.1 ∧ (b.1 : Int) ≤ data.totalWater ∧
      (Dp.Machine.table ar (qsort data.fields) (qsort data.fields).length b.1).1 = b.2 ∧
      (∀ w : Nat, (w : Int) ≤ data.totalWater →
        (Dp.Machine.table ar (qsort data.fields) (qsort data.fields).length w).1 ≤ b.2) ∧
      (∀ w : Nat, w < b.1 →
        (Dp.Machine.table ar (qsort data.fields) (qsort data.fields).length w).1 < b.2)) ∧
    (∃ out, Dp.Machine.main Dp.exactArith qsort data = some out ∧
      ∀ a, Dp.Feasible data.totalWater data.fields a →
        Dp.totalValue data.fields a
          = Dp.totalValue data.fields (out.fields.map Field.allocated) →
        out.totalWaterUsed ≤ a.sum) := by
  obtain ⟨m1, m2, _, _, _⟩ :=
    Dp.Machine.machine_main_spec ar qsort hq data hv hfresh hneed hmax
  obtain ⟨b1, b2, _, b4, b5⟩ := Dp.findBest_spec
    (fun w => (Dp.Machine.table ar (qsort data.fields) (qsort data.fields).length w).1)
    data.totalWater (le_of_lt hv.1) (Dp.Machine.machine_table_zero_ne_bot ar _)
  exact ⟨⟨_, _, m2, m1, rfl, b1, b2.symm, b4, b5⟩,
    ⟨_, Dp.Machine.machine_main_exact qsort hq data (le_of_lt hv.1) hmax
        (fun f hf => ⟨(hv.2.2.2 f hf).2.2, hneed f hf⟩),
      Dp.main_water_minimal qsort hq data hv hfresh⟩⟩

/-- C20 as amended, on the fields `B`, `A` with `totalWater = 2`, in exact arithmetic. -/
theorem dp_best_w_smallest_witness :
    Validated ⟨fieldsTie, 2, 0, 0⟩ ∧ FreshlyParsed fieldsTie ∧
    (∀ f ∈ fieldsTie, f.waterNeeded + 9 ≤ INT_MAX) ∧ (2 : Int) < INT_MAX ∧
    Dp.Machine.main Dp.exactArith (insertionSort compareFields) ⟨fieldsTie, 2, 0, 0⟩
      = some ⟨[⟨"B", 2, 14, 0, 0, 0⟩, ⟨"A", 86, 1, 1, 1, 1⟩], 2, 1, 1⟩ ∧
    (∃ out, Dp.Machine.main Dp.exactArith (insertionSort compareFields) ⟨fieldsTie, 2, 0, 0⟩
        = some out ∧
      ∀ a, Dp.Feasible 2 fieldsTie a →
        Dp.totalValue fieldsTie a = Dp.totalValue fieldsTie (out.fields.map Field.allocated) →
        out.totalWaterUsed ≤ a.sum) :=
  ⟨by decide, ⟨by decide, by decide⟩, by decide, by decide, by decide!,
    (dp_best_w_smallest Dp.exactArith (insertionSort compareFields)
      (insertionSort_isQsort _ compareFields_total) ⟨fieldsTie, 2, 0, 0⟩ (by decide)
      ⟨by decide, by decide⟩ (by decide) (by decide)).2⟩

/-- C21: `calculateFieldTimes` with the `int` operations as the machine performs them.  On a
record whose needs are not negative and for which `waterNeeded + rate - 1` is an `int` for
every field and the rate used: the rate afterwards is the supplied one when that was positive
and `50` otherwise, every field record is the old one with `timeNeeded` set to
`max 1 (ceil (waterNeeded / rate))` for the rate afterwards, no other member of a field
changes, and the other members of the record are kept.  With rate 30 the fields of need 50
and 80 get `timeNeeded` 2 and 3.  With a need of `INT_MAX` and rate 50 the sum
`waterNeeded + rate - 1` wraps to a negative number and the function stores `timeNeeded = 1`,
where `ceil (waterNeeded / rate)` is `42949673`. -/
theorem calculateFieldTimes_spec (data : Greedy.IrrigationData)
    (hN : ∀ f ∈ data.fields, 0 ≤ f.waterNeeded)
    (hrange : ∀ f ∈ data.fields,
      f.waterNeeded + (if 0 < data.waterDeliveryRate then data.waterDeliveryRate else 50) - 1
        ≤ INT_MAX) :
    (Greedy.Machine.calculateFieldTimes data).waterDeliveryRate
        = (if 0 < data.waterDeliveryRate then data.waterDeliveryRate else 50) ∧
    (Greedy.Machine.calculateFieldTimes data).fields
        = data.fields.map (fun f =>
            { f with timeNeeded := max 1 ⌈(f.waterNeeded : ℚ)
                  / ((Greedy.Machine.calculateFieldTimes data).waterDeliveryRate : ℚ)⌉ }) ∧
    (∀ (k : Nat) (hk : k < data.fields.length),
      ∃ hk2 : k < (Greedy.Machine.calculateFieldTimes data).fields.length,
        ((Greedy.Machine.calculateFieldTimes data).fields[k]).timeNeeded
            = max 1 ⌈((data.fields[k]).waterNeeded : ℚ)
                / ((Greedy.Machine.calculateFieldTimes data).waterDeliveryRate : ℚ)⌉ ∧
        ((Greedy.Machine.calculateFieldTimes data).fields[k]).name = (data.fields[k]).name ∧
        ((Greedy.Machine.calculateFieldTimes data).fields[k]).moisture
            = (data.fields[k]).moisture ∧
        ((Greedy.Machine.calculateFieldTimes data).fields[k]).waterNeeded
            = (data.fields[k]).waterNeeded ∧
        ((Greedy.Machine.calculateFieldTimes data).fields[k]).allocated
            = (data.fields[k]).allocated ∧
        ((Greedy.Machine.calculateFieldTimes data).fields[k]).scheduled
            = (data.fields[k]).scheduled) ∧
    (Greedy.Machine.calculateFieldTimes data).totalWater = data.totalWater ∧
    (Greedy.Machine.calculateFieldTimes data).totalElectricity = data.totalElectricity ∧
    (Greedy.Machine.calculateFieldTimes data).totalWaterUsed = data.totalWaterUsed ∧
    (Greedy.Machine.calculateFieldTimes data).totalTimeUsed = data.totalTimeUsed ∧
    (Greedy.Machine.calculateFieldTimes data).remainingWater = data.remainingWater ∧
    (Greedy.Machine.calculateFieldTimes data).remainingElectricity
        = data.remainingElectricity ∧
    (Greedy.Machine.calculateFieldTimes data).useTimeConstraints = data.useTimeConstraints ∧
    (Greedy.Machine.calculateFieldTimes (Greedy.timed Greedy.fieldsBA 100 1000 30)).fields
        = [⟨"B", 50, 50, 2, 0, 0⟩, ⟨"A", 10, 80, 3, 0, 0⟩] ∧
    ((∀ f ∈ Greedy.fieldsH, 0 ≤ f.waterNeeded) ∧
      (Greedy.Machine.calculateFieldTimes (Greedy.timed Greedy.fieldsH 100 1000 50)).fields
        = [⟨"H", 0, 2147483647, 1, 0, 0⟩] ∧
      max 1 ⌈((2147483647 : Int) : ℚ) / ((50 : Int) : ℚ)⌉ = 42949673) := by
  have hrate : (Greedy.Machine.calculateFieldTimes data).waterDeliveryRate
      = (if 0 < data.waterDeliveryRate then data.waterDeliveryRate else 50) := by
    simp only [Greedy.Machine.calculateFieldTimes]
    split_ifs <;> omega
  have hpos : 0 < (Greedy.Machine.calculateFieldTimes data).waterDeliveryRate := by
    rw [hrate]
    split_ifs <;> omega
  have hfields : (Greedy.Machine.calculateFieldTimes data).fields
      = data.fields.map (fun f =>
          { f with timeNeeded := max 1 ⌈(f.waterNeeded : ℚ)
                / ((Greedy.Machine.calculateFieldTimes data).waterDeliveryRate : ℚ)⌉ }) := by
    have e : (Greedy.Machine.calculateFieldTimes data).fields
        = data.fields.map (fun f =>
            { f with timeNeeded := if (wrapInt (wrapInt (f.waterNeeded
                      + (Greedy.Machine.calculateFieldTimes data).waterDeliveryRate) - 1)).tdiv
                      (Greedy.Machine.calculateFieldTimes data).waterDeliveryRate ≤ 0 then 1
                else (wrapInt (wrapInt (f.waterNeeded
                      + (Greedy.Machine.calculateFieldTimes data).waterDeliveryRate) - 1)).tdiv
                      (Greedy.Machine.calculateFieldTimes data).waterDeliveryRate }) := rfl
    rw [e]
    apply List.map_congr_left
    intro f hf
    have h1 := hN f hf
    have h2 := hrange f hf
    rw [← hrate] at h2
    rw [wrapInt_add_sub_one, wrapInt_of_range _ (by unfold INT_MIN; omega) h2,
      Greedy.tdiv_ceil f.waterNeeded _ h1 hpos]
    congr 1
    split_ifs <;> omega
  refine ⟨hrate, hfields, ?_, rfl, rfl, rfl, rfl, rfl, rfl, rfl, by decide, by decide,
    by decide, ?_⟩
  · intro k hk
    have hk2 : k < (Greedy.Machine.calculateFieldTimes data).fields.length := by
      rw [hfields, List.length_map]; exact hk
    refine ⟨hk2, ?_⟩
    have hget : (Greedy.Machine.calculateFieldTimes data).fields[k]
        = { data.fields[k] with timeNeeded := max 1 ⌈((data.fields[k]).waterNeeded : ℚ)
              / ((Greedy.Machine.calculateFieldTimes data).waterDeliveryRate : ℚ)⌉ } := by
      have := List.getElem_map (fun f : Greedy.Field =>
            { f with timeNeeded := max 1 ⌈(f.waterNeeded : ℚ)
                  / ((Greedy.Machine.calculateFieldTimes data).waterDeliveryRate : ℚ)⌉ })
        (l := data.fields) (n := k) (h := by rw [List.length_map]; exact hk)
      rw [← this]
      congr 1
    rw [hget]
    exact ⟨rfl, rfl, rfl, rfl, rfl, rfl⟩
  · have hc : ⌈((2147483647 : Int) : ℚ) / ((50 : Int) : ℚ)⌉ = 42949673 := by
      rw [Int.ceil_eq_iff]
      norm_num
    rw [hc]
    decide

/-- C21, on fields `B` (need 50) and `A` (need 80) with a delivery rate of 30: the rate stays
30 and the fields get `timeNeeded = max 1 (ceil (50 / 30)) = 2` and
`timeNeeded = max 1 (ceil (80 / 30)) = 3`. -/
theorem calculateFieldTimes_spec_witness :
    (∀ f ∈ (Greedy.timed Greedy.fieldsBA 100 1000 30).fields, 0 ≤ f.waterNeeded) ∧
    (∀ f ∈ (Greedy.timed Greedy.fieldsBA 100 1000 30).fields,
      f.waterNeeded + (if 0 < (Greedy.timed Greedy.fieldsBA 100 1000 30).waterDeliveryRate
        then (Greedy.timed Greedy.fieldsBA 100 1000 30).waterDeliveryRate else 50) - 1
        ≤ INT_MAX) ∧
    (Greedy.Machine.calculateFieldTimes
        (Greedy.timed Greedy.fieldsBA 100 1000 30)).waterDeliveryRate = 30 ∧
    (Greedy.Machine.calculateFieldTimes (Greedy.timed Greedy.fieldsBA 100 1000 30)).fields
        = (Greedy.timed Greedy.fieldsBA 100 1000 30).fields.map (fun f =>
            { f with timeNeeded := max 1 ⌈(f.waterNeeded : ℚ)
                  / ((Greedy.Machine.calculateFieldTimes
                      (Greedy.timed Greedy.fieldsBA 100 1000 30)).waterDeliveryRate : ℚ)⌉ }) ∧
    (Greedy.timed Greedy.fieldsBA 100 1000 30).fields.map (fun f =>
        { f with timeNeeded := max 1 ⌈(f.waterNeeded : ℚ)
              / ((Greedy.Machine.calculateFieldTimes
                  (Greedy.timed Greedy.fieldsBA 100 1000 30)).waterDeliveryRate : ℚ)⌉ })
      = [⟨"B", 50, 50, 2, 0, 0⟩, ⟨"A", 10, 80, 3, 0, 0⟩] ∧
    ((Greedy.Machine.calculateFieldTimes (Greedy.timed Greedy.fieldsBA 100 1000 30)).fields.map
        Greedy.Field.timeNeeded) = [2, 3] :=
  have hmap : (Greedy.timed Greedy.fieldsBA 100 1000 30).fields.map (fun f =>
        { f with timeNeeded := max 1 ⌈(f.waterNeeded : ℚ)
              / ((Greedy.Machine.calculateFieldTimes
                  (Greedy.timed Greedy.fieldsBA 100 1000 30)).waterDeliveryRate : ℚ)⌉ })
      = [⟨"B", 50, 50, 2, 0, 0⟩, ⟨"A", 10, 80, 3, 0, 0⟩] := by decide!
  ⟨by decide, by decide,
    (calculateFieldTimes_spec (Greedy.timed Greedy.fieldsBA 100 1000 30) (by decide)
      (by decide)).1.trans (by decide),
    (calculateFieldTimes_spec (Greedy.timed Greedy.fieldsBA 100 1000 30) (by decide)
      (by decide)).2.1,
    hmap,
    (congrArg (List.map Greedy.Field.timeNeeded)
      ((calculateFieldTimes_spec (Greedy.timed Greedy.fieldsBA 100 1000 30) (by decide)
        (by decide)).2.1.trans hmap)).trans (by decide)⟩

/-- C22: the two implementations of the unconstrained greedy agree. When `qsort` hands the
loop of `brute_force_scheduler.c` and `scheduleIrrigation` of `greedy_scheduler.c` (with
`useTimeConstraints = 0`) arrays with the same name, moisture and need at every position, and
the water budget is the same, then every position ends with the same `allocated` and the same
`scheduled`, and `totalWaterUsed` and `remainingWater` are the same. -/
theorem greedy_implementations_agree
    (qsortB : List Field → List Field) (qsortG : List Greedy.Field → List Greedy.Field)
    (dataB : IrrigationData) (hvB : Validated dataB)
    (dataG : Greedy.IrrigationData) (hvG : Greedy.Validated dataG)
    (hU : dataG.useTimeConstraints = 0) (hW : dataG.totalWater = dataB.totalWater)
    (hsame : (qsortG dataG.fields).map Greedy.Field.identity
      = (qsortB dataB.fields).map (fun f => (f.name, f.moisture, f.waterNeeded))) :
    (Greedy.scheduleIrrigation qsortG dataG).fields.map (fun f => (f.allocated, f.scheduled))
        = (BruteForce.priorityResult qsortB dataB).map (fun f => (f.allocated, f.scheduled)) ∧
    (Greedy.scheduleIrrigation qsortG dataG).totalWaterUsed
        = (BruteForce.main qsortB dataB).totalWaterUsed ∧
    (Greedy.scheduleIrrigation qsortG dataG).remainingWater
        = (BruteForce.main qsortB dataB).remainingWater := by
  have hne : dataG.fields ≠ [] := by
    intro h
    have := hvG.2.1
    rw [h] at this
    simp at this
  obtain ⟨e1, e2, _, e4, _⟩ :=
    Greedy.scheduleIrrigation_eq qsortG dataG hne (le_of_lt hvG.1)
  have hpf : Greedy.priorityFields qsortG dataG
      = (qsortG dataG.fields).map (fun f => { f with scheduled := 0, allocated := 0 }) := by
    unfold Greedy.priorityFields
    rw [if_neg (by rw [hU]; simp)]
  have hclrG : ∀ f ∈ Greedy.priorityFields qsortG dataG, f.allocated = 0 ∧ f.scheduled = 0 := by
    intro f hf
    rw [hpf] at hf
    obtain ⟨g, _, rfl⟩ := List.mem_map.1 hf
    exact ⟨rfl, rfl⟩
  have hneed : (resetFields (qsortB dataB.fields)).map Field.waterNeeded
      = (Greedy.priorityFields qsortG dataG).map Greedy.Field.waterNeeded := by
    have h3 := congrArg (List.map (fun p : String × Int × Int => p.2.2)) hsame
    simp only [List.map_map, Function.comp_def, Greedy.Field.identity] at h3
    rw [hpf]
    simp only [resetFields, List.map_map, Function.comp_def]
    exact h3.symm
  obtain ⟨a1, a2, a3⟩ := allocLoops_agree (Greedy.loopRate dataG)
    (resetFields (qsortB dataB.fields)) (Greedy.priorityFields qsortG dataG)
    (Greedy.startTotals dataG) (resetFields_cleared _) hclrG hneed
  have h0 : (Greedy.startTotals dataG).totalWaterUsed = 0 := rfl
  have hr : (Greedy.startTotals dataG).remainingWater = dataB.totalWater := hW
  rw [h0, hr] at a1 a2 a3
  rw [e1, e2, e4, hU]
  exact ⟨a1.symm, a2.symm, a3.symm⟩

/-- C22, on scenario 1 (`totalWater = 100`, fields `B`, `A`) with the same sort for both
programs. -/
theorem greedy_implementations_agree_witness :
    Validated ⟨fieldsBA, 100, 0, 0⟩ ∧ Greedy.Validated (Greedy.untimed Greedy.fieldsBA 100) ∧
    (Greedy.scheduleIrrigation (insertionSort Greedy.compareFields)
        (Greedy.untimed Greedy.fieldsBA 100)).fields.map (fun f => (f.allocated, f.scheduled))
      = (BruteForce.priorityResult (insertionSort compareFields) ⟨fieldsBA, 100, 0, 0⟩).map
          (fun f => (f.allocated, f.scheduled)) ∧
    (Greedy.scheduleIrrigation (insertionSort Greedy.compareFields)
        (Greedy.untimed Greedy.fieldsBA 100)).totalWaterUsed
      = (BruteForce.main (insertionSort compareFields) ⟨fieldsBA, 100, 0, 0⟩).totalWaterUsed ∧
    (Greedy.scheduleIrrigation (insertionSort Greedy.compareFields)
        (Greedy.untimed Greedy.fieldsBA 100)).remainingWater
      = (BruteForce.main (insertionSort compareFields) ⟨fieldsBA, 100, 0, 0⟩).remainingWater :=
  ⟨by decide, by decide,
    greedy_implementations_agree (insertionSort compareFields)
      (insertionSort Greedy.compareFields) ⟨fieldsBA, 100, 0, 0⟩ (by decide)
      (Greedy.untimed Greedy.fieldsBA 100) (by decide) rfl rfl (by decide)⟩

/-- C23 as claimed fails: with `totalWater = 1` and the single field `E` (moisture 0, need
15) the greedy loop hands out the remaining unit, since `15 / 10 = 1` in integer division,
while the search admits no amount below `(15 + 9) / 10 = 2` and hands out nothing, in `float`
and in exact arithmetic; the greedy value `100 * 1 / 15` is above the value `0` of the
search.  In `float` arithmetic the search can also rank two allocations the wrong way
round: with `totalWater = 26218` and the fields `P` (moisture 0, need 1), `Q` (moisture 99,
need 262150) greedy gives `Q` 26217 units, which is above `ceil (262150 / 10)`, while the
search gives `Q` 26216 units and leaves one unit unused, because both sums round to the same
`float`.  And with a need of `INT_MAX` the search has no result. -/
theorem dp_value_below_greedy :
    (Validated ⟨fieldsE, 1, 0, 0⟩ ∧ FreshlyParsed fieldsE ∧
      (BruteForce.main (insertionSort compareFields) ⟨fieldsE, 1, 0, 0⟩).fields.map
          Field.allocated = [1] ∧
      Dp.Machine.main Dp.floatArith (insertionSort compareFields) ⟨fieldsE, 1, 0, 0⟩
        = some ⟨[⟨"E", 0, 15, 0, 0, 0⟩], 1, 0, 1⟩ ∧
      Dp.Machine.main Dp.exactArith (insertionSort compareFields) ⟨fieldsE, 1, 0, 0⟩
        = some ⟨[⟨"E", 0, 15, 0, 0, 0⟩], 1, 0, 1⟩ ∧
      Dp.totalValue fieldsE [0] < Dp.totalValue fieldsE [1]) ∧
    (Validated ⟨fieldsRound, 26218, 0, 0⟩ ∧ FreshlyParsed fieldsRound ∧
      (BruteForce.main (insertionSort compareFields) ⟨fieldsRound, 26218, 0, 0⟩).fields
        = [⟨"P", 0, 1, 1, 1, 0⟩, ⟨"Q", 99, 262150, 26217, 1, 1⟩] ∧
      ⌈((262150 : Int) : ℚ) / 10⌉ ≤ (26217 : Int) ∧
      Dp.Machine.main Dp.floatArith (insertionSort compareFields) ⟨fieldsRound, 26218, 0, 0⟩
        = some ⟨[⟨"P", 0, 1, 1, 1, 0⟩, ⟨"Q", 99, 262150, 26216, 1, 1⟩], 26218, 26217, 1⟩ ∧
      Dp.totalValue fieldsRound [1, 26216] < Dp.totalValue fieldsRound [1, 26217]) ∧
    (Validated ⟨fieldsH, 10, 0, 0⟩ ∧
      Dp.Machine.main Dp.floatArith (insertionSort compareFields) ⟨fieldsH, 10, 0, 0⟩
        = none) := by
  refine ⟨⟨by decide, ⟨by decide, by decide⟩, by decide, by decide!, by decide!, by decide!⟩,
    ⟨by decide, ⟨by decide, by decide⟩, by decide, ?_, Dp.Machine.round_main, by decide!⟩,
    by decide, by decide⟩
  rw [Int.ceil_le]
  norm_num

/-- C23, amended: with the value arithmetic taken exactly, for a validated input with every
need at most `INT_MAX - 9` and a budget below `INT_MAX`, on which every field that the
unconstrained greedy serves only in part receives at least `ceil (waterNeeded / 10)`, the
search of `dp_scheduler.c` has a result and the total value of its allocation is at least the
total value of the allocation of `brute_force_scheduler.c`, whatever order `qsort` gives to
ties in either program. -/
theorem dp_value_at_least_greedy
    (qsortD : List Field → List Field) (hD : IsQsort compareFields qsortD)
    (qsortG : List Field → List Field) (hG : IsQsort compareFields qsortG)
    (data : IrrigationData) (hv : Validated data) (hfresh : FreshlyParsed data.fields)
    (hneed : ∀ f ∈ data.fields, f.waterNeeded + 9 ≤ INT_MAX)
    (hmax : data.totalWater < INT_MAX)
    (hpart : ∀ f ∈ (BruteForce.main qsortG data).fields, f.isPartial →
      ⌈(f.waterNeeded : ℚ) / 10⌉ ≤ f.allocated) :
    ∃ out, Dp.Machine.main Dp.exactArith qsortD data = some out ∧
      Dp.totalValue data.fields ((BruteForce.main qsortG data).fields.map Field.allocated)
        ≤ Dp.totalValue data.fields (out.fields.map Field.allocated) := by
  have hN : ∀ f ∈ data.fields, 0 ≤ f.waterNeeded := fun f hf => (hv.2.2.2 f hf).2.2
  obtain ⟨a, b, c, d, e⟩ := BruteForce.allocLoop_spec _ 0 data.totalWater (le_of_lt hv.1)
    (resetFields_need _ (qsort_need qsortG hG _ hN)) (resetFields_cleared _)
  have hp : ((BruteForce.main qsortG data).fields).Perm
      (BruteForce.allocLoop (resetFields (qsortG data.fields)) 0 data.totalWater).1 :=
    restoreOrder_perm _
  refine ⟨_, Dp.Machine.machine_main_exact qsortD hD data (le_of_lt hv.1) hmax
    (fun f hf => ⟨hN f hf, hneed f hf⟩), ?_⟩
  apply (Dp.main_spec qsortD hD data hv hfresh).2.2
  apply Dp.feasible_of_identity _ _ _ (BruteForce.main_identity qsortG hG data hfresh)
  · intro g hg
    have hb := a g (hp.mem_iff.1 hg)
    by_cases h0 : g.allocated = 0
    · exact Or.inl h0
    · right
      refine ⟨?_, hb.2⟩
      by_cases hfull : g.allocated = g.waterNeeded
      · rw [hfull, Int.ceil_le]
        have h1 : (0 : ℚ) ≤ (g.waterNeeded : ℚ) := by exact_mod_cast (by omega : 0 ≤ g.waterNeeded)
        linarith
      · exact hpart g hg ⟨by omega, by omega⟩
  · rw [(hp.map Field.allocated).sum_eq]
    omega

/-- C23 amended, on scenario 1 (`totalWater = 100`, fields `B`, `A`): greedy serves `A` in
full and gives `B` the remaining 20 of its 50, which is above `ceil (50 / 10) = 5`. -/
theorem dp_value_at_least_greedy_witness :
    Validated ⟨fieldsBA, 100, 0, 0⟩ ∧ FreshlyParsed fieldsBA ∧
    (∀ f ∈ fieldsBA, f.waterNeeded + 9 ≤ INT_MAX) ∧ (100 : Int) < INT_MAX ∧
    (∀ f ∈ (BruteForce.main (insertionSort compareFields) ⟨fieldsBA, 100, 0, 0⟩).fields,
      f.isPartial → ⌈(f.waterNeeded : ℚ) / 10⌉ ≤ f.allocated) ∧
    (∃ out, Dp.Machine.main Dp.exactArith (insertionSort compareFields)
        ⟨fieldsBA, 100, 0, 0⟩ = some out ∧
      Dp.totalValue fieldsBA
          ((BruteForce.main (insertionSort compareFields) ⟨fieldsBA, 100, 0, 0⟩).fields.map
            Field.allocated)
        ≤ Dp.totalValue fieldsBA (out.fields.map Field.allocated)) :=
  have hmain : (BruteForce.main (insertionSort compareFields) ⟨fieldsBA, 100, 0, 0⟩).fields
      = [⟨"B", 50, 50, 20, 1, 0⟩, ⟨"A", 10, 80, 80, 1, 1⟩] := by decide
  have hpart : ∀ f ∈ (BruteForce.main (insertionSort compareFields)
      ⟨fieldsBA, 100, 0, 0⟩).fields,
      f.isPartial → ⌈(f.waterNeeded : ℚ) / 10⌉ ≤ f.allocated := by
    rw [hmain]
    intro f hf _
    simp only [List.mem_cons, List.mem_singleton, List.not_mem_nil, or_false] at hf
    rcases hf with rfl | rfl
    · rw [Int.ceil_le]; norm_num
    · rw [Int.ceil_le]; norm_num
  ⟨by decide, ⟨by decide, by decide⟩, by decide, by decide, hpart,
    dp_value_at_least_greedy (insertionSort compareFields)
      (insertionSort_isQsort _ compareFields_total) (insertionSort compareFields)
      (insertionSort_isQsort _ compareFields_total) ⟨fieldsBA, 100, 0, 0⟩ (by decide)
      ⟨by decide, by decide⟩ (by decide) (by decide) hpart⟩

/-- C24: the totals of the unconstrained greedy depend neither on the order of the input nor
on the order that `qsort` gives to ties. For a validated input, any input with the same
budget whose fields carry the same moisture and need values in another order, and any two
results of `qsort` that follow `compareFields`: `totalWaterUsed` and `remainingWater` are the
same, and so is the sequence of moisture, need and allocated amount in priority order. -/
theorem greedy_totals_order_independent
    (qsort1 : List Field → List Field) (h1 : IsQsort compareFields qsort1)
    (qsort2 : List Field → List Field) (h2 : IsQsort compareFields qsort2)
    (data1 data2 : IrrigationData) (hv : Validated data1)
    (hperm : (data2.fields.map (fun f => (f.moisture, f.waterNeeded))).Perm
      (data1.fields.map (fun f => (f.moisture, f.waterNeeded))))
    (hW : data2.totalWater = data1.totalWater) :
    (BruteForce.main qsort2 data2).totalWaterUsed
        = (BruteForce.main qsort1 data1).totalWaterUsed ∧
    (BruteForce.main qsort2 data2).remainingWater
        = (BruteForce.main qsort1 data1).remainingWater ∧
    (BruteForce.priorityResult qsort2 data2).map
        (fun f => (f.moisture, f.waterNeeded, f.allocated))
      = (BruteForce.priorityResult qsort1 data1).map
        (fun f => (f.moisture, f.waterNeeded, f.allocated)) := by
  have hp : ((qsort2 data2.fields).map (fun f => (f.moisture, f.waterNeeded))).Perm
      ((qsort1 data1.fields).map (fun f => (f.moisture, f.waterNeeded))) :=
    (((h2 data2.fields).1.map _).trans hperm).trans ((h1 data1.fields).1.map _).symm
  have hk := sorted_keys_unique (qsort1 data1.fields) (qsort2 data2.fields) hp
    (h1 data1.fields).2 (h2 data2.fields).2
  have hr : ∀ l : List Field, (resetFields l).map (fun f => (f.moisture, f.waterNeeded))
      = l.map (fun f => (f.moisture, f.waterNeeded)) := by
    intro l
    simp only [resetFields, List.map_map, Function.comp_def]
  obtain ⟨a, b⟩ := BruteForce.allocLoop_same_keys (resetFields (qsort2 data2.fields))
    (resetFields (qsort1 data1.fields)) 0 data1.totalWater (resetFields_cleared _)
    (resetFields_cleared _) (by rw [hr, hr, hk])
  simp only [BruteForce.main, BruteForce.priorityResult, hW]
  exact ⟨by rw [b], by rw [b], a⟩

/-- C24, on scenario 1 given as `B`, `A` and sorted by insertion, against the same fields
given as `A`, `B` and sorted by insertion from the other end. -/
theorem greedy_totals_order_independent_witness :
    Validated ⟨fieldsBA, 100, 0, 0⟩ ∧
    (BruteForce.main (unstableSort compareFields) ⟨fieldsAB, 100, 0, 0⟩).totalWaterUsed
        = (BruteForce.main (insertionSort compareFields) ⟨fieldsBA, 100, 0, 0⟩).totalWaterUsed ∧
    (BruteForce.main (unstableSort compareFields) ⟨fieldsAB, 100, 0, 0⟩).remainingWater
        = (BruteForce.main (insertionSort compareFields) ⟨fieldsBA, 100, 0, 0⟩).remainingWater ∧
    (BruteForce.priorityResult (unstableSort compareFields) ⟨fieldsAB, 100, 0, 0⟩).map
        (fun f => (f.moisture, f.waterNeeded, f.allocated))
      = (BruteForce.priorityResult (insertionSort compareFields) ⟨fieldsBA, 100, 0, 0⟩).map
        (fun f => (f.moisture, f.waterNeeded, f.allocated)) :=
  ⟨by decide,
    greedy_totals_order_independent (insertionSort compareFields)
      (insertionSort_isQsort _ compareFields_total) (unstableSort compareFields)
      (unstableSort_isQsort _ compareFields_total) ⟨fieldsBA, 100, 0, 0⟩ ⟨fieldsAB, 100, 0, 0⟩
      (by decide) (by decide) rfl⟩

end SmartFarm
